import Mathlib

/-!
Verification development for the metabase-migration-toolkit repository.

The Python sources are shallowly embedded: JSON payloads (as produced by
`json.load`) become an inductive `Json` type, Python dicts become
insertion-ordered association lists, fallible code returns `Except PyErr`,
and the HTTP client and filesystem are oracle parameters.  Definitions are
translated from the source files named in their doc comments.
-/

namespace MetabaseMigration

/-- JSON-like values as produced by Python `json.load` (floats are not used by
any of the embedded code paths and are omitted).  Objects are
insertion-ordered key/value lists, matching Python dict semantics. -/
inductive Json where
  | null
  | bool (b : Bool)
  | int (n : Int)
  | str (s : String)
  | arr (xs : List Json)
  | obj (kvs : List (String × Json))
deriving Inhabited

namespace Json

/-- Python truthiness (`if x:`) for the embedded value universe. -/
def truthy : Json → Bool
  | .null => false
  | .bool b => b
  | .int n => n != 0
  | .str s => s != ""
  | .arr xs => !xs.isEmpty
  | .obj kvs => !kvs.isEmpty

end Json

/-- Python `dict.get(k)` (returns `none` for a missing key).  Python dicts have
unique keys; on association lists with duplicate keys the first binding is
taken. -/
def dget (kvs : List (String × Json)) (k : String) : Option Json :=
  kvs.lookup k

/-- Python `dict.get(k, default)`. -/
def dgetD (kvs : List (String × Json)) (k : String) (dflt : Json) : Json :=
  (dget kvs k).getD dflt

/-- Python `k in d`. -/
def dmem (kvs : List (String × Json)) (k : String) : Bool :=
  (dget kvs k).isSome

/-- Python `d[k] = v`: update in place when the key exists (keeping its
position), append otherwise. -/
def dset (kvs : List (String × Json)) (k : String) (v : Json) : List (String × Json) :=
  match kvs with
  | [] => [(k, v)]
  | (k', v') :: rest => if k' = k then (k, v) :: rest else (k', v') :: dset rest k v

/-- Generic Python dict assignment for non-`Json` value types ("last write
wins", insertion order preserved). -/
def pyInsert {κ α : Type} [DecidableEq κ] (kvs : List (κ × α)) (k : κ) (v : α) :
    List (κ × α) :=
  match kvs with
  | [] => [(k, v)]
  | (k', v') :: rest => if k' = k then (k, v) :: rest else (k', v') :: pyInsert rest k v

/-- Python exceptions that the embedded code paths can raise. -/
inductive PyErr where
  | valueError
  | typeError
  | attributeError
deriving DecidableEq, Repr

/-- Python `isinstance(x, int)` together with the integer value: `bool` is a
subtype of `int` in Python, with `True == 1` and `False == 0`. -/
def pyInt : Json → Option Int
  | .int n => some n
  | .bool b => some (if b then 1 else 0)
  | _ => none

/-- Character-list prefix test (the Python `str.startswith` semantics,
implemented over `List Char` so that proofs and `decide` can evaluate it). -/
def charsStartsWith : List Char → List Char → Bool
  | _, [] => true
  | [], _ :: _ => false
  | c :: cs, p :: ps => c == p && charsStartsWith cs ps

/-- Python `s.startswith(pre)`. -/
def strStartsWith (s pre : String) : Bool :=
  charsStartsWith s.data pre.data

/-- Left-to-right non-overlapping replacement of every occurrence of `pat`
(the Python `str.replace` semantics for a non-empty pattern).  The fuel is
the length of the subject, which consumes at least one character per
step. -/
def charsReplaceFuel (pat rep : List Char) : Nat → List Char → List Char
  | _, [] => []
  | 0, s => s
  | fuel + 1, c :: cs =>
    if charsStartsWith (c :: cs) pat then
      rep ++ charsReplaceFuel pat rep fuel (List.drop (pat.length - 1) cs)
    else
      c :: charsReplaceFuel pat rep fuel cs

/-- Python `s.replace(pat, rep)` for a non-empty pattern (the embedded code
only replaces the literal `card__`). -/
def strReplace (s pat rep : String) : String :=
  ⟨charsReplaceFuel pat.data rep.data s.data.length s.data⟩

/-- Decimal digits of a natural number, most significant first (any fuel of
at least `n + 1` is exact). -/
def natToDecAux : Nat → Nat → List Char
  | 0, _ => []
  | fuel + 1, n =>
    if n < 10 then [Char.ofNat (48 + n)]
    else natToDecAux fuel (n / 10) ++ [Char.ofNat (48 + n % 10)]

/-- Decimal digits of a natural number. -/
def natToDec (n : Nat) : List Char := natToDecAux (n + 1) n

/-- Python `str(i)` for an integer: decimal representation with a leading
minus sign for negative values (identical to Lean `toString` but defined by
structural recursion so that it evaluates inside the kernel). -/
def intToDec (i : Int) : String :=
  ⟨if i < 0 then '-' :: natToDec i.natAbs else natToDec i.natAbs⟩

/-- ASCII whitespace stripped by Python `str.strip()` / accepted by
`int()`. -/
def isPySpace (c : Char) : Bool :=
  c == ' ' || c == '\t' || c == '\n' || c == '\r' || c == '\x0b' || c == '\x0c'

/-- Strip leading and trailing whitespace from a character list. -/
def strTrimChars (l : List Char) : List Char :=
  ((l.dropWhile isPySpace).reverse.dropWhile isPySpace).reverse

/-- Python `int(s)` for the shapes that occur in card references: optional
surrounding ASCII whitespace, an optional sign, then one or more decimal
digits.  (Python additionally accepts underscore separators and unicode
digits; those shapes are not modelled.)  Returns `none` where `int()` raises
`ValueError`. -/
def pyIntOfString (s : String) : Option Int :=
  let t := strTrimChars s.data
  let neg : Bool := t.head? = some '-'
  let core : List Char :=
    if t.head? = some '-' ∨ t.head? = some '+' then t.tail else t
  if core ≠ [] ∧ core.all (·.isDigit) then
    let mag : Nat := core.foldl (fun acc c => acc * 10 + (c.toNat - 48)) 0
    some (if neg then -(mag : Int) else (mag : Int))
  else
    none

/-- The user-authored database mapping file `db_map.json`
(`src/lib/models.py`, `DatabaseMap`): JSON forces string keys in `by_id`. -/
structure DatabaseMap where
  by_id : List (String × Int) := []
  by_name : List (String × Int) := []
deriving DecidableEq, Repr

/-- Resolver state of `IDRemapper` (`src/lib/id_remapping.py`): the database
map, the manifest `databases` dict (integer keys after loading), and the
`(source_db_id, source_table_id) -> target` table/field maps. -/
structure IDRemapperState where
  db_map : DatabaseMap := {}
  manifest_databases : List (Int × String) := []
  table_map : List ((Int × Int) × Int) := []
  field_map : List ((Int × Int) × Int) := []
deriving DecidableEq, Repr

namespace IDRemapper

/-- Embedding of `IDRemapper.resolve_db_id` (`src/lib/id_remapping.py`,
lines 44-62): `by_id[str(source_db_id)]` takes precedence; otherwise the
manifest name is looked up and, when truthy (non-empty), tried against
`by_name`; otherwise `None`. -/
def resolve_db_id (st : IDRemapperState) (source_db_id : Int) : Option Int :=
  match st.db_map.by_id.lookup (intToDec source_db_id) with
  | some t => some t
  | none =>
    match st.manifest_databases.lookup source_db_id with
    | some source_db_name =>
      if source_db_name ≠ "" then st.db_map.by_name.lookup source_db_name
      else none
    | none => none

/-- Embedding of `resolve_db_id` as invoked from `remap_card_query`, where the
argument is whatever JSON value was found in the payload (`str(x)` is applied
to it, and `manifest.databases.get(x)` uses Python key equality, under which
`True == 1` and `False == 0`).  `str()` of lists and dicts is not modelled:
for such (unhashable) arguments the later `manifest.databases.get` raises
`TypeError`, which is what this embedding returns for them (assuming no
`by_id` key equals the Python repr of a list or dict). -/
def resolve_db_id_any (st : IDRemapperState) : Json → Except PyErr (Option Int)
  | .int n => .ok (resolve_db_id st n)
  | .bool b =>
    .ok (match st.db_map.by_id.lookup (if b then "True" else "False") with
      | some t => some t
      | none =>
        match st.manifest_databases.lookup (if b then 1 else 0) with
        | some name =>
          if name ≠ "" then st.db_map.by_name.lookup name else none
        | none => none)
  | .str s =>
    -- an integer-keyed dict never contains a string key, so the manifest
    -- lookup misses and only the by_id branch can succeed
    .ok (st.db_map.by_id.lookup s)
  | .null => .ok (st.db_map.by_id.lookup "None")
  | .arr _ => .error .typeError
  | .obj _ => .error .typeError

end IDRemapper

open IDRemapper

/-- Test whether a JSON value equals the string `"field"` or `"field-id"`
(Python `data[0] in ("field", "field-id")`; only strings can compare equal). -/
def isFieldTag : Json → Bool
  | .str "field" => true
  | .str "field-id" => true
  | _ => false

/-- Table/field map lookup keyed by `(source_db_id, local_id)`, where the
database component is whatever JSON value the payload supplied: Python tuple
keys compare with `True == 1` and `False == 0`, and a non-integer database
value never equals an integer key. -/
def lookupByDb (m : List ((Int × Int) × Int)) (dbv : Json) (x : Int) : Option Int :=
  match pyInt dbv with
  | some d => m.lookup (d, x)
  | none => none

mutual

/-- Embedding of `IDRemapper.remap_field_ids_recursively`
(`src/lib/id_remapping.py`, lines 165-225).  A list whose first element is
`"field"` or `"field-id"` and which has at least two elements is a field
reference: its second element, when an integer, is rewritten through the
field map (missing mappings are kept with a warning) and the remaining
elements are NOT recursed into; every other list or dict is rebuilt
recursively; primitives are returned as-is. -/
def remap_field_ids_recursively (fm : List ((Int × Int) × Int)) (dbv : Json) :
    Json → Json
  | .null => .null
  | .arr [] => .arr []
  | .arr [x] => .arr (remapFieldsList fm dbv [x])
  | .arr (a :: b :: rest) =>
    if isFieldTag a then
      match pyInt b with
      | some fid =>
        match lookupByDb fm dbv fid with
        | some tgt => .arr (a :: .int tgt :: rest)
        | none => .arr (a :: b :: rest)
      | none => .arr (a :: b :: rest)
    else
      .arr (remapFieldsList fm dbv (a :: b :: rest))
  | .obj kvs => .obj (remapFieldsObj fm dbv kvs)
  | .bool b => .bool b
  | .int n => .int n
  | .str s => .str s

/-- List helper for `remap_field_ids_recursively`. -/
def remapFieldsList (fm : List ((Int × Int) × Int)) (dbv : Json) :
    List Json → List Json
  | [] => []
  | x :: xs => remap_field_ids_recursively fm dbv x :: remapFieldsList fm dbv xs

/-- Dict helper for `remap_field_ids_recursively` (values are rebuilt, keys
and ordering preserved). -/
def remapFieldsObj (fm : List ((Int × Int) × Int)) (dbv : Json) :
    List (String × Json) → List (String × Json)
  | [] => []
  | (k, v) :: xs => (k, remap_field_ids_recursively fm dbv v) :: remapFieldsObj fm dbv xs

end

/-- Embedding of `IDRemapper._remap_source_table` (`src/lib/id_remapping.py`,
lines 291-317): rewrites a `card__<id>` string through the card map, or an
integer table id through the table map; unknown ids and malformed card
references are kept unchanged. -/
def remap_source_table (st : IDRemapperState) (card_map : List (Int × Int))
    (dbv : Json) (inner_query : List (String × Json)) : List (String × Json) :=
  match dget inner_query "source-table" with
  | some (.str s) =>
    if strStartsWith s "card__" then
      match pyIntOfString (strReplace s "card__" "") with
      | some cid =>
        match card_map.lookup cid with
        | some tgt => dset inner_query "source-table" (.str ("card__" ++ intToDec tgt))
        | none => inner_query
      | none => inner_query  -- int() raised ValueError: warned, kept
    else inner_query
  | some v =>
    match pyInt v with
    | some tbl =>
      match lookupByDb st.table_map dbv tbl with
      | some tgt => dset inner_query "source-table" (.int tgt)
      | none => inner_query
    | none => inner_query
  | none => inner_query

/-- Rewrites one element of the `joins` list, as done by the loop body of
`IDRemapper._remap_joins` (`src/lib/id_remapping.py`, lines 319-342); a
non-dict join raises `AttributeError` at `join.get`. -/
def remap_join_item (st : IDRemapperState) (card_map : List (Int × Int))
    (dbv : Json) : Json → Except PyErr Json
  | .obj j =>
    .ok (.obj (match dget j "source-table" with
      | some (.str s) =>
        if strStartsWith s "card__" then
          match pyIntOfString (strReplace s "card__" "") with
          | some cid =>
            match card_map.lookup cid with
            | some tgt => dset j "source-table" (.str ("card__" ++ intToDec tgt))
            | none => j
          | none => j
        else j
      | some v =>
        match pyInt v with
        | some tbl =>
          match lookupByDb st.table_map dbv tbl with
          | some tgt => dset j "source-table" (.int tgt)
          | none => j
        | none => j
      | none => j))
  | _ => .error .attributeError

/-- Embedding of `IDRemapper._remap_joins` (`src/lib/id_remapping.py`,
lines 319-342): `joins = inner_query.get("joins", [])` followed by the
per-element rewrite.  Iterating a non-empty string or dict reaches a
non-dict element (`AttributeError`); non-iterable values raise
`TypeError`. -/
def remap_joins (st : IDRemapperState) (card_map : List (Int × Int)) (dbv : Json)
    (inner_query : List (String × Json)) : Except PyErr (List (String × Json)) :=
  match dget inner_query "joins" with
  | none => .ok inner_query
  | some (.arr xs) =>
    match xs.mapM (remap_join_item st card_map dbv) with
    | .ok xs' => .ok (dset inner_query "joins" (.arr xs'))
    | .error e => .error e
  | some (.str s) =>
    if s = "" then .ok inner_query else .error .attributeError
  | some (.obj kvs) =>
    if kvs.isEmpty then .ok inner_query else .error .attributeError
  | some _ => .error .typeError

/-- The clause keys scanned by `IDRemapper._remap_query_clauses`
(`src/lib/id_remapping.py`, line 346). -/
def clauseKeys : List String :=
  ["filter", "aggregation", "breakout", "order-by", "fields", "expressions"]

/-- Embedding of `IDRemapper._remap_query_clauses` (`src/lib/id_remapping.py`,
lines 344-348). -/
def remap_query_clauses (fm : List ((Int × Int) × Int)) (dbv : Json)
    (inner_query : List (String × Json)) : List (String × Json) :=
  clauseKeys.foldl (fun acc k =>
    match dget acc k with
    | some v => dset acc k (remap_field_ids_recursively fm dbv v)
    | none => acc) inner_query

/-- Rewrites one `result_metadata` entry, as done by the loop body of
`IDRemapper._remap_result_metadata` (`src/lib/id_remapping.py`,
lines 355-390): `field_ref`, the direct field `id`, and `table_id` are
remapped on a shallow copy; non-dict entries are kept as-is. -/
def remap_result_metadata_item (st : IDRemapperState) (dbv : Json) : Json → Json
  | .obj m =>
    let m1 := match dget m "field_ref" with
      | some v => dset m "field_ref" (remap_field_ids_recursively st.field_map dbv v)
      | none => m
    let m2 := match dget m1 "id" with
      | some v =>
        match pyInt v with
        | some fid =>
          match lookupByDb st.field_map dbv fid with
          | some tgt => dset m1 "id" (.int tgt)
          | none => m1
        | none => m1
      | none => m1
    let m3 := match dget m2 "table_id" with
      | some v =>
        match pyInt v with
        | some tbl =>
          match lookupByDb st.table_map dbv tbl with
          | some tgt => dset m2 "table_id" (.int tgt)
          | none => m2
        | none => m2
      | none => m2
    .obj m3
  | j => j

/-- Embedding of `IDRemapper._remap_result_metadata`
(`src/lib/id_remapping.py`, lines 350-392): nothing happens unless
`result_metadata` is present and a list. -/
def remap_result_metadata (st : IDRemapperState) (dbv : Json)
    (data : List (String × Json)) : List (String × Json) :=
  match dget data "result_metadata" with
  | some (.arr items) =>
    dset data "result_metadata" (.arr (items.map (remap_result_metadata_item st dbv)))
  | _ => data

/-- The top-level `database_id` rewrite of `remap_card_query`
(`src/lib/id_remapping.py`, lines 250-252): `if "database_id" in data:
data["database_id"] = target_db_id`. -/
def remap_database_id_entry (t : Int) (d : List (String × Json)) :
    List (String × Json) :=
  match dget d "database_id" with
  | some _ => dset d "database_id" (.int t)
  | none => d

/-- The top-level `table_id` rewrite of `remap_card_query`
(`src/lib/id_remapping.py`, lines 280-284). -/
def remap_table_id_entry (st : IDRemapperState) (dbv : Json)
    (d : List (String × Json)) : List (String × Json) :=
  match dget d "table_id" with
  | some v =>
    (match pyInt v with
     | some tbl =>
       (match lookupByDb st.table_map dbv tbl with
        | some tgt => dset d "table_id" (.int tgt)
        | none => d)
     | none => d)
  | none => d

/-- The `visualization_settings` rewrite of `remap_card_query`
(`src/lib/id_remapping.py`, lines 286-287). -/
def remap_viz_entry (fm : List ((Int × Int) × Int)) (dbv : Json)
    (d : List (String × Json)) : List (String × Json) :=
  match dget d "visualization_settings" with
  | some v =>
    dset d "visualization_settings" (remap_field_ids_recursively fm dbv v)
  | none => d

/-- Write the rewritten `dataset_query` dict back into the payload (it was
mutated in place in Python; in the value model the final dict value is
re-assigned). -/
def set_dataset_query (q1 : Option (List (String × Json)))
    (d : List (String × Json)) : List (String × Json) :=
  match q1 with
  | some q => dset d "dataset_query" (.obj q)
  | none => d

/-- The `dataset_query` stage of `IDRemapper.remap_card_query`
(`src/lib/id_remapping.py`, lines 254-278): `query["database"] = target`
(lost when `dataset_query` is absent, `TypeError` when it is not a dict),
then the inner `query.get("query", \x7b\x7d)` pipeline (`_remap_source_table`,
`_remap_joins`, `_remap_query_clauses`) when the inner query is truthy.
Returns the final value of the `dataset_query` dict, or `none` when the key
was absent from the payload. -/
def remapQueryStage (st : IDRemapperState) (card_map : List (Int × Int))
    (dbv : Json) (t : Int) (dq : Option Json) :
    Except PyErr (Option (List (String × Json))) :=
  match dq with
  | none => .ok none
  | some (.obj q) =>
    let q1 := dset q "database" (.int t)
    match dget q1 "query" with
    | none => .ok (some q1)
    | some v =>
      if v.truthy = false then .ok (some q1)
      else
        match v with
        | .obj iq0 =>
          let iq1 := remap_source_table st card_map dbv iq0
          match remap_joins st card_map dbv iq1 with
          | .error e => .error e
          | .ok iq2 =>
            let iq3 := remap_query_clauses st.field_map dbv iq2
            .ok (some (dset q1 "query" (.obj iq3)))
        | _ => .error .attributeError
  | some _ => .error .typeError

/-- Embedding of `IDRemapper.remap_card_query` (`src/lib/id_remapping.py`,
lines 227-289).  The Python code first deep-copies the payload and then
mutates only the copy; since payloads are JSON trees, the copy is the same
value and the function is modelled as a pure transformation.
`source_db_id = data.get("database_id") or query.get("database")`; a falsy
source id returns `(copy, False)`; an unresolved (or falsy-resolved) target
raises `ValueError`; otherwise the database, table, field and card
references are rewritten and `(copy, True)` is returned. -/
def remap_card_query (st : IDRemapperState) (card_map : List (Int × Int))
    (card_data : Json) : Except PyErr (Json × Bool) :=
  match card_data with
  | .obj data0 =>
    let dq := dget data0 "dataset_query"
    let queryGetDatabase : Except PyErr Json :=
      match dq with
      | none => .ok .null
      | some (.obj q) => .ok ((dget q "database").getD .null)
      | some _ => .error .attributeError
    let sourceRes : Except PyErr Json :=
      match dget data0 "database_id" with
      | some v => if v.truthy then .ok v else queryGetDatabase
      | none => queryGetDatabase
    match sourceRes with
    | .error e => .error e
    | .ok sourceVal =>
      if sourceVal.truthy = false then .ok (.obj data0, false)
      else
        match IDRemapper.resolve_db_id_any st sourceVal with
        | .error e => .error e
        | .ok none => .error .valueError
        | .ok (some t) =>
          if t = 0 then .error .valueError  -- `if not target_db_id` treats 0 as unresolved
          else
            match remapQueryStage st card_map sourceVal t dq with
            | .error e => .error e
            | .ok q1 =>
              let data1 := remap_database_id_entry t data0
              let data2 := remap_table_id_entry st sourceVal data1
              let data3 := remap_result_metadata st sourceVal data2
              let data4 := remap_viz_entry st.field_map sourceVal data3
              let data5 := set_dataset_query q1 data4
              .ok (.obj data5, true)
  | _ => .error .attributeError

/-- Python `set.add`: membership-based insertion (used to model the
`dependencies` set in the extraction functions). -/
def addSet (xs : List Int) (x : Int) : List Int :=
  if x ∈ xs then xs else xs ++ [x]

/-- Embedding of `CardExporter.extract_card_dependencies`
(`src/lib/exporters/cards.py`, lines 46-82).
`CardImporter._extract_card_dependencies` (`src/lib/importers/cards.py`,
lines 215-249) is identical apart from log messages, so this single
definition embeds both.  Only `dataset_query.query.source-table` and
`dataset_query.query.joins[*].source-table` references of the form
`card__<id>` are inspected; the returned list is the dependency set in
insertion order. -/
def extract_card_dependencies (card_data : Json) : Except PyErr (List Int) := do
  -- dataset_query = card_data.get("dataset_query", \x7b\x7d)
  let dqv ← match card_data with
    | .obj kvs => .ok (dgetD kvs "dataset_query" (.obj []))
    | _ => .error .attributeError
  -- query = dataset_query.get("query", \x7b\x7d)
  let qv ← match dqv with
    | .obj kvs => .ok (dgetD kvs "query" (.obj []))
    | _ => .error .attributeError
  let q ← match qv with
    | .obj kvs => .ok kvs
    | _ => .error .attributeError
  -- source-table card reference (format "card__123")
  let deps0 : List Int :=
    match dget q "source-table" with
    | some (.str s) =>
      if strStartsWith s "card__" then
        match pyIntOfString (strReplace s "card__" "") with
        | some cid => addSet [] cid
        | none => []  -- int() raised ValueError: warned and skipped
      else []
    | _ => []
  -- joins = query.get("joins", []); card references in joins
  let joins ← match dgetD q "joins" (.arr []) with
    | .arr xs => .ok xs
    | .str "" => .ok []   -- iterating an empty string yields nothing
    | .obj [] => .ok []   -- iterating an empty dict yields nothing
    | .str _ => .error .attributeError
    | .obj _ => .error .attributeError
    | _ => .error .typeError
  let deps ← joins.foldlM (fun acc j =>
    match j with
    | .obj jkvs =>
      .ok (match dget jkvs "source-table" with
        | some (.str s) =>
          if strStartsWith s "card__" then
            match pyIntOfString (strReplace s "card__" "") with
            | some cid => addSet acc cid
            | none => acc
          else acc
        | _ => acc)
    | _ => (.error .attributeError : Except PyErr (List Int))) deps0
  .ok deps

/-- The `Card` record exactly as declared in `src/lib/models.py`
(lines 23-33): note there is no `dataset` field. -/
structure Card where
  id : Int
  name : String
  collection_id : Option Int := none
  database_id : Option Int := none
  file_path : String := ""
  checksum : String := ""
  archived : Bool := false
  dataset_query : Option Json := none

/-- Field names of the `Card` dataclass in `src/lib/models.py`; these are
exactly the keyword arguments its generated `__init__` accepts. -/
def cardFieldNames : List String :=
  ["id", "name", "collection_id", "database_id", "file_path", "checksum",
   "archived", "dataset_query"]

/-- Keyword-argument names of the `Card(...)` constructor call in
`CardExporter.export_card` (`src/lib/exporters/cards.py`, lines 204-213). -/
def exportCardKwargNames : List String :=
  ["id", "name", "collection_id", "database_id", "file_path", "checksum",
   "archived", "dataset"]

/-- A Python dataclass `__init__` accepts a keyword-argument list iff every
keyword names a declared field; an unknown keyword raises `TypeError`. -/
def dataclassAcceptsKwargs (fieldNames kwargNames : List String) : Bool :=
  kwargNames.all (fun k => fieldNames.contains k)

/-- Shorthand for a manifest card record with only the fields that matter to
the topological sort. -/
def mkCard (i : Int) (n : String) : Card :=
  ⟨i, n, none, none, "", "", false, none⟩

/-- The `card_map = \x7bcard.id: card for card in cards\x7d` dict of
`CardImporter._topological_sort_cards` (`src/lib/importers/cards.py`,
line 260): last write wins, first insertion fixes the position. -/
def buildCardMap (cards : List Card) : List (Int × Card) :=
  cards.foldl (fun m c => pyInsert m c.id c) []

/-- The `dependencies` dict of `_topological_sort_cards`
(`src/lib/importers/cards.py`, lines 262-272):
`dependencies[card.id] = deps & set(card_map.keys())`.  The per-card
extraction results (`read_json_file` followed by
`_extract_card_dependencies`, with any exception giving the empty set) are
supplied by the oracle `readDeps`; `dedup` models the fact that the
extraction result is a Python set. -/
def buildDepsDict (readDeps : Int → List Int) (cards : List Card) :
    List (Int × List Int) :=
  let keys := (buildCardMap cards).map (·.1)
  cards.foldl (fun m c =>
    pyInsert m c.id ((readDeps c.id).dedup.filter (fun d => keys.contains d))) []

/-- The `in_degree = \x7bcard.id: 0 for card in cards\x7d` dict
(`src/lib/importers/cards.py`, line 276). -/
def initInDegree (cards : List Card) : List (Int × Int) :=
  cards.foldl (fun m c => pyInsert m c.id 0) []

/-- The in-degree counting loop (`src/lib/importers/cards.py`,
lines 278-282): for every dependency present in `in_degree`, increment the
degree of the depending card. -/
def countInDegrees (depsDict : List (Int × List Int)) (inDeg0 : List (Int × Int)) :
    List (Int × Int) :=
  depsDict.foldl (fun m kv =>
    kv.2.foldl (fun m2 dep =>
      if (m2.lookup dep).isSome then
        match m2.lookup kv.1 with
        | some d => pyInsert m2 kv.1 (d + 1)
        | none => m2  -- KeyError in Python; unreachable (both dicts share keys)
      else m2) m) inDeg0

/-- One pass of the inner loop of Kahn's algorithm
(`src/lib/importers/cards.py`, lines 292-297): after emitting `cid`,
decrement the in-degree of every card whose dependency set contains `cid`
and collect (in dict order) the ids whose degree reaches zero. -/
def decrementPass (cid : Int) (items : List (Int × List Int))
    (inDeg : List (Int × Int)) : List (Int × Int) × List Int :=
  match items with
  | [] => (inDeg, [])
  | (oid, deps) :: rest =>
    if cid ∈ deps then
      match inDeg.lookup oid with
      | some d =>
        let p := decrementPass cid rest (pyInsert inDeg oid (d - 1))
        if d - 1 = 0 then (p.1, oid :: p.2) else p
      | none => decrementPass cid rest inDeg
    else decrementPass cid rest inDeg

/-- The `while queue` loop of `_topological_sort_cards`
(`src/lib/importers/cards.py`, lines 287-297): sort the queue ascending, pop
the head, emit it, then run the decrement pass.  The fuel (instantiated with
the number of cards, an upper bound on the number of emissions) only guards
Lean termination; the loop always drains its queue first. -/
def kahnLoop (depsDict : List (Int × List Int)) :
    Nat → List Int → List (Int × Int) → List Int → List Int
  | 0, _, _, sortedIds => sortedIds
  | fuel + 1, queue, inDeg, sortedIds =>
    match List.insertionSort (· ≤ ·) queue with
    | [] => sortedIds
    | cid :: rest =>
      let p := decrementPass cid depsDict inDeg
      kahnLoop depsDict fuel (rest ++ p.2) p.1 (sortedIds ++ [cid])

/-- The ids emitted by the Kahn phase of `_topological_sort_cards`, in
order. -/
def kahnIds (readDeps : Int → List Int) (cards : List Card) : List Int :=
  let depsDict := buildDepsDict readDeps cards
  let inDeg := countInDegrees depsDict (initInDegree cards)
  let queue0 := (inDeg.filter (fun kv => kv.2 = 0)).map (·.1)
  kahnLoop depsDict cards.length queue0 inDeg []

/-- The cards emitted by the Kahn phase (`sorted_cards` before the tail is
appended). -/
def kahnCards (readDeps : Int → List Int) (cards : List Card) : List Card :=
  (kahnIds readDeps cards).filterMap (fun i => (buildCardMap cards).lookup i)

/-- Embedding of `CardImporter._topological_sort_cards`
(`src/lib/importers/cards.py`, lines 251-320).  After the Kahn phase, cards
that were not emitted (cycles, or cards depending on them) are appended in
`card_map` key order, i.e. in order of first appearance in the input list.
The warning pass that re-reads card files for logging has no effect on the
result and is not modelled. -/
def topological_sort_cards (readDeps : Int → List Int) (cards : List Card) :
    List Card :=
  let card_map := buildCardMap cards
  let sorted_cards := kahnCards readDeps cards
  if sorted_cards.length < cards.length then
    let sortedIdList := sorted_cards.map (·.id)
    let remaining := (card_map.filter (fun kv => !sortedIdList.contains kv.1)).map (·.2)
    sorted_cards ++ remaining
  else sorted_cards

/-- In-scope dependency set of a card id, as computed by
`_topological_sort_cards` (`deps & set(card_map.keys())`). -/
def scopeDeps (readDeps : Int → List Int) (cards : List Card) (x : Int) : List Int :=
  ((buildDepsDict readDeps cards).lookup x).getD []

/-- The set of ids that are ready after the ids in `prev` have been emitted:
in scope, not yet emitted, and with every in-scope dependency emitted. -/
def readyAt (readDeps : Int → List Int) (cards : List Card) (prev : List Int) :
    List Int :=
  ((buildCardMap cards).map (·.1)).filter
    (fun x => !prev.contains x && (scopeDeps readDeps cards x).all (prev.contains ·))

/-- Ids reachable from `start` in at most `fuel` steps of the successor
relation (used to express cycle participation). -/
def reachableWithin (succs : Int → List Int) : Nat → List Int → List Int
  | 0, start => start
  | fuel + 1, start => reachableWithin succs fuel ((start ++ start.flatMap succs).dedup)

/-- An id participates in a dependency cycle iff it can reach itself through
one or more dependency edges. -/
def participatesInCycle (succs : Int → List Int) (fuel : Nat) (x : Int) : Bool :=
  (reachableWithin succs fuel (succs x)).contains x

/-! ### `IDRemapper.build_table_and_field_mappings`
(`src/lib/id_remapping.py`, lines 64-163).  The builder is embedded as the
ordered list of dict assignments it performs on `_table_map` and `_field_map`
(its only externally visible effect; the method is called exactly once, on the
freshly constructed remapper whose maps are empty).  The target instance is an
oracle `fetchTarget : Int → Option Json` standing for
`client.get_database_metadata` (`none` models `MetabaseAPIError`; the
`_target_db_metadata` cache is semantically transparent because the oracle is
a function).  Any exception other than the caught `MetabaseAPIError` unwinds
to the `except Exception` at the bottom of the method, which stops the build
and keeps the assignments made so far; such aborts are modelled by an `ok`
flag.  Ids and names are modelled at the types declared by the code
(`dict[tuple[int, int], int]`, names as strings): metadata carrying a
non-integer id or a non-string name where those are used is treated as
malformed and stops the build. -/

/-- One dict assignment performed while building the identifier maps:
`self._table_map[(db, src)] = tgt` or `self._field_map[(db, src)] = tgt`. -/
inductive TFEvent where
  | table (key : Int × Int) (tgt : Int)
  | mfield (key : Int × Int) (tgt : Int)
deriving DecidableEq, Repr

/-- Python iteration `for x in v`: lists yield their elements, strings their
characters, dicts their keys; other values raise `TypeError` (`none`). -/
def pyIterList : Json → Option (List Json)
  | .arr xs => some xs
  | .str s => some (s.data.map (fun c => .str ⟨[c]⟩))
  | .obj kvs => some (kvs.map (fun kv => .str kv.1))
  | _ => none

/-- The comprehension `{t["name"]: t for t in tables}` (line 103), as a
left-to-right fold with last-write-wins; `none` where Python raises
(an element without `["name"]`, or one that is not a dict). -/
def targetTablesByName : List Json → List (String × Json) → Option (List (String × Json))
  | [], acc => some acc
  | .obj kvs :: rest, acc =>
    (match dget kvs "name" with
     | some (.str n) => targetTablesByName rest (pyInsert acc n (.obj kvs))
     | _ => none)
  | _ :: _, _ => none

/-- The comprehension `{f["name"]: f for f in table.get("fields", [])}`
(lines 106-108). -/
def fieldsByName : List Json → List (String × Json) → Option (List (String × Json))
  | [], acc => some acc
  | .obj kvs :: rest, acc =>
    (match dget kvs "name" with
     | some (.str n) => fieldsByName rest (pyInsert acc n (.obj kvs))
     | _ => none)
  | _ :: _, _ => none

/-- The loop building `target_fields_by_table_id` (lines 104-108):
`target_fields_by_table_id[table["id"]] = {f["name"]: f for f in
table.get("fields", [])}`. -/
def targetFieldsByTableId :
    List Json → List (Int × List (String × Json)) → Option (List (Int × List (String × Json)))
  | [], acc => some acc
  | .obj kvs :: rest, acc =>
    (match dget kvs "id" with
     | some idj =>
       match pyInt idj with
       | some tid =>
         (match pyIterList (dgetD kvs "fields" (.arr [])) with
          | some fs =>
            (match fieldsByName fs [] with
             | some m => targetFieldsByTableId rest (pyInsert acc tid m)
             | none => none)
          | none => none)
       | none => none
     | none => none)
  | _ :: _, _ => none

/-- The inner field loop (lines 140-154): for each source field with an
`"id"` and a `"name"`, when the name exists among the target table's fields,
record `_field_map[(db, source_field_id)] = target_field["id"]`.  Returns the
events emitted and whether the loop completed without raising. -/
def tfFieldEvents (db : Int) (targetFields : List (String × Json)) :
    List Json → List TFEvent × Bool
  | [] => ([], true)
  | .obj kvs :: rest =>
    (match dget kvs "id" with
     | some idj =>
       match pyInt idj with
       | some sfid =>
         (match dget kvs "name" with
          | some (.str n) =>
            (match targetFields.lookup n with
             | some (.obj tkvs) =>
               (match dget tkvs "id" with
                | some tidj =>
                  (match pyInt tidj with
                   | some tfid =>
                     let r := tfFieldEvents db targetFields rest
                     (TFEvent.mfield (db, sfid) tfid :: r.1, r.2)
                   | none => ([], false))
                | none => ([], false))
             | some _ => ([], false)
             | none => tfFieldEvents db targetFields rest)
          | _ => ([], false))
       | none => ([], false)
     | none => ([], false))
  | _ :: _ => ([], false)

/-- The per-table loop (lines 120-160): read `source_table["id"]` and
`["name"]`; when the name exists in the target, record
`_table_map[(db, source_table_id)] = target_table["id"]` and then run the
field loop over `source_table.get("fields", [])`; otherwise warn and
continue. -/
def tfTableEvents (db : Int) (tablesByName : List (String × Json))
    (fieldsByTableId : List (Int × List (String × Json))) :
    List Json → List TFEvent × Bool
  | [] => ([], true)
  | .obj kvs :: rest =>
    (match dget kvs "id" with
     | some idj =>
       match pyInt idj with
       | some stid =>
         (match dget kvs "name" with
          | some (.str n) =>
            (match tablesByName.lookup n with
             | some (.obj tkvs) =>
               (match dget tkvs "id" with
                | some tidj =>
                  (match pyInt tidj with
                   | some ttid =>
                     (match pyIterList (dgetD kvs "fields" (.arr [])) with
                      | some fs =>
                        let f := tfFieldEvents db ((fieldsByTableId.lookup ttid).getD []) fs
                        if f.2 then
                          let r := tfTableEvents db tablesByName fieldsByTableId rest
                          (TFEvent.table (db, stid) ttid :: (f.1 ++ r.1), r.2)
                        else (TFEvent.table (db, stid) ttid :: f.1, false)
                      | none => ([TFEvent.table (db, stid) ttid], false))
                   | none => ([], false))
                | none => ([], false))
             | some _ => ([], false)
             | none => tfTableEvents db tablesByName fieldsByTableId rest)
          | _ => ([], false))
       | none => ([], false)
     | none => ([], false))
  | _ :: _ => ([], false)

/-- The per-database body (lines 74-160): resolve the database (skip when
unresolved or falsy), read the source metadata (skip when it has no truthy
`"tables"`), fetch the target metadata (skip on `MetabaseAPIError`), build
the two target indexes, and run the table loop. -/
def tfDbEvents (st : IDRemapperState) (database_metadata : List (Int × Json))
    (fetchTarget : Int → Option Json) (source_db_id : Int) : List TFEvent × Bool :=
  match IDRemapper.resolve_db_id st source_db_id with
  | none => ([], true)
  | some tdb =>
    if tdb = 0 then ([], true)
    else
      match (database_metadata.lookup source_db_id).getD (.obj []) with
      | .obj smeta =>
        let source_tables := dgetD smeta "tables" (.arr [])
        if !source_tables.truthy then ([], true)
        else
          match fetchTarget tdb with
          | none => ([], true)
          | some (.obj tkvs) =>
            (match pyIterList (dgetD tkvs "tables" (.arr [])) with
             | some tts =>
               (match targetTablesByName tts [], targetFieldsByTableId tts [] with
                | some tbn, some fbt =>
                  (match pyIterList source_tables with
                   | some sts => tfTableEvents source_db_id tbn fbt sts
                   | none => ([], false))
                | _, _ => ([], false))
             | none => ([], false))
          | some _ => ([], false)
      | _ => ([], false)

/-- The outer loop over `manifest.databases.items()` (line 73), stopping at
the first uncaught exception (the `except Exception` at line 162 ends the
whole build, keeping the assignments already made). -/
def tfAllEvents (st : IDRemapperState) (database_metadata : List (Int × Json))
    (fetchTarget : Int → Option Json) : List (Int × String) → List TFEvent
  | [] => []
  | (db, _) :: rest =>
    let r := tfDbEvents st database_metadata fetchTarget db
    if r.2 then r.1 ++ tfAllEvents st database_metadata fetchTarget rest
    else r.1

/-- Embedding of `IDRemapper.build_table_and_field_mappings`
(`src/lib/id_remapping.py`, lines 64-163): the ordered list of assignments
performed on `_table_map` and `_field_map`. -/
def build_table_and_field_mappings (st : IDRemapperState)
    (database_metadata : List (Int × Json)) (fetchTarget : Int → Option Json) :
    List TFEvent :=
  tfAllEvents st database_metadata fetchTarget st.manifest_databases

/-- Replay the assignments onto the (initially empty) `_table_map` and
`_field_map` with Python dict semantics. -/
def applyTFEvents (evs : List TFEvent) :
    List ((Int × Int) × Int) × List ((Int × Int) × Int) :=
  evs.foldl
    (fun maps e =>
      match e with
      | .table k v => (pyInsert maps.1 k v, maps.2)
      | .mfield k v => (maps.1, pyInsert maps.2 k v))
    ([], [])

/-- The table-map assignments among the events, as key/value pairs. -/
def tfTableKVs (evs : List TFEvent) : List ((Int × Int) × Int) :=
  evs.filterMap (fun e =>
    match e with
    | .table k v => some (k, v)
    | .mfield _ _ => none)

/-- The field-map assignments among the events, as key/value pairs. -/
def tfFieldKVs (evs : List TFEvent) : List ((Int × Int) × Int) :=
  evs.filterMap (fun e =>
    match e with
    | .mfield k v => some (k, v)
    | .table _ _ => none)

/-- Replay a list of key/value assignments onto an empty Python dict. -/
def foldPyMap {κ : Type} [DecidableEq κ] (kvs : List (κ × Int)) : List (κ × Int) :=
  kvs.foldl (fun m kv => pyInsert m kv.1 kv.2) []

/-- The keys assigned in the table map, in assignment order. -/
def tfTableKeys (evs : List TFEvent) : List (Int × Int) :=
  (tfTableKVs evs).map Prod.fst

/-- The keys assigned in the field map, in assignment order. -/
def tfFieldKeys (evs : List TFEvent) : List (Int × Int) :=
  (tfFieldKVs evs).map Prod.fst

/-- The integer ids of the list elements that are dicts carrying an integer
`"id"` (the shape processed by the table and field loops). -/
def objIntIds (ts : List Json) : List Int :=
  ts.filterMap (fun t =>
    match t with
    | .obj kvs =>
      (match dget kvs "id" with
       | some j => pyInt j
       | none => none)
    | _ => none)

/-- The field ids listed under one source table. -/
def tableFieldIds : Json → List Int
  | .obj kvs =>
    (match pyIterList (dgetD kvs "fields" (.arr [])) with
     | some fs => objIntIds fs
     | none => [])
  | _ => []

/-- All field ids listed by one database's source metadata. -/
def sourceFieldIds (sts : List Json) : List Int :=
  sts.flatMap tableFieldIds

/-- The list of source tables the builder iterates for a database: the truthy
`"tables"` entry of `manifest.database_metadata[db]`, as an iteration
sequence. -/
def dbSourceTables (database_metadata : List (Int × Json)) (db : Int) : List Json :=
  match (database_metadata.lookup db).getD (.obj []) with
  | .obj smeta =>
    (match pyIterList (dgetD smeta "tables" (.arr [])) with
     | some ts => ts
     | none => [])
  | _ => []

/-- The card-map (and collection-map) assignments of an import run: each
processed item performs at most one `self._card_map[item.id] = target`
(`CardImporter._handle_existing_card` lines 158/176, `_create_new_card`
line 201; `CollectionImporter._handle_existing_collection` lines 137/161,
`_create_new_collection` line 201).  `order` is the sequence of processed
source ids and `outcome i` the target id recorded for `i` (`none` when the
item failed, was skipped for missing dependencies, or hit the rename-strategy
branch of `_handle_existing_collection`, none of which assign). -/
def cardMapEvents (order : List Int) (outcome : Int → Option Int) :
    List (Int × Int) :=
  order.filterMap (fun i => (outcome i).map (fun t => (i, t)))

/-! ### `MetabaseImporter.run_import` (`src/import_metabase.py`, lines 48-69,
122-155, 157-240; `src/lib/validation.py`).  The run is embedded as a
function of an abstract world describing which of its fallible steps fail:
`loadResult` for `_load_export_package` (lines 71-113; `FileNotFoundError` /
`ValueError` → exit 2, any other exception → exit 3), `unmappedDbs` for
`validate_database_mappings` returning a non-empty list (then
`report_unmapped_databases` calls `sys.exit(1)`, a `SystemExit` that passes
through every `except` clause of `run_import`), `targetCheck` for
`validate_target_databases` (missing target ids or `MetabaseAPIError` both
`sys.exit(1)`), `phaseExc` for an exception escaping the build/collection/
card/dashboard/permissions phases (`MetabaseAPIError` → exit 1, other →
exit 3), and `anyItemFailed` for the final per-item failure count (exit 4
after writing the report, else exit 0).  The result is the pair
(exit code, whether the report file was written at lines 228-233). -/

/-- Outcome of `_load_export_package`. -/
inductive LoadResult where
  | ok
  | errFileNotFound
  | errValue
  | errOther
deriving DecidableEq, Repr

/-- Outcome of `ImportValidator.validate_target_databases`. -/
inductive TargetCheck where
  | ok
  | missingIds
  | apiError
deriving DecidableEq, Repr

/-- An exception escaping one of the import phases. -/
inductive PhaseExc where
  | metabaseAPIError
  | otherError
deriving DecidableEq, Repr

/-- Abstract world of one invocation of `MetabaseImporter.run_import`. -/
structure ImportRunWorld where
  loadResult : LoadResult
  dryRun : Bool
  unmappedDbs : Bool
  targetCheck : TargetCheck
  phaseExc : Option PhaseExc
  anyItemFailed : Bool
deriving DecidableEq, Repr

/-- Embedding of `MetabaseImporter.run_import` (`src/import_metabase.py`,
lines 48-69) together with `_perform_dry_run` (122-155) and
`_perform_import` (157-240): the exit code and whether the report file was
written. -/
def run_import (w : ImportRunWorld) : Int × Bool :=
  match w.loadResult with
  | .errFileNotFound => (2, false)
  | .errValue => (2, false)
  | .errOther => (3, false)
  | .ok =>
    if w.dryRun then
      if w.unmappedDbs then (1, false) else (0, false)
    else if w.unmappedDbs then (1, false)
    else
      match w.targetCheck with
      | .missingIds => (1, false)
      | .apiError => (1, false)
      | .ok =>
        match w.phaseExc with
        | some .metabaseAPIError => (1, false)
        | some .otherError => (3, false)
        | none => if w.anyItemFailed then (4, true) else (0, true)

/-! ### Mutable-heap model of `remap_card_query` (claim C9)

`remap_card_query` mutates Python dicts and lists in place after taking a
`copy.deepcopy` of its argument.  To state the frame property "the input is
never mutated", the heap is made explicit: containers live in numbered cells,
values are scalars or references, and every statement of
`src/lib/id_remapping.py` lines 227-392 becomes an explicit read, allocation
or cell write.  `remap_field_ids_recursively` builds and returns fresh
containers (`result = list(data)`, list/dict comprehensions; scalars, which
are immutable in Python, are returned as-is), so its heap effect is an
allocation of its pure result. -/

/-- Heap value: a Python scalar or a reference to a container cell. -/
inductive PVal where
  | pnull
  | pbool (b : Bool)
  | pint (n : Int)
  | pstr (s : String)
  | pref (a : Nat)
deriving DecidableEq, Repr

/-- Container cell contents: a Python list or dict of heap values. -/
inductive PObj where
  | plist (xs : List PVal)
  | pdict (kvs : List (String × PVal))
deriving DecidableEq, Repr

/-- Heap: an association list of cells (the first binding for an address is
the cell's current contents) plus the next fresh address. -/
structure Store where
  mem : List (Nat × PObj)
  next : Nat
deriving DecidableEq, Repr

/-- Current contents of cell `a` (first binding wins). -/
def alookup (a : Nat) : List (Nat × PObj) → Option PObj
  | [] => none
  | (a1, o) :: rest => if a1 = a then some o else alookup a rest

/-- Read cell `a`. -/
def lookupCell (s : Store) (a : Nat) : Option PObj :=
  alookup a s.mem

/-- Overwrite cell `a` in place. -/
def writeCell (s : Store) (a : Nat) (o : PObj) : Store :=
  ⟨(a, o) :: s.mem, s.next⟩

/-- Allocate a fresh cell holding `o`, returning its address. -/
def alloc (s : Store) (o : PObj) : Nat × Store :=
  (s.next, ⟨(s.next, o) :: s.mem, s.next + 1⟩)

/-- Dict lookup inside cell contents. -/
def dlookupV (k : String) : List (String × PVal) → Option PVal
  | [] => none
  | (k1, v) :: rest => if k1 = k then some v else dlookupV k rest

/-- Python `d.get(k)` on the dict in cell `a` (`none` when the key is missing
or the cell does not hold a dict). -/
def dictGetCell (s : Store) (a : Nat) (k : String) : Option PVal :=
  match lookupCell s a with
  | some (.pdict kvs) => dlookupV k kvs
  | _ => none

/-- Python `d[k] = v` on the dict in cell `a` (a no-op when the cell does not
hold a dict; the modelled code only applies it to dict cells). -/
def dictSetCell (s : Store) (a : Nat) (k : String) (v : PVal) : Store :=
  match lookupCell s a with
  | some (.pdict kvs) => writeCell s a (.pdict (pyInsert kvs k v))
  | _ => s

/-- Python truthiness of a heap value (containers by non-emptiness; a
dangling reference never occurs in the modelled runs). -/
def truthyV (s : Store) : PVal → Bool
  | .pnull => false
  | .pbool b => b
  | .pint n => n != 0
  | .pstr t => t != ""
  | .pref a =>
    match lookupCell s a with
    | some (.plist xs) => !xs.isEmpty
    | some (.pdict kvs) => !kvs.isEmpty
    | none => false

/-- Python `isinstance(x, int)` with the integer value, on heap values
(`bool` is a subtype of `int`). -/
def pyIntV : PVal → Option Int
  | .pint n => some n
  | .pbool b => some (if b then 1 else 0)
  | _ => none

/-- View of a scalar heap value as `Json`.  References map to `null`: both
fail `pyInt`, which is the only thing the lookups below test, and the scalar
contexts that use this view never receive a reference. -/
def pvalScalarJson : PVal → Json
  | .pnull => .null
  | .pbool b => .bool b
  | .pint n => .int n
  | .pstr t => .str t
  | .pref _ => .null

/-- `_table_map` / `_field_map` lookup keyed by the payload-supplied database
value (Python tuple keys compare with `True == 1` and `False == 0`). -/
def lookupByDbV (m : List ((Int × Int) × Int)) (dbv : PVal) (x : Int) :
    Option Int :=
  match pyIntV dbv with
  | some d => m.lookup (d, x)
  | none => none

/-- `resolve_db_id` applied to the heap value found in the payload (mirrors
`resolve_db_id_any`; lists and dicts are unhashable, so the manifest
`dict.get` raises `TypeError` on a reference). -/
def resolveDbAnyV (st : IDRemapperState) : PVal → Except PyErr (Option Int)
  | .pint n => .ok (resolve_db_id st n)
  | .pbool b =>
    .ok (match st.db_map.by_id.lookup (if b then "True" else "False") with
      | some t => some t
      | none =>
        match st.manifest_databases.lookup (if b then 1 else 0) with
        | some name =>
          if name ≠ "" then st.db_map.by_name.lookup name else none
        | none => none)
  | .pstr t => .ok (st.db_map.by_id.lookup t)
  | .pnull => .ok (st.db_map.by_id.lookup "None")
  | .pref _ => .error .typeError

mutual

/-- Build the heap representation of a JSON tree: containers become fresh
cells.  This is also the effect of `copy.deepcopy` on a decoded tree. -/
def encodeVal : Json → Store → PVal × Store
  | .null, s => (.pnull, s)
  | .bool b, s => (.pbool b, s)
  | .int n, s => (.pint n, s)
  | .str t, s => (.pstr t, s)
  | .arr xs, s =>
    let p := encodeList xs s
    let q := alloc p.2 (.plist p.1)
    (.pref q.1, q.2)
  | .obj kvs, s =>
    let p := encodeObj kvs s
    let q := alloc p.2 (.pdict p.1)
    (.pref q.1, q.2)

/-- Elementwise `encodeVal` over a list, threading the heap. -/
def encodeList : List Json → Store → List PVal × Store
  | [], s => ([], s)
  | x :: xs, s =>
    let p := encodeVal x s
    let q := encodeList xs p.2
    (p.1 :: q.1, q.2)

/-- Valuewise `encodeVal` over dict entries, threading the heap. -/
def encodeObj : List (String × Json) → Store → List (String × PVal) × Store
  | [], s => ([], s)
  | kv :: xs, s =>
    let p := encodeVal kv.2 s
    let q := encodeObj xs p.2
    ((kv.1, p.1) :: q.1, q.2)

end

/-- Read back the JSON tree rooted at a heap value; the fuel bounds the
dereference depth (any fuel at least the tree's height is exact, and the
heaps built by the embedded code are acyclic). -/
def decodeVal (s : Store) : Nat → PVal → Option Json
  | _, .pnull => some .null
  | _, .pbool b => some (.bool b)
  | _, .pint n => some (.int n)
  | _, .pstr t => some (.str t)
  | 0, .pref _ => none
  | fuel + 1, .pref a =>
    match lookupCell s a with
    | some (.plist xs) =>
      Option.map Json.arr (xs.mapM (fun v => decodeVal s fuel v))
    | some (.pdict kvs) =>
      Option.map Json.obj
        (kvs.mapM (fun kv => Option.map (fun j => (kv.1, j)) (decodeVal s fuel kv.2)))
    | none => none

/-- Addresses referenced directly by a heap value. -/
def valRefs : PVal → List Nat
  | .pref a => [a]
  | _ => []

/-- Addresses referenced by the values of a list. -/
def valsRefs : List PVal → List Nat
  | [] => []
  | v :: vs => valRefs v ++ valsRefs vs

/-- Addresses referenced by the values of dict entries. -/
def kvalsRefs : List (String × PVal) → List Nat
  | [] => []
  | kv :: kvs => valRefs kv.2 ++ kvalsRefs kvs

/-- Addresses referenced directly by cell contents. -/
def objRefs : PObj → List Nat
  | .plist xs => valsRefs xs
  | .pdict kvs => kvalsRefs kvs

/-- Well-formed heap: every cell address and every reference stored in a
cell lies below the fresh-address watermark. -/
def storeWF (s : Store) : Prop :=
  (∀ ao ∈ s.mem, ao.1 < s.next) ∧
  (∀ ao ∈ s.mem, ∀ r ∈ objRefs ao.2, r < s.next)

instance storeWFDecidable (s : Store) : Decidable (storeWF s) := by
  unfold storeWF
  infer_instance

/-- Heaps `s` and `s1` agree on every cell below `n`. -/
def agreeBelow (n : Nat) (s s1 : Store) : Prop :=
  ∀ a, a < n → lookupCell s1 a = lookupCell s a

/-- Every cell at an address `≥ n` references only addresses `≥ n` (the
region above `n` is closed; the copy built by `remap_card_query` lives
there). -/
def regionClosed (n : Nat) (s : Store) : Prop :=
  ∀ a o, lookupCell s a = some o → n ≤ a → ∀ r ∈ objRefs o, n ≤ r

/-- Invariant carried through the rewrite: the watermark has passed `n` and
the region above `n` is closed. -/
def regionInv (n : Nat) (s : Store) : Prop :=
  n ≤ s.next ∧ regionClosed n s

/-- `s1` is reachable from `s` without touching any cell below `n`. -/
def stepOK (n : Nat) (s s1 : Store) : Prop :=
  agreeBelow n s s1 ∧ regionInv n s1

/-- Heap effect of `IDRemapper.remap_field_ids_recursively`
(`src/lib/id_remapping.py`, lines 165-225) applied to the value rooted at
`v`: the Python function reads its argument and returns freshly built
containers, so the effect is an allocation of the pure result (`none` only
on fuel exhaustion, which fuel at least the value's height rules out). -/
def remapFieldsHeap (fm : List ((Int × Int) × Int)) (dbv : PVal) (fuel : Nat)
    (s : Store) (v : PVal) : Option (PVal × Store) :=
  match decodeVal s fuel v with
  | none => none
  | some j =>
    some (encodeVal (remap_field_ids_recursively fm (pvalScalarJson dbv) j) s)

/-- Embedding of `IDRemapper._remap_source_table` on the inner-query dict in
cell `aIq` (`src/lib/id_remapping.py`, lines 291-317). -/
def remap_source_table_heap (st : IDRemapperState) (card_map : List (Int × Int))
    (dbv : PVal) (s : Store) (aIq : Nat) : Store :=
  match dictGetCell s aIq "source-table" with
  | some (.pstr t) =>
    if strStartsWith t "card__" then
      match pyIntOfString (strReplace t "card__" "") with
      | some cid =>
        match card_map.lookup cid with
        | some tgt =>
          dictSetCell s aIq "source-table" (.pstr ("card__" ++ intToDec tgt))
        | none => s
      | none => s
    else s
  | some v =>
    match pyIntV v with
    | some tbl =>
      match lookupByDbV st.table_map dbv tbl with
      | some tgt => dictSetCell s aIq "source-table" (.pint tgt)
      | none => s
    | none => s
  | none => s

/-- One iteration of the `joins` loop of `IDRemapper._remap_joins`
(`src/lib/id_remapping.py`, lines 319-342); a non-dict join raises
`AttributeError` at `join.get`. -/
def remap_join_item_heap (st : IDRemapperState) (card_map : List (Int × Int))
    (dbv : PVal) (s : Store) (j : PVal) : Except PyErr Store :=
  match j with
  | .pref aJ =>
    match lookupCell s aJ with
    | some (.pdict kvs) =>
      .ok (match dlookupV "source-table" kvs with
        | some (.pstr t) =>
          if strStartsWith t "card__" then
            match pyIntOfString (strReplace t "card__" "") with
            | some cid =>
              match card_map.lookup cid with
              | some tgt =>
                dictSetCell s aJ "source-table"
                  (.pstr ("card__" ++ intToDec tgt))
              | none => s
            | none => s
          else s
        | some v =>
          match pyIntV v with
          | some tbl =>
            match lookupByDbV st.table_map dbv tbl with
            | some tgt => dictSetCell s aJ "source-table" (.pint tgt)
            | none => s
          | none => s
        | none => s)
    | _ => .error .attributeError
  | _ => .error .attributeError

/-- The `joins` loop of `_remap_joins`, threading the heap. -/
def remap_joins_list_heap (st : IDRemapperState) (card_map : List (Int × Int))
    (dbv : PVal) : Store → List PVal → Except PyErr Store
  | s, [] => .ok s
  | s, j :: js =>
    match remap_join_item_heap st card_map dbv s j with
    | .error e => .error e
    | .ok s1 => remap_joins_list_heap st card_map dbv s1 js

/-- Embedding of `IDRemapper._remap_joins` (`src/lib/id_remapping.py`,
lines 319-342): `joins = inner_query.get("joins", [])`, then the loop.
Iterating a non-empty string or dict reaches a non-dict element
(`AttributeError`); other non-list values are not iterable (`TypeError`). -/
def remap_joins_heap (st : IDRemapperState) (card_map : List (Int × Int))
    (dbv : PVal) (s : Store) (aIq : Nat) : Except PyErr Store :=
  match dictGetCell s aIq "joins" with
  | none => .ok s
  | some (.pref aJs) =>
    match lookupCell s aJs with
    | some (.plist js) => remap_joins_list_heap st card_map dbv s js
    | some (.pdict kvs) => if kvs.isEmpty then .ok s else .error .attributeError
    | none => .ok s
  | some (.pstr t) => if t = "" then .ok s else .error .attributeError
  | some _ => .error .typeError

/-- The in-place write `d[k] = self.remap_field_ids_recursively(d[k], ...)`
when `k` is present in the dict in cell `aIq`: one key of
`IDRemapper._remap_query_clauses` (`src/lib/id_remapping.py`, lines 344-348),
and also the `field_ref` rewrite of `_remap_result_metadata` (lines 361-365)
on a metadata copy. -/
def remap_clause_key_heap (fm : List ((Int × Int) × Int)) (dbv : PVal)
    (fuel : Nat) (s : Store) (aIq : Nat) (k : String) : Option Store :=
  match dictGetCell s aIq k with
  | none => some s
  | some v =>
    match remapFieldsHeap fm dbv fuel s v with
    | none => none
    | some p => some (dictSetCell p.2 aIq k p.1)

/-- Embedding of `IDRemapper._remap_query_clauses` over `clauseKeys`. -/
def remap_query_clauses_heap (fm : List ((Int × Int) × Int)) (dbv : PVal)
    (fuel : Nat) : Store → Nat → List String → Option Store
  | s, _, [] => some s
  | s, aIq, k :: ks =>
    match remap_clause_key_heap fm dbv fuel s aIq k with
    | none => none
    | some s1 => remap_query_clauses_heap fm dbv fuel s1 aIq ks

/-- The top-level `table_id` rewrite of `remap_card_query`
(`src/lib/id_remapping.py`, lines 258-270), also the statement shape of the
`table_id` rewrite of `_remap_result_metadata` (lines 377-385). -/
def remap_table_id_heap (st : IDRemapperState) (dbv : PVal) (s : Store)
    (aData : Nat) : Store :=
  match dictGetCell s aData "table_id" with
  | some v =>
    match pyIntV v with
    | some tbl =>
      match lookupByDbV st.table_map dbv tbl with
      | some tgt => dictSetCell s aData "table_id" (.pint tgt)
      | none => s
    | none => s
  | none => s

/-- The direct field-id rewrite of `_remap_result_metadata`
(`src/lib/id_remapping.py`, lines 367-375): `metadata_copy["id"]` is
rewritten through the field map when it is an `int` and its key is
mapped. -/
def remap_meta_id_heap (st : IDRemapperState) (dbv : PVal) (s : Store)
    (aC : Nat) : Store :=
  match dictGetCell s aC "id" with
  | some v =>
    match pyIntV v with
    | some fid =>
      match lookupByDbV st.field_map dbv fid with
      | some tgt => dictSetCell s aC "id" (.pint tgt)
      | none => s
    | none => s
  | none => s

/-- One iteration of the `result_metadata` loop of
`IDRemapper._remap_result_metadata` (`src/lib/id_remapping.py`,
lines 355-390): a dict item is shallow-copied into a fresh cell
(`metadata_item.copy()`) whose `field_ref`, `id` and `table_id` entries are
then rewritten in place; other items pass through.  (The `table_id`
rewrite, lines 377-385, is the same statement as the card-level one and
shares its embedding.) -/
def remap_metadata_item_heap (st : IDRemapperState) (dbv : PVal) (fuel : Nat)
    (s : Store) (item : PVal) : Option (PVal × Store) :=
  match item with
  | .pref aI =>
    match lookupCell s aI with
    | some (.pdict kvs) =>
      let p := alloc s (.pdict kvs)
      match remap_clause_key_heap st.field_map dbv fuel p.2 p.1 "field_ref" with
      | none => none
      | some s2 =>
        let s3 := remap_meta_id_heap st dbv s2 p.1
        let s4 := remap_table_id_heap st dbv s3 p.1
        some (.pref p.1, s4)
    | _ => some (item, s)
  | _ => some (item, s)

/-- The `result_metadata` loop, building the fresh `remapped_metadata`
list. -/
def remap_metadata_list_heap (st : IDRemapperState) (dbv : PVal) (fuel : Nat) :
    Store → List PVal → Option (List PVal × Store)
  | s, [] => some ([], s)
  | s, x :: xs =>
    match remap_metadata_item_heap st dbv fuel s x with
    | none => none
    | some p =>
      match remap_metadata_list_heap st dbv fuel p.2 xs with
      | none => none
      | some q => some (p.1 :: q.1, q.2)

/-- Embedding of `IDRemapper._remap_result_metadata`
(`src/lib/id_remapping.py`, lines 350-392): nothing happens unless
`data["result_metadata"]` is a list; otherwise a fresh list of (copied and
updated) items is built and assigned back into `data`. -/
def remap_result_metadata_heap (st : IDRemapperState) (dbv : PVal) (fuel : Nat)
    (s : Store) (aData : Nat) : Option Store :=
  match dictGetCell s aData "result_metadata" with
  | some (.pref aM) =>
    match lookupCell s aM with
    | some (.plist items) =>
      match remap_metadata_list_heap st dbv fuel s items with
      | none => none
      | some q =>
        let p := alloc q.2 (.plist q.1)
        some (dictSetCell p.2 aData "result_metadata" (.pref p.1))
    | _ => some s
  | _ => some s

/-- The `visualization_settings` rewrite of `remap_card_query`
(`src/lib/id_remapping.py`, lines 286-287). -/
def remap_viz_heap (fm : List ((Int × Int) × Int)) (dbv : PVal) (fuel : Nat)
    (s : Store) (aData : Nat) : Option Store :=
  match dictGetCell s aData "visualization_settings" with
  | none => some s
  | some v =>
    match remapFieldsHeap fm dbv fuel s v with
    | none => none
    | some p => some (dictSetCell p.2 aData "visualization_settings" p.1)

/-- The inner-query stage of `remap_card_query` (`src/lib/id_remapping.py`,
lines 272-276): `inner_query = query.get("query", \x7b\x7d)` and, when it is
truthy, `_remap_source_table`, `_remap_joins` and `_remap_query_clauses` run
on it in place (a truthy non-dict raises `AttributeError` at
`inner_query.get`).  The result pairs a raised exception, if any, with the
heap at that point. -/
def remap_inner_query_heap (st : IDRemapperState) (card_map : List (Int × Int))
    (dbv : PVal) (fuel : Nat) (s : Store) (aQ : Nat) :
    Option (Option PyErr × Store) :=
  match dictGetCell s aQ "query" with
  | none => some (none, s)
  | some v =>
    if truthyV s v = false then some (none, s)
    else
      match v with
      | .pref aIq =>
        match lookupCell s aIq with
        | some (.pdict _) =>
          let s1 := remap_source_table_heap st card_map dbv s aIq
          match remap_joins_heap st card_map dbv s1 aIq with
          | .error e => some (some e, s1)
          | .ok s2 =>
            match remap_query_clauses_heap st.field_map dbv fuel s2 aIq
                clauseKeys with
            | none => none
            | some s3 => some (none, s3)
        | _ => some (some .attributeError, s)
      | _ => some (some .attributeError, s)

/-- `query = data.get("dataset_query", \x7b\x7d)`
(`src/lib/id_remapping.py`, line 241): the stored value when the key is
present, a fresh empty dict otherwise. -/
def rcqGetQuery (s : Store) (aData : Nat) : PVal × Store :=
  match dictGetCell s aData "dataset_query" with
  | some v => (v, s)
  | none =>
    let p := alloc s (.pdict [])
    (.pref p.1, p.2)

/-- `source_db_id = data.get("database_id") or query.get("database")`
(`src/lib/id_remapping.py`, line 243); `query.get` raises `AttributeError`
when `query` is not a dict and is only evaluated when the left operand is
falsy. -/
def rcqSource (s : Store) (aData : Nat) (queryV : PVal) : Except PyErr PVal :=
  let leftV : PVal := (dictGetCell s aData "database_id").getD .pnull
  if truthyV s leftV then .ok leftV
  else
    match queryV with
    | .pref aQ =>
      match lookupCell s aQ with
      | some (.pdict kvs) => .ok ((dlookupV "database" kvs).getD .pnull)
      | _ => .error .attributeError
    | _ => .error .attributeError

/-- The write pipeline of `remap_card_query` once the target id is resolved
and `query` is known to be a dict (`src/lib/id_remapping.py`,
lines 254-288): `query["database"] = target_db_id`, the conditional
`data["database_id"]` and `data["table_id"]` rewrites, the inner-query
stage, `_remap_result_metadata` and the `visualization_settings` rewrite. -/
def rcqWrites (st : IDRemapperState) (card_map : List (Int × Int)) (fuel : Nat)
    (s : Store) (aData aQ : Nat) (srcV : PVal) (t : Int) :
    Option (Option PyErr × Store) :=
  let s3 := dictSetCell s aQ "database" (.pint t)
  let s4 :=
    if (dictGetCell s3 aData "database_id").isSome
    then dictSetCell s3 aData "database_id" (.pint t) else s3
  let s5 := remap_table_id_heap st srcV s4 aData
  match remap_inner_query_heap st card_map srcV fuel s5 aQ with
  | none => none
  | some (some e, s6) => some (some e, s6)
  | some (none, s6) =>
    match remap_result_metadata_heap st srcV fuel s6 aData with
    | none => none
    | some s7 =>
      match remap_viz_heap st.field_map srcV fuel s7 aData with
      | none => none
      | some s8 => some (none, s8)

/-- `remap_card_query` after `data = copy.deepcopy(card_data)`, acting on
the copy rooted at `dataV` (`src/lib/id_remapping.py`, lines 241-289): the
`query` binding, source-id extraction with the falsy early return,
`resolve_db_id` with `ValueError` on an unresolved or falsy target
(`if not target_db_id`), then the write pipeline; `data.get` on a non-dict
`data` raises `AttributeError`, and `query["database"] = ...` on a non-dict
`query` raises `TypeError`. -/
def rcqAfterCopy (st : IDRemapperState) (card_map : List (Int × Int))
    (fuel : Nat) (s : Store) (dataV : PVal) :
    Option (Except PyErr (PVal × Bool) × Store) :=
  match dataV with
  | .pref aData =>
    match lookupCell s aData with
    | some (.pdict _) =>
      let qs := rcqGetQuery s aData
      match rcqSource qs.2 aData qs.1 with
      | .error e => some (.error e, qs.2)
      | .ok srcV =>
        if truthyV qs.2 srcV = false then some (.ok (dataV, false), qs.2)
        else
          match resolveDbAnyV st srcV with
          | .error e => some (.error e, qs.2)
          | .ok none => some (.error .valueError, qs.2)
          | .ok (some t) =>
            if t = 0 then some (.error .valueError, qs.2)
            else
              match qs.1 with
              | .pref aQ =>
                match lookupCell qs.2 aQ with
                | some (.pdict _) =>
                  match rcqWrites st card_map fuel qs.2 aData aQ srcV t with
                  | none => none
                  | some (some e, sE) => some (.error e, sE)
                  | some (none, sF) => some (.ok (dataV, true), sF)
                | _ => some (.error .typeError, qs.2)
              | _ => some (.error .typeError, qs.2)
    | _ => some (.error .attributeError, s)
  | _ => some (.error .attributeError, s)

/-- Heap embedding of `IDRemapper.remap_card_query`
(`src/lib/id_remapping.py`, lines 227-289): `data = copy.deepcopy(card_data)`
(read the tree rooted at the input, allocate a fresh copy of it), then the
rewrite pipeline on the copy.  Returns `none` only on fuel exhaustion;
otherwise the outcome (result pair or raised exception) together with the
final heap. -/
def remap_card_query_heap (st : IDRemapperState) (card_map : List (Int × Int))
    (fuel : Nat) (s0 : Store) (card : PVal) :
    Option (Except PyErr (PVal × Bool) × Store) :=
  match decodeVal s0 fuel card with
  | none => none
  | some pj =>
    let dp := encodeVal pj s0
    rcqAfterCopy st card_map fuel dp.2 dp.1

/-! Helper lemmas about the Python dict model. -/

theorem lookup_cons {κ α : Type} [DecidableEq κ] (k k' : κ) (v : α)
    (rest : List (κ × α)) :
    ((k, v) :: rest).lookup k' = if k' = k then some v else rest.lookup k' := by
  by_cases h : k' = k
  · simp [List.lookup, h]
  · have hb : (k' == k) = false := beq_eq_false_iff_ne.mpr h
    simp [List.lookup, hb, h]

theorem pyInsert_lookup_self {κ α : Type} [DecidableEq κ] (m : List (κ × α)) (k : κ)
    (v : α) : (pyInsert m k v).lookup k = some v := by
  induction m with
  | nil => simp [pyInsert, lookup_cons]
  | cons kv rest ih =>
    obtain ⟨k1, v1⟩ := kv
    by_cases h : k1 = k
    · simp [pyInsert, h, lookup_cons]
    · simp [pyInsert, h, lookup_cons, Ne.symm h, ih]

theorem pyInsert_lookup_ne {κ α : Type} [DecidableEq κ] (m : List (κ × α)) (k k' : κ)
    (v : α) (h : k' ≠ k) : (pyInsert m k v).lookup k' = m.lookup k' := by
  induction m with
  | nil => simp [pyInsert, lookup_cons, h]
  | cons kv rest ih =>
    obtain ⟨k1, v1⟩ := kv
    by_cases hk : k1 = k
    · subst hk
      simp [pyInsert, lookup_cons, h]
    · simp [pyInsert, hk, lookup_cons, ih]

theorem pyInsert_keys {κ α : Type} [DecidableEq κ] (m : List (κ × α)) (k : κ) (v : α) :
    (pyInsert m k v).map Prod.fst =
      if k ∈ m.map Prod.fst then m.map Prod.fst else m.map Prod.fst ++ [k] := by
  induction m with
  | nil => simp [pyInsert]
  | cons kv rest ih =>
    obtain ⟨k1, v1⟩ := kv
    by_cases h : k1 = k
    · simp [pyInsert, h]
    · by_cases hm : k ∈ rest.map Prod.fst
      · simp [pyInsert, h, ih, hm, Ne.symm h]
      · simp [pyInsert, h, ih, hm, Ne.symm h]

theorem pyInsert_fresh {κ α : Type} [DecidableEq κ] (m : List (κ × α)) (k : κ) (v : α)
    (h : k ∉ m.map Prod.fst) : pyInsert m k v = m ++ [(k, v)] := by
  induction m with
  | nil => simp [pyInsert]
  | cons kv rest ih =>
    obtain ⟨k1, v1⟩ := kv
    simp only [List.map_cons, List.mem_cons] at h
    push_neg at h
    simp [pyInsert, Ne.symm h.1, ih h.2]

theorem foldl_pyInsert_nodup {α κ β : Type} [DecidableEq κ] (xs : List α)
    (key : α → κ) (val : α → β) (m0 : List (κ × β)) (h1 : (xs.map key).Nodup)
    (h2 : ∀ x ∈ xs, key x ∉ m0.map Prod.fst) :
    xs.foldl (fun m c => pyInsert m (key c) (val c)) m0
      = m0 ++ xs.map (fun c => (key c, val c)) := by
  induction xs generalizing m0 with
  | nil => simp
  | cons c rest ih =>
    simp only [List.map_cons, List.nodup_cons] at h1
    have hfresh : key c ∉ m0.map Prod.fst := h2 c (by simp)
    have step : pyInsert m0 (key c) (val c) = m0 ++ [(key c, val c)] :=
      pyInsert_fresh m0 (key c) (val c) hfresh
    have hrest : ∀ x ∈ rest, key x ∉ (m0 ++ [(key c, val c)]).map Prod.fst := by
      intro x hx
      simp only [List.map_append, List.mem_append]
      push_neg
      refine ⟨h2 x (by simp [hx]), ?_⟩
      simp only [List.map_cons, List.map_nil, List.mem_singleton]
      intro hcon
      exact h1.1 (hcon ▸ List.mem_map_of_mem key hx)
    simp only [List.foldl_cons, step, ih _ h1.2 hrest, List.append_assoc,
      List.singleton_append, List.map_cons]

theorem foldl_pyInsert_lookup_fun {α κ β : Type} [DecidableEq κ] (xs : List α)
    (key : α → κ) (f : κ → β) (m0 : List (κ × β)) (x : κ) :
    (xs.foldl (fun m c => pyInsert m (key c) (f (key c))) m0).lookup x
      = if x ∈ xs.map key then some (f x) else m0.lookup x := by
  induction xs generalizing m0 with
  | nil => simp
  | cons c rest ih =>
    simp only [List.foldl_cons, ih, List.map_cons, List.mem_cons]
    by_cases hr : x ∈ rest.map key
    · simp [hr]
    · by_cases hc : key c = x
      · subst hc
        simp [hr, pyInsert_lookup_self]
      · simp [hr, Ne.symm hc, hc, pyInsert_lookup_ne _ _ _ _ (Ne.symm hc)]

theorem lookup_mem {κ α : Type} [DecidableEq κ] {m : List (κ × α)} {x : κ} {v : α}
    (h : m.lookup x = some v) : (x, v) ∈ m := by
  induction m with
  | nil => simp [List.lookup] at h
  | cons kv rest ih =>
    obtain ⟨k1, v1⟩ := kv
    rw [lookup_cons] at h
    by_cases hx : x = k1
    · subst hx
      simp at h
      simp [h]
    · simp [hx] at h
      simp [ih h]

theorem lookup_none_iff {κ α : Type} [DecidableEq κ] (m : List (κ × α)) (x : κ) :
    m.lookup x = none ↔ x ∉ m.map Prod.fst := by
  induction m with
  | nil => simp [List.lookup]
  | cons kv rest ih =>
    obtain ⟨k1, v1⟩ := kv
    rw [lookup_cons]
    by_cases hx : x = k1
    · subst hx
      simp
    · simp [hx, ih, Ne.symm hx]

theorem lookup_isSome_iff {κ α : Type} [DecidableEq κ] (m : List (κ × α)) (x : κ) :
    (m.lookup x).isSome ↔ x ∈ m.map Prod.fst := by
  rcases h : m.lookup x with _ | v
  · simp [(lookup_none_iff m x).mp h]
  · simp only [Option.isSome_some, true_iff]
    exact List.mem_map.mpr ⟨(x, v), lookup_mem h, rfl⟩

theorem mem_lookup_of_nodupkeys {κ α : Type} [DecidableEq κ] {m : List (κ × α)}
    (hnd : (m.map Prod.fst).Nodup) {x : κ} {v : α} (h : (x, v) ∈ m) :
    m.lookup x = some v := by
  induction m with
  | nil => simp at h
  | cons kv rest ih =>
    obtain ⟨k1, v1⟩ := kv
    simp only [List.map_cons, List.nodup_cons] at hnd
    rw [lookup_cons]
    rcases List.mem_cons.mp h with h1 | h1
    · have hk : x = k1 := congrArg Prod.fst h1
      have hv : v = v1 := congrArg Prod.snd h1
      simp [hk, hv]
    · have hx : x ≠ k1 := by
        intro hcon
        subst hcon
        exact hnd.1 (List.mem_map_of_mem Prod.fst h1)
      simp [hx, ih hnd.2 h1]

/-! Specifications of the in-degree counting loop and the decrement pass of
the embedded Kahn sort. -/

theorem incrFold_keys (k : Int) (deps : List Int) (m : List (Int × Int)) :
    (deps.foldl (fun m2 dep =>
      if (m2.lookup dep).isSome then
        match m2.lookup k with
        | some d => pyInsert m2 k (d + 1)
        | none => m2
      else m2) m).map Prod.fst = m.map Prod.fst := by
  induction deps generalizing m with
  | nil => rfl
  | cons dep rest ih =>
    rw [List.foldl_cons, ih]
    by_cases h1 : (m.lookup dep).isSome
    · rcases h2 : m.lookup k with _ | d
      · simp [h1, h2]
      · have hk : k ∈ m.map Prod.fst :=
          (lookup_isSome_iff m k).mp (by simp [h2])

        simp [h1, h2, pyInsert_keys, hk]
    · simp [h1]

theorem incrFold_lookup_ne (k : Int) (deps : List Int) (m : List (Int × Int))
    (x : Int) (hx : x ≠ k) :
    (deps.foldl (fun m2 dep =>
      if (m2.lookup dep).isSome then
        match m2.lookup k with
        | some d => pyInsert m2 k (d + 1)
        | none => m2
      else m2) m).lookup x = m.lookup x := by
  induction deps generalizing m with
  | nil => rfl
  | cons dep rest ih =>
    rw [List.foldl_cons, ih]
    by_cases h1 : (m.lookup dep).isSome
    · rcases h2 : m.lookup k with _ | d
      · simp [h1, h2]
      · simp [h1, h2, pyInsert_lookup_ne _ _ _ _ hx]
    · simp [h1]

theorem incrFold_lookup_self (k : Int) (deps : List Int) (m : List (Int × Int))
    (d0 : Int) (hd0 : m.lookup k = some d0)
    (hdeps : ∀ dep ∈ deps, dep ∈ m.map Prod.fst) :
    (deps.foldl (fun m2 dep =>
      if (m2.lookup dep).isSome then
        match m2.lookup k with
        | some d => pyInsert m2 k (d + 1)
        | none => m2
      else m2) m).lookup k = some (d0 + (deps.length : Int)) := by
  induction deps generalizing m d0 with
  | nil => simpa using hd0
  | cons dep rest ih =>
    have h1 : (m.lookup dep).isSome :=
      (lookup_isSome_iff m dep).mpr (hdeps dep (by simp))
    have hk : k ∈ m.map Prod.fst := (lookup_isSome_iff m k).mp (by simp [hd0])
    rw [List.foldl_cons]
    simp only [h1, if_true, hd0]
    have hkeys : (pyInsert m k (d0 + 1)).map Prod.fst = m.map Prod.fst := by
      simp [pyInsert_keys, hk]
    have := ih (pyInsert m k (d0 + 1)) (d0 + 1)
      (pyInsert_lookup_self m k (d0 + 1))
      (by intro d hd; rw [hkeys]; exact hdeps d (by simp [hd]))
    rw [this]
    congr 1
    simp only [List.length_cons]
    push_cast
    ring

theorem countInDegrees_lookup (D : List (Int × List Int)) (m0 : List (Int × Int))
    (hnd : (D.map Prod.fst).Nodup)
    (hscope : ∀ kv ∈ D, ∀ d ∈ kv.2, d ∈ m0.map Prod.fst)
    (hkeys : ∀ kv ∈ D, kv.1 ∈ m0.map Prod.fst) :
    ∀ x d0, m0.lookup x = some d0 →
      (countInDegrees D m0).lookup x
        = some (d0 + (((D.lookup x).getD []).length : Int)) := by
  induction D generalizing m0 with
  | nil =>
    intro x d0 h
    simp [countInDegrees, List.lookup, h]
  | cons kv rest ih =>
    obtain ⟨k, deps⟩ := kv
    intro x d0 h
    simp only [countInDegrees, List.foldl_cons] at *
    simp only [List.map_cons, List.nodup_cons] at hnd
    have hki : k ∈ m0.map Prod.fst := hkeys (k, deps) (by simp)
    have hdi : ∀ d ∈ deps, d ∈ m0.map Prod.fst := by
      intro d hd
      exact hscope (k, deps) (by simp) d hd
    obtain ⟨dk, hdk⟩ := Option.isSome_iff_exists.mp ((lookup_isSome_iff m0 k).mpr hki)
    set m1 := deps.foldl (fun m2 dep =>
      if (m2.lookup dep).isSome then
        match m2.lookup k with
        | some d => pyInsert m2 k (d + 1)
        | none => m2
      else m2) m0 with hm1
    have hm1keys : m1.map Prod.fst = m0.map Prod.fst := incrFold_keys k deps m0
    have hrest := ih m1 hnd.2
      (by intro kv hkv d hd; rw [hm1keys]; exact hscope kv (by simp [hkv]) d hd)
      (by intro kv hkv; rw [hm1keys]; exact hkeys kv (by simp [hkv]))
    by_cases hx : x = k
    · subst hx
      have h0 : d0 = dk := by rw [h] at hdk; exact (Option.some.injEq ..▸ hdk.symm ▸ rfl)
      have hself : m1.lookup x = some (d0 + (deps.length : Int)) :=
        incrFold_lookup_self x deps m0 d0 h hdi
      have hnone : rest.lookup x = none := (lookup_none_iff rest x).mpr hnd.1
      have := hrest x _ hself
      rw [this]
      rw [lookup_cons]
      simp [hnone]
    · have hne : m1.lookup x = m0.lookup x := incrFold_lookup_ne k deps m0 x hx
      have := hrest x d0 (by rw [hne]; exact h)
      rw [this, lookup_cons, if_neg hx]

theorem decrementPass_fst_keys (cid : Int) (D : List (Int × List Int))
    (m : List (Int × Int)) :
    (decrementPass cid D m).1.map Prod.fst = m.map Prod.fst := by
  induction D generalizing m with
  | nil => rfl
  | cons kv rest ih =>
    obtain ⟨oid, deps⟩ := kv
    by_cases hc : cid ∈ deps
    · rcases hm : m.lookup oid with _ | d
      · simp [decrementPass, hc, hm, ih]
      · have hoid : oid ∈ m.map Prod.fst := (lookup_isSome_iff m oid).mp (by simp [hm])
        have hkeys : ∀ v : Int, (pyInsert m oid v).map Prod.fst = m.map Prod.fst := by
          intro v
          simp [pyInsert_keys, hoid]
        by_cases hz : d - 1 = 0
        · simp [decrementPass, hc, hm, hz, ih, hkeys]
        · simp [decrementPass, hc, hm, hz, ih, hkeys]
    · simp [decrementPass, hc, ih]

theorem decrementPass_lookup_notin (cid : Int) (D : List (Int × List Int))
    (m : List (Int × Int)) (x : Int) (hx : D.lookup x = none) :
    (decrementPass cid D m).1.lookup x = m.lookup x := by
  induction D generalizing m with
  | nil => rfl
  | cons kv rest ih =>
    obtain ⟨oid, deps⟩ := kv
    rw [lookup_cons] at hx
    by_cases hxo : x = oid
    · simp [hxo] at hx
    · simp only [if_neg hxo] at hx
      by_cases hc : cid ∈ deps
      · rcases hm : m.lookup oid with _ | d
        · simp [decrementPass, hc, hm, ih _ hx]
        · have hne : ∀ v : Int, (pyInsert m oid v).lookup x = m.lookup x := fun v =>
            pyInsert_lookup_ne m oid x v hxo
          by_cases hz : d - 1 = 0
          · simp [decrementPass, hc, hm, hz, ih _ hx, hne]
          · simp [decrementPass, hc, hm, hz, ih _ hx, hne]
      · simp [decrementPass, hc, ih _ hx]

theorem decrementPass_lookup (cid : Int) (D : List (Int × List Int))
    (m : List (Int × Int)) (hnd : (D.map Prod.fst).Nodup) (x : Int)
    (deps : List Int) (d : Int) (hD : D.lookup x = some deps)
    (hm : m.lookup x = some d) :
    (decrementPass cid D m).1.lookup x
      = some (if cid ∈ deps then d - 1 else d) := by
  induction D generalizing m with
  | nil => simp [List.lookup] at hD
  | cons kv rest ih =>
    obtain ⟨oid, deps'⟩ := kv
    simp only [List.map_cons, List.nodup_cons] at hnd
    rw [lookup_cons] at hD
    by_cases hxo : x = oid
    · subst hxo
      have hdd : deps = deps' := by simpa using hD.symm
      subst hdd
      have hrest : rest.lookup x = none := (lookup_none_iff rest x).mpr hnd.1
      by_cases hc : cid ∈ deps
      · rw [decrementPass]
        simp only [if_pos hc, hm]
        have hlook : ∀ v : Int, (pyInsert m x v).lookup x = some v :=
          pyInsert_lookup_self m x
        by_cases hz : d - 1 = 0
        · simp [hz, decrementPass_lookup_notin cid rest _ x hrest, hlook, hc]
        · simp [hz, decrementPass_lookup_notin cid rest _ x hrest, hlook, hc]
      · rw [decrementPass]
        simp [hc, decrementPass_lookup_notin cid rest _ x hrest, hm]
    · simp only [if_neg hxo] at hD
      by_cases hc : cid ∈ deps'
      · rcases hmo : m.lookup oid with _ | d'
        · simp only [decrementPass, if_pos hc, hmo]
          exact ih _ hnd.2 hD hm
        · have hne : ∀ v : Int, (pyInsert m oid v).lookup x = m.lookup x := fun v =>
            pyInsert_lookup_ne m oid x v hxo
          by_cases hz : d' - 1 = 0
          · simp only [decrementPass, if_pos hc, hmo, if_pos hz]
            exact ih _ hnd.2 hD (by rw [hne _]; exact hm)
          · simp only [decrementPass, if_pos hc, hmo, if_neg hz]
            exact ih _ hnd.2 hD (by rw [hne _]; exact hm)
      · simp only [decrementPass, if_neg hc]
        exact ih _ hnd.2 hD hm

theorem decrementPass_queue (cid : Int) (D : List (Int × List Int))
    (m : List (Int × Int)) (hnd : (D.map Prod.fst).Nodup) (x : Int) :
    x ∈ (decrementPass cid D m).2 ↔
      ∃ deps d, D.lookup x = some deps ∧ cid ∈ deps ∧
        m.lookup x = some d ∧ d - 1 = 0 := by
  induction D generalizing m with
  | nil => simp [decrementPass, List.lookup]
  | cons kv rest ih =>
    obtain ⟨oid, deps'⟩ := kv
    simp only [List.map_cons, List.nodup_cons] at hnd
    by_cases hxo : x = oid
    · subst hxo
      have hrestnone : rest.lookup x = none := (lookup_none_iff rest x).mpr hnd.1
      have hnotrest : ∀ m', x ∉ (decrementPass cid rest m').2 := by
        intro m' hcon
        obtain ⟨deps, d, hD, _, _, _⟩ := (ih m' hnd.2).mp hcon
        rw [hrestnone] at hD
        exact Option.noConfusion hD
      have hconsl : ((x, deps') :: rest).lookup x = some deps' := by
        rw [lookup_cons]
        simp
      by_cases hc : cid ∈ deps'
      · rcases hm : m.lookup x with _ | d
        · simp only [decrementPass, if_pos hc, hm]
          constructor
          · intro hcon
            exact absurd hcon (hnotrest m)
          · rintro ⟨deps, d, -, -, hmm, -⟩
            exact Option.noConfusion hmm
        · by_cases hz : d - 1 = 0
          · simp only [decrementPass, if_pos hc, hm, if_pos hz, List.mem_cons]
            constructor
            · intro _
              exact ⟨deps', d, hconsl, hc, rfl, hz⟩
            · intro _
              exact Or.inl trivial
          · simp only [decrementPass, if_pos hc, hm, if_neg hz]
            constructor
            · intro hcon
              exact absurd hcon (hnotrest _)
            · rintro ⟨deps, d', hD, -, hmm, hz'⟩
              obtain rfl : d = d' := by simpa using hmm
              exact absurd hz' hz
      · simp only [decrementPass, if_neg hc]
        constructor
        · intro hcon
          exact absurd hcon (hnotrest m)
        · rintro ⟨deps, d', hD, hcd, -, -⟩
          rw [hconsl] at hD
          obtain rfl : deps' = deps := by simpa using hD
          exact absurd hcd hc
    · have hconsl : ((oid, deps') :: rest).lookup x = rest.lookup x := by
        rw [lookup_cons, if_neg hxo]
      rw [hconsl]
      by_cases hc : cid ∈ deps'
      · rcases hm : m.lookup oid with _ | d
        · simp only [decrementPass, if_pos hc, hm]
          exact ih m hnd.2
        · have hne : ∀ v : Int, (pyInsert m oid v).lookup x = m.lookup x := fun v =>
            pyInsert_lookup_ne m oid x v hxo
          by_cases hz : d - 1 = 0
          · simp only [decrementPass, if_pos hc, hm, if_pos hz, List.mem_cons]
            rw [ih _ hnd.2]
            simp only [hne]
            constructor
            · rintro (h | h)
              · exact absurd h hxo
              · exact h
            · intro h
              exact Or.inr h
          · simp only [decrementPass, if_pos hc, hm, if_neg hz]
            rw [ih _ hnd.2]
            simp only [hne]
      · simp only [decrementPass, if_neg hc]
        exact ih m hnd.2

theorem decrementPass_queue_nodup (cid : Int) (D : List (Int × List Int))
    (m : List (Int × Int)) (hnd : (D.map Prod.fst).Nodup) :
    (decrementPass cid D m).2.Nodup := by
  induction D generalizing m with
  | nil => simp [decrementPass]
  | cons kv rest ih =>
    obtain ⟨oid, deps'⟩ := kv
    simp only [List.map_cons, List.nodup_cons] at hnd
    by_cases hc : cid ∈ deps'
    · rcases hm : m.lookup oid with _ | d
      · simp only [decrementPass, if_pos hc, hm]
        exact ih m hnd.2
      · by_cases hz : d - 1 = 0
        · simp only [decrementPass, if_pos hc, hm, if_pos hz, List.nodup_cons]
          refine ⟨?_, ih _ hnd.2⟩
          intro hcon
          obtain ⟨deps, d', hD, -, -, -⟩ :=
            (decrementPass_queue cid rest _ hnd.2 oid).mp hcon
          rw [(lookup_none_iff rest oid).mpr hnd.1] at hD
          exact Option.noConfusion hD
        · simp only [decrementPass, if_pos hc, hm, if_neg hz]
          exact ih _ hnd.2
    · simp only [decrementPass, if_neg hc]
      exact ih m hnd.2

theorem nodup_filter_ne_length {l : List Int} (h : l.Nodup) {c : Int} (hc : c ∈ l) :
    (l.filter (fun d => !(d == c))).length = l.length - 1 := by
  induction l with
  | nil => simp at hc
  | cons a rest ih =>
    simp only [List.nodup_cons] at h
    by_cases hac : a = c
    · subst hac
      have hrest : rest.filter (fun d => !(d == a)) = rest := by
        rw [List.filter_eq_self]
        intro b hb
        simp only [Bool.not_eq_eq_eq_not, Bool.not_true, beq_eq_false_iff_ne]
        intro hcon
        exact h.1 (hcon ▸ hb)
      simp [List.filter_cons, hrest]
    · have hcr : c ∈ rest := by
        rcases List.mem_cons.mp hc with h1 | h1
        · exact absurd h1.symm hac
        · exact h1
      have hlen : 0 < rest.length := List.length_pos_of_mem hcr
      simp only [List.filter_cons]
      have : (a == c) = false := beq_eq_false_iff_ne.mpr hac
      simp only [this, Bool.not_false, if_pos trivial]
      simp only [List.length_cons, ih h.2 hcr]
      omega

theorem nodup_all_eq_singleton {l : List Int} (h : l.Nodup) {c : Int} (hc : c ∈ l)
    (hall : ∀ a ∈ l, a = c) : l = [c] := by
  cases l with
  | nil => simp at hc
  | cons a rest =>
    have ha : a = c := hall a (by simp)
    subst ha
    simp only [List.nodup_cons] at h
    have : rest = [] := by
      rw [List.eq_nil_iff_forall_not_mem]
      intro b hb
      exact h.1 ((hall b (by simp [hb])) ▸ hb)
    simp [this]

theorem deps_mem_of_emitted_ord {D : List (Int × List Int)} {emitted : List Int}
    (hord : ∀ i (h : i < emitted.length),
      ∀ d ∈ (D.lookup (emitted.get ⟨i, h⟩)).getD [], d ∈ emitted.take i) :
    ∀ x ∈ emitted, ∀ d ∈ (D.lookup x).getD [], d ∈ emitted := by
  intro x hx d hd
  obtain ⟨⟨i, hi⟩, hget⟩ := List.mem_iff_get.mp hx
  have := hord i hi d (by rw [hget]; exact hd)
  exact List.take_subset i emitted this

/-- Invariant-based specification of the `while queue` loop of
`CardImporter._topological_sort_cards`: starting from a state where the
emitted prefix, the queue, and the in-degree table are consistent, the loop
emits, at every position, the smallest ready id, never emits an id before
its in-scope dependencies, and drains every id whose dependencies it
emitted. -/
theorem kahnLoop_spec (D : List (Int × List Int))
    (hnd : (D.map Prod.fst).Nodup)
    (hdnd : ∀ kv ∈ D, kv.2.Nodup) :
    ∀ (fuel : Nat) (queue : List Int) (inDeg : List (Int × Int)) (emitted : List Int),
      (D.map Prod.fst).length ≤ fuel + emitted.length →
      emitted.Nodup →
      (∀ x ∈ emitted, x ∈ D.map Prod.fst) →
      (∀ i (h : i < emitted.length),
        ∀ d ∈ (D.lookup (emitted.get ⟨i, h⟩)).getD [], d ∈ emitted.take i) →
      (∀ i (h : i < emitted.length), ∀ y,
        (y ∈ D.map Prod.fst ∧ y ∉ emitted.take i ∧
          ∀ d ∈ (D.lookup y).getD [], d ∈ emitted.take i) →
        emitted.get ⟨i, h⟩ ≤ y) →
      queue.Nodup →
      (∀ x, x ∈ queue ↔ (x ∈ D.map Prod.fst ∧ x ∉ emitted ∧
        ∀ d ∈ (D.lookup x).getD [], d ∈ emitted)) →
      (∀ x deps, D.lookup x = some deps →
        inDeg.lookup x
          = some (((deps.filter (fun d => !emitted.contains d)).length : Int))) →
      (kahnLoop D fuel queue inDeg emitted).Nodup ∧
      (∀ x ∈ kahnLoop D fuel queue inDeg emitted, x ∈ D.map Prod.fst) ∧
      (∃ suffix, kahnLoop D fuel queue inDeg emitted = emitted ++ suffix) ∧
      (∀ i (h : i < (kahnLoop D fuel queue inDeg emitted).length),
        ∀ d ∈ (D.lookup ((kahnLoop D fuel queue inDeg emitted).get ⟨i, h⟩)).getD [],
          d ∈ (kahnLoop D fuel queue inDeg emitted).take i) ∧
      (∀ i (h : i < (kahnLoop D fuel queue inDeg emitted).length), ∀ y,
        (y ∈ D.map Prod.fst ∧ y ∉ (kahnLoop D fuel queue inDeg emitted).take i ∧
          ∀ d ∈ (D.lookup y).getD [], d ∈ (kahnLoop D fuel queue inDeg emitted).take i) →
        (kahnLoop D fuel queue inDeg emitted).get ⟨i, h⟩ ≤ y) ∧
      (∀ x, x ∈ D.map Prod.fst →
        (∀ d ∈ (D.lookup x).getD [], d ∈ kahnLoop D fuel queue inDeg emitted) →
        x ∈ kahnLoop D fuel queue inDeg emitted) := by
  intro fuel
  induction fuel with
  | zero =>
    intro queue inDeg emitted hbudget hedn hesub hord hmin hqnd hqchar hcount
    have hout : kahnLoop D 0 queue inDeg emitted = emitted := rfl
    rw [hout]
    refine ⟨hedn, hesub, ⟨[], by simp⟩, hord, hmin, ?_⟩
    -- with no fuel left the emitted prefix already covers every key
    intro x hx _
    have hsubfin : emitted.toFinset ⊆ (D.map Prod.fst).toFinset := by
      intro a ha
      exact List.mem_toFinset.mpr (hesub a (List.mem_toFinset.mp ha))
    have hcards : (D.map Prod.fst).toFinset.card ≤ emitted.toFinset.card := by
      calc (D.map Prod.fst).toFinset.card ≤ (D.map Prod.fst).length :=
            List.toFinset_card_le _
        _ ≤ emitted.length := by simpa using hbudget
        _ = emitted.toFinset.card := (List.toFinset_card_of_nodup hedn).symm
    have := Finset.eq_of_subset_of_card_le hsubfin hcards
    have hxe : x ∈ emitted.toFinset := this ▸ List.mem_toFinset.mpr hx
    exact List.mem_toFinset.mp hxe
  | succ fuel ih =>
    intro queue inDeg emitted hbudget hedn hesub hord hmin hqnd hqchar hcount
    cases hsortEq : List.insertionSort (· ≤ ·) queue
    case nil =>
      -- the queue is empty: the loop stops with the emitted prefix
      have hqnil : queue = [] :=
        ((hsortEq ▸ List.perm_insertionSort (· ≤ ·) queue).symm).eq_nil
      have hout : kahnLoop D (fuel + 1) queue inDeg emitted = emitted := by
        rw [kahnLoop, hsortEq]
      rw [hout]
      refine ⟨hedn, hesub, ⟨[], by simp⟩, hord, hmin, ?_⟩
      intro x hx hdeps
      by_contra hxe
      have : x ∈ queue := (hqchar x).mpr ⟨hx, hxe, hdeps⟩
      rw [hqnil] at this
      simp at this
    case cons cid rest =>
      -- emit the minimum ready id and continue
      have hperm : List.Perm (List.insertionSort (· ≤ ·) queue) queue :=
        List.perm_insertionSort (· ≤ ·) queue
      have hmemq : ∀ x, x ∈ cid :: rest ↔ x ∈ queue := by
        intro x
        rw [← hsortEq]
        exact hperm.mem_iff
      have hsorted : List.Sorted (· ≤ ·) (cid :: rest) := by
        rw [← hsortEq]
        exact List.sorted_insertionSort (· ≤ ·) queue
      have hsortnd : (cid :: rest).Nodup := by
        rw [← hsortEq]
        exact (hperm.nodup_iff).mpr hqnd
    -- facts about the popped id
      have hcidq : cid ∈ queue := (hmemq cid).mp (by simp)
      obtain ⟨hcidK, hcidne, hciddeps⟩ := (hqchar cid).mp hcidq
      have hcidmin : ∀ y, (y ∈ D.map Prod.fst ∧ y ∉ emitted ∧
          ∀ d ∈ (D.lookup y).getD [], d ∈ emitted) → cid ≤ y := by
        intro y hy
        have hyq : y ∈ cid :: rest := (hmemq y).mpr ((hqchar y).mpr hy)
        rcases List.mem_cons.mp hyq with h1 | h1
        · exact le_of_eq h1.symm
        · exact (List.sorted_cons.mp hsorted).1 y h1
      have hout : kahnLoop D (fuel + 1) queue inDeg emitted
          = kahnLoop D fuel (rest ++ (decrementPass cid D inDeg).2)
              (decrementPass cid D inDeg).1 (emitted ++ [cid]) := by
        rw [kahnLoop, hsortEq]
      rw [hout]
      set p := decrementPass cid D inDeg with hp
      set emitted' := emitted ++ [cid] with hem
      -- emitted closure of the old prefix
      have hclosed : ∀ x ∈ emitted, ∀ d ∈ (D.lookup x).getD [], d ∈ emitted :=
        deps_mem_of_emitted_ord hord
      -- the new prefix invariants
      have hedn' : emitted'.Nodup := by
        rw [hem, List.nodup_append]
        exact ⟨hedn, List.nodup_singleton cid, by
          intro a ha hb
          simp only [List.mem_singleton] at hb
          exact hcidne (hb ▸ ha)⟩
      have hesub' : ∀ x ∈ emitted', x ∈ D.map Prod.fst := by
        intro x hx
        rcases List.mem_append.mp hx with h1 | h1
        · exact hesub x h1
        · simp only [List.mem_singleton] at h1
          exact h1 ▸ hcidK
      have htake_lt : ∀ i, i ≤ emitted.length → emitted'.take i = emitted.take i := by
        intro i hi
        rw [hem, List.take_append_of_le_length hi]
      have hget_lt : ∀ i (h : i < emitted.length) (h' : i < emitted'.length),
          emitted'.get ⟨i, h'⟩ = emitted.get ⟨i, h⟩ := by
        intro i h h'
        simp only [hem, List.get_eq_getElem]
        exact List.getElem_append_left h
      have hget_last : ∀ (h' : emitted.length < emitted'.length),
          emitted'.get ⟨emitted.length, h'⟩ = cid := by
        intro h'
        simp only [hem, List.get_eq_getElem]
        rw [List.getElem_append_right (le_refl _)]
        simp
      have hlen' : emitted'.length = emitted.length + 1 := by
        simp [hem]
      have hord' : ∀ i (h : i < emitted'.length),
          ∀ d ∈ (D.lookup (emitted'.get ⟨i, h⟩)).getD [], d ∈ emitted'.take i := by
        intro i h d hd
        rcases Nat.lt_or_ge i emitted.length with hi | hi
        · rw [htake_lt i (le_of_lt hi)]
          rw [hget_lt i hi h] at hd
          exact hord i hi d hd
        · have hieq : i = emitted.length := by omega
          subst hieq
          rw [hget_last h] at hd
          rw [htake_lt _ (le_refl _), List.take_length]
          exact hciddeps d hd
      have hmin' : ∀ i (h : i < emitted'.length), ∀ y,
          (y ∈ D.map Prod.fst ∧ y ∉ emitted'.take i ∧
            ∀ d ∈ (D.lookup y).getD [], d ∈ emitted'.take i) →
          emitted'.get ⟨i, h⟩ ≤ y := by
        intro i h y hy
        rcases Nat.lt_or_ge i emitted.length with hi | hi
        · rw [htake_lt i (le_of_lt hi)] at hy
          rw [hget_lt i hi h]
          exact hmin i hi y hy
        · have hieq : i = emitted.length := by omega
          subst hieq
          rw [htake_lt _ (le_refl _), List.take_length] at hy
          rw [hget_last h]
          exact hcidmin y hy
      -- characterization of the refilled queue
      have hqchar' : ∀ x, x ∈ rest ++ p.2 ↔ (x ∈ D.map Prod.fst ∧ x ∉ emitted' ∧
          ∀ d ∈ (D.lookup x).getD [], d ∈ emitted') := by
        intro x
        constructor
        · intro hx
          rcases List.mem_append.mp hx with h1 | h1
          · -- already ready before the emission
            have hxq : x ∈ queue := (hmemq x).mp (by simp [h1])
            obtain ⟨hxK, hxne, hxdeps⟩ := (hqchar x).mp hxq
            have hxcid : x ≠ cid := by
              intro hcon
              subst hcon
              exact (List.nodup_cons.mp hsortnd).1 h1
            refine ⟨hxK, ?_, ?_⟩
            · rw [hem]
              intro hcon
              rcases List.mem_append.mp hcon with h2 | h2
              · exact hxne h2
              · simp only [List.mem_singleton] at h2
                exact hxcid h2
            · intro d hd
              rw [hem]
              exact List.mem_append.mpr (Or.inl (hxdeps d hd))
          · -- degree just reached zero
            obtain ⟨deps, d, hDx, hcidd, hdx, hdz⟩ :=
              (decrementPass_queue cid D inDeg hnd x).mp h1
            have hxK : x ∈ D.map Prod.fst :=
              (lookup_isSome_iff D x).mp (by simp [hDx])
            have hdepsx : (D.lookup x).getD [] = deps := by simp [hDx]
            have hcnt := hcount x deps hDx
            rw [hdx] at hcnt
            have hdval : d = ((deps.filter (fun dd => !emitted.contains dd)).length : Int) := by
              simpa using hcnt
            have hlen1 : (deps.filter (fun dd => !emitted.contains dd)).length = 1 := by
              have : d - 1 = 0 := hdz
              rw [hdval] at this
              omega
            have hfilsub : ∀ dd ∈ deps.filter (fun dd => !emitted.contains dd), dd = cid := by
              intro dd hdd
              by_contra hddc
              -- two distinct elements would make the filter longer than one
              have hcidf : cid ∈ deps.filter (fun dd => !emitted.contains dd) := by
                rw [List.mem_filter]
                refine ⟨hcidd, by simp [hcidne]⟩
              have hnodf : (deps.filter (fun dd => !emitted.contains dd)).Nodup :=
                List.Nodup.filter _ (hdnd (x, deps) (lookup_mem hDx))
              rcases hfil : deps.filter (fun dd => !emitted.contains dd) with _ | ⟨a, tl⟩
              · rw [hfil] at hcidf
                simp at hcidf
              · rw [hfil] at hlen1
                simp only [List.length_cons, Nat.succ.injEq] at hlen1
                have htl : tl = [] := List.length_eq_zero.mp hlen1
                rw [hfil, htl] at hcidf hdd
                simp only [List.mem_singleton] at hcidf hdd
                exact hddc (hdd.trans hcidf.symm)
            refine ⟨hxK, ?_, ?_⟩
            · -- x cannot have been emitted: its dependency cid was not
              rw [hem]
              intro hcon
              rcases List.mem_append.mp hcon with h2 | h2
              · have := hclosed x h2 cid (by rw [hdepsx]; exact hcidd)
                exact hcidne this
              · simp only [List.mem_singleton] at h2
                subst h2
                exact hcidne (hciddeps x (by rw [hdepsx] at *; exact hcidd))
            · intro dd hdd
              rw [hdepsx] at hdd
              by_cases hde : dd ∈ emitted
              · rw [hem]
                exact List.mem_append.mpr (Or.inl hde)
              · have : dd ∈ deps.filter (fun dd => !emitted.contains dd) := by
                  rw [List.mem_filter]
                  exact ⟨hdd, by simp [hde]⟩
                have := hfilsub dd this
                rw [hem, this]
                simp
        · rintro ⟨hxK, hxne', hxdeps'⟩
          have hxcid : x ≠ cid := by
            intro hcon
            subst hcon
            exact hxne' (by rw [hem]; simp)
          rcases hDx : D.lookup x with _ | deps
          · -- no dependency entry: x was ready already (empty dependency set)
            have hxq : x ∈ queue := by
              rw [hqchar x]
              refine ⟨hxK, ?_, ?_⟩
              · intro hcon
                exact hxne' (by rw [hem]; exact List.mem_append.mpr (Or.inl hcon))
              · intro d hd
                rw [hDx] at hd
                simp at hd
            have : x ∈ cid :: rest := (hmemq x).mpr hxq
            rcases List.mem_cons.mp this with h1 | h1
            · exact absurd h1 hxcid
            · exact List.mem_append.mpr (Or.inl h1)
          · by_cases hcidd : cid ∈ deps
            · -- the emission of cid completed the dependency set of x
              refine List.mem_append.mpr (Or.inr ?_)
              rw [decrementPass_queue cid D inDeg hnd x]
              have hnodeps : deps.Nodup := hdnd (x, deps) (lookup_mem hDx)
              have hsub1 : ∀ dd ∈ deps.filter (fun dd => !emitted.contains dd), dd = cid := by
                intro dd hdd
                rw [List.mem_filter] at hdd
                have := hxdeps' dd (by rw [hDx]; simpa using hdd.1)
                rw [hem] at this
                rcases List.mem_append.mp this with h2 | h2
                · exfalso
                  have := hdd.2
                  simp [h2] at this
                · simpa using h2
              have hcidf : cid ∈ deps.filter (fun dd => !emitted.contains dd) := by
                rw [List.mem_filter]
                exact ⟨hcidd, by simp [hcidne]⟩
              have hfone := nodup_all_eq_singleton
                (List.Nodup.filter _ hnodeps) hcidf hsub1
              have hlen1 : (deps.filter (fun dd => !emitted.contains dd)).length = 1 := by
                rw [hfone]
                rfl
              refine ⟨deps, ((deps.filter (fun dd => !emitted.contains dd)).length : Int),
                hDx, hcidd, hcount x deps hDx, ?_⟩
              rw [hlen1]
              simp
            · -- cid is irrelevant to x: it was ready before
              have hxq : x ∈ queue := by
                rw [hqchar x]
                refine ⟨hxK, ?_, ?_⟩
                · intro hcon
                  exact hxne' (by rw [hem]; exact List.mem_append.mpr (Or.inl hcon))
                · intro d hd
                  have := hxdeps' d hd
                  rw [hem] at this
                  rcases List.mem_append.mp this with h2 | h2
                  · exact h2
                  · exfalso
                    simp only [List.mem_singleton] at h2
                    subst h2
                    rw [hDx] at hd
                    simp only [Option.getD_some] at hd
                    exact hcidd hd
              have : x ∈ cid :: rest := (hmemq x).mpr hxq
              rcases List.mem_cons.mp this with h1 | h1
              · exact absurd h1 hxcid
              · exact List.mem_append.mpr (Or.inl h1)
      have hqnd' : (rest ++ p.2).Nodup := by
        rw [List.nodup_append]
        refine ⟨(List.nodup_cons.mp hsortnd).2, decrementPass_queue_nodup cid D inDeg hnd, ?_⟩
        intro a ha hb
        obtain ⟨deps, d, hDx, hcidd, -, -⟩ :=
          (decrementPass_queue cid D inDeg hnd a).mp hb
        have haq : a ∈ queue := (hmemq a).mp (by simp [ha])
        obtain ⟨-, -, hadeps⟩ := (hqchar a).mp haq
        have : cid ∈ emitted := hadeps cid (by rw [hDx]; simpa using hcidd)
        exact hcidne this
      -- the updated in-degree table counts dependencies outside the new prefix
      have hcount' : ∀ x deps, D.lookup x = some deps →
          p.1.lookup x
            = some (((deps.filter (fun d => !emitted'.contains d)).length : Int)) := by
        intro x deps hDx
        have hlook := decrementPass_lookup cid D inDeg hnd x deps
          ((deps.filter (fun d => !emitted.contains d)).length : Int)
          hDx (hcount x deps hDx)
        rw [hlook]
        have hfsplit : deps.filter (fun d => !emitted'.contains d)
            = (deps.filter (fun d => !emitted.contains d)).filter (fun d => !(d == cid)) := by
          rw [List.filter_filter]
          apply List.filter_congr
          intro a _
          rw [hem]
          by_cases h1 : a ∈ emitted <;> by_cases h2 : a = cid <;>
            simp [h1, h2]
        rw [hfsplit]
        by_cases hcidd : cid ∈ deps
        · have hcidf : cid ∈ deps.filter (fun d => !emitted.contains d) := by
            rw [List.mem_filter]
            exact ⟨hcidd, by simp [hcidne]⟩
          have hnodf : (deps.filter (fun d => !emitted.contains d)).Nodup :=
            List.Nodup.filter _ (hdnd (x, deps) (lookup_mem hDx))
          have hlpos : 0 < (deps.filter (fun d => !emitted.contains d)).length :=
            List.length_pos_of_mem hcidf
          rw [if_pos hcidd, nodup_filter_ne_length hnodf hcidf]
          congr 1
          push_cast [Nat.cast_sub (by omega : 1 ≤ (deps.filter (fun d => !emitted.contains d)).length)]
          ring
        · have : (deps.filter (fun d => !emitted.contains d)).filter (fun d => !(d == cid))
              = deps.filter (fun d => !emitted.contains d) := by
            rw [List.filter_eq_self]
            intro a ha
            rw [List.mem_filter] at ha
            simp only [Bool.not_eq_eq_eq_not, Bool.not_true, beq_eq_false_iff_ne]
            intro hcon
            exact hcidd (hcon ▸ ha.1)
          rw [if_neg hcidd, this]
      -- apply the induction hypothesis to the new state
      have hres := ih (rest ++ p.2) p.1 emitted'
        (by rw [hlen']; omega) hedn' hesub' hord' hmin' hqnd' hqchar' hcount'
      obtain ⟨r1, r2, ⟨suffix, hsuf⟩, r4, r5, r6⟩ := hres
      refine ⟨r1, r2, ⟨cid :: suffix, ?_⟩, r4, r5, r6⟩
      rw [hsuf, hem]
      simp

theorem foldl_pyInsert_keys_eq {α κ β γ : Type} [DecidableEq κ] (xs : List α)
    (key : α → κ) (val1 : α → β) (val2 : α → γ) (m1 : List (κ × β))
    (m2 : List (κ × γ)) (h : m1.map Prod.fst = m2.map Prod.fst) :
    (xs.foldl (fun m c => pyInsert m (key c) (val1 c)) m1).map Prod.fst
      = (xs.foldl (fun m c => pyInsert m (key c) (val2 c)) m2).map Prod.fst := by
  induction xs generalizing m1 m2 with
  | nil => simpa using h
  | cons c rest ih =>
    simp only [List.foldl_cons]
    apply ih
    rw [pyInsert_keys, pyInsert_keys, h]

theorem foldl_pyInsert_keys_nodup {α κ β : Type} [DecidableEq κ] (xs : List α)
    (key : α → κ) (val : α → β) (m0 : List (κ × β))
    (h : (m0.map Prod.fst).Nodup) :
    ((xs.foldl (fun m c => pyInsert m (key c) (val c)) m0).map Prod.fst).Nodup := by
  induction xs generalizing m0 with
  | nil => simpa using h
  | cons c rest ih =>
    simp only [List.foldl_cons]
    apply ih
    rw [pyInsert_keys]
    by_cases hm : key c ∈ m0.map Prod.fst
    · simpa [hm] using h
    · simp only [hm, if_false]
      rw [List.nodup_append]
      exact ⟨h, List.nodup_singleton _, by
        intro a ha hb
        simp only [List.mem_singleton] at hb
        exact hm (hb ▸ ha)⟩

theorem foldl_pyInsert_keys_mem {α κ β : Type} [DecidableEq κ] (xs : List α)
    (key : α → κ) (val : α → β) (m0 : List (κ × β)) (x : κ) :
    x ∈ (xs.foldl (fun m c => pyInsert m (key c) (val c)) m0).map Prod.fst ↔
      x ∈ m0.map Prod.fst ∨ x ∈ xs.map key := by
  induction xs generalizing m0 with
  | nil => simp
  | cons c rest ih =>
    simp only [List.foldl_cons, ih, List.map_cons, List.mem_cons]
    rw [pyInsert_keys]
    by_cases hm : key c ∈ m0.map Prod.fst
    · simp only [hm, if_true]
      constructor
      · rintro (h | h)
        · exact Or.inl h
        · exact Or.inr (Or.inr h)
      · rintro (h | h | h)
        · exact Or.inl h
        · exact Or.inl (h ▸ hm)
        · exact Or.inr h
    · simp only [hm, if_false, List.mem_append, List.mem_singleton]
      tauto

theorem foldl_pyInsert_keys_length {α κ β : Type} [DecidableEq κ] (xs : List α)
    (key : α → κ) (val : α → β) (m0 : List (κ × β)) :
    ((xs.foldl (fun m c => pyInsert m (key c) (val c)) m0).map Prod.fst).length
      ≤ (m0.map Prod.fst).length + xs.length := by
  induction xs generalizing m0 with
  | nil => simp
  | cons c rest ih =>
    simp only [List.foldl_cons, List.length_cons]
    refine le_trans (ih _) ?_
    rw [pyInsert_keys]
    by_cases hm : key c ∈ m0.map Prod.fst
    · simp [hm]
    · simp only [hm, if_false, List.map_append, List.length_append,
        List.map_cons, List.map_nil, List.length_cons, List.length_nil]
      omega

/-- The key lists of the three dicts built by `_topological_sort_cards`
coincide. -/
theorem topo_keys_eq (readDeps : Int → List Int) (cards : List Card) :
    (buildDepsDict readDeps cards).map Prod.fst = (buildCardMap cards).map Prod.fst ∧
    (initInDegree cards).map Prod.fst = (buildCardMap cards).map Prod.fst := by
  constructor
  · exact foldl_pyInsert_keys_eq cards (fun c => c.id)
      (fun c => (readDeps c.id).dedup.filter
        (fun d => ((buildCardMap cards).map (·.1)).contains d))
      (fun c => c) [] [] rfl
  · exact foldl_pyInsert_keys_eq cards (fun c => c.id) (fun c => (0 : Int))
      (fun c => c) [] [] rfl

theorem buildCardMap_keys_nodup (cards : List Card) :
    ((buildCardMap cards).map Prod.fst).Nodup :=
  foldl_pyInsert_keys_nodup cards (fun c => c.id) (fun c => c) [] (by simp)

theorem buildCardMap_keys_mem (cards : List Card) (x : Int) :
    x ∈ (buildCardMap cards).map Prod.fst ↔ x ∈ cards.map (·.id) := by
  have := foldl_pyInsert_keys_mem cards (fun c => c.id) (fun c => c) [] x
  simpa using this

theorem buildCardMap_keys_length (cards : List Card) :
    ((buildCardMap cards).map Prod.fst).length ≤ cards.length := by
  have := foldl_pyInsert_keys_length cards (fun c => c.id) (fun c => c) []
  simpa using this

theorem buildDepsDict_lookup (readDeps : Int → List Int) (cards : List Card)
    (x : Int) :
    (buildDepsDict readDeps cards).lookup x
      = if x ∈ cards.map (·.id) then
          some ((readDeps x).dedup.filter
            (fun d => ((buildCardMap cards).map (·.1)).contains d))
        else none := by
  have := foldl_pyInsert_lookup_fun cards (fun c => c.id)
    (fun i => (readDeps i).dedup.filter
      (fun d => ((buildCardMap cards).map (·.1)).contains d)) [] x
  simp only [buildDepsDict]
  rw [this]
  by_cases hx : x ∈ cards.map (·.id)
  · simp only [List.map_eq_map] at *
    simp [hx]
  · simp only [List.map_eq_map] at *
    simp [hx, List.lookup]

theorem initInDegree_lookup (cards : List Card) (x : Int) :
    (initInDegree cards).lookup x
      = if x ∈ cards.map (·.id) then some 0 else none := by
  have := foldl_pyInsert_lookup_fun cards (fun c => c.id) (fun _ => (0 : Int)) [] x
  simp only [initInDegree]
  rw [this]
  by_cases hx : x ∈ cards.map (·.id)
  · simp only [List.map_eq_map] at *
    simp [hx]
  · simp only [List.map_eq_map] at *
    simp [hx, List.lookup]

/-- Well-formedness of the dependency dict built by
`_topological_sort_cards`: keys are unique, each dependency set is
duplicate-free and contained in the key set. -/
theorem buildDepsDict_wf (readDeps : Int → List Int) (cards : List Card) :
    ((buildDepsDict readDeps cards).map Prod.fst).Nodup ∧
    (∀ kv ∈ buildDepsDict readDeps cards, kv.2.Nodup) ∧
    (∀ kv ∈ buildDepsDict readDeps cards, ∀ d ∈ kv.2,
      d ∈ (buildDepsDict readDeps cards).map Prod.fst) := by
  have hkeys := (topo_keys_eq readDeps cards).1
  have hnd : ((buildDepsDict readDeps cards).map Prod.fst).Nodup := by
    rw [hkeys]
    exact buildCardMap_keys_nodup cards
  refine ⟨hnd, ?_, ?_⟩
  · intro kv hkv
    have hl := mem_lookup_of_nodupkeys hnd hkv
    rw [buildDepsDict_lookup] at hl
    by_cases hx : kv.1 ∈ cards.map (·.id)
    · rw [if_pos hx] at hl
      have : kv.2 = (readDeps kv.1).dedup.filter
          (fun d => ((buildCardMap cards).map (·.1)).contains d) := by
        simpa using hl.symm
      rw [this]
      exact List.Nodup.filter _ (List.nodup_dedup _)
    · rw [if_neg hx] at hl
      exact Option.noConfusion hl
  · intro kv hkv d hd
    have hl := mem_lookup_of_nodupkeys hnd hkv
    rw [buildDepsDict_lookup] at hl
    by_cases hx : kv.1 ∈ cards.map (·.id)
    · rw [if_pos hx] at hl
      have hkv2 : kv.2 = (readDeps kv.1).dedup.filter
          (fun d => ((buildCardMap cards).map (·.1)).contains d) := by
        simpa using hl.symm
      rw [hkv2] at hd
      rw [List.mem_filter] at hd
      rw [hkeys]
      simpa using hd.2
    · rw [if_neg hx] at hl
      exact Option.noConfusion hl

/-- Membership in `readyAt` unfolded to the ready conditions. -/
theorem readyAt_mem (readDeps : Int → List Int) (cards : List Card)
    (prev : List Int) (y : Int) :
    y ∈ readyAt readDeps cards prev ↔
      (y ∈ (buildCardMap cards).map Prod.fst ∧ y ∉ prev ∧
        ∀ d ∈ scopeDeps readDeps cards y, d ∈ prev) := by
  simp only [readyAt, List.mem_filter, Bool.and_eq_true, List.all_eq_true,
    Bool.not_eq_eq_eq_not, Bool.not_true]
  constructor
  · rintro ⟨h1, h2, h3⟩
    refine ⟨by simpa using h1, by simpa using h2, ?_⟩
    intro d hd
    simpa using h3 d hd
  · rintro ⟨h1, h2, h3⟩
    refine ⟨by simpa using h1, by simpa using h2, ?_⟩
    intro d hd
    simpa using h3 d hd

/-- Full specification of the Kahn phase of `_topological_sort_cards`: the
emitted ids are duplicate-free in-scope ids; every emitted id comes after
all its in-scope dependencies; at every position the emitted id is the
minimum of the ready set; and every id whose in-scope dependencies were all
emitted is itself emitted. -/
theorem kahnIds_spec (readDeps : Int → List Int) (cards : List Card) :
    (kahnIds readDeps cards).Nodup ∧
    (∀ x ∈ kahnIds readDeps cards, x ∈ (buildCardMap cards).map Prod.fst) ∧
    (∀ i (h : i < (kahnIds readDeps cards).length),
      ∀ d ∈ scopeDeps readDeps cards ((kahnIds readDeps cards).get ⟨i, h⟩),
        d ∈ (kahnIds readDeps cards).take i) ∧
    (∀ i (h : i < (kahnIds readDeps cards).length),
      (kahnIds readDeps cards).get ⟨i, h⟩
          ∈ readyAt readDeps cards ((kahnIds readDeps cards).take i) ∧
      ∀ y ∈ readyAt readDeps cards ((kahnIds readDeps cards).take i),
        (kahnIds readDeps cards).get ⟨i, h⟩ ≤ y) ∧
    (∀ x ∈ (buildCardMap cards).map Prod.fst,
      (∀ d ∈ scopeDeps readDeps cards x, d ∈ kahnIds readDeps cards) →
      x ∈ kahnIds readDeps cards) := by
  obtain ⟨hDnd, hDdnd, hDscope⟩ := buildDepsDict_wf readDeps cards
  have hkeysD := (topo_keys_eq readDeps cards).1
  have hkeysI := (topo_keys_eq readDeps cards).2
  set D := buildDepsDict readDeps cards with hD
  set inDeg0 := countInDegrees D (initInDegree cards) with hdeg
  set queue0 := (inDeg0.filter (fun kv => kv.2 = 0)).map (·.1) with hq0
  have hout : kahnIds readDeps cards = kahnLoop D cards.length queue0 inDeg0 [] := rfl
  -- the initial in-degree table records the dependency counts
  have hcount0 : ∀ x deps, D.lookup x = some deps →
      inDeg0.lookup x = some ((deps.filter (fun d => !([] : List Int).contains d)).length : Int) := by
    intro x deps hDx
    have hxK : x ∈ D.map Prod.fst := (lookup_isSome_iff D x).mp (by simp [hDx])
    have hxids : x ∈ cards.map (·.id) := by
      rw [hkeysD] at hxK
      exact (buildCardMap_keys_mem cards x).mp hxK
    have hinit : (initInDegree cards).lookup x = some 0 := by
      rw [initInDegree_lookup, if_pos hxids]
    have := countInDegrees_lookup D (initInDegree cards) hDnd
      (by
        intro kv hkv d hd
        rw [hkeysI, ← hkeysD]
        exact hDscope kv hkv d hd)
      (by
        intro kv hkv
        rw [hkeysI, ← hkeysD]
        exact List.mem_map_of_mem Prod.fst hkv)
      x 0 hinit
    rw [hdeg, this, hDx]
    have : deps.filter (fun d => !([] : List Int).contains d) = deps := by
      rw [List.filter_eq_self]
      intro a _
      simp
    rw [this]
    simp
  -- the initial queue is exactly the set of ids with no in-scope dependency
  have hdeg_keys : inDeg0.map Prod.fst = (initInDegree cards).map Prod.fst := by
    rw [hdeg]
    clear hq0 hcount0
    generalize initInDegree cards = m0
    induction D generalizing m0 with
    | nil => rfl
    | cons kv rest ih =>
      simp only [countInDegrees, List.foldl_cons] at *
      rw [ih]
      exact incrFold_keys kv.1 kv.2 m0
  have hdeg_nodup : (inDeg0.map Prod.fst).Nodup := by
    rw [hdeg_keys, hkeysI, ← hkeysD]
    exact hDnd
  have hqchar0 : ∀ x, x ∈ queue0 ↔ (x ∈ D.map Prod.fst ∧ x ∉ ([] : List Int) ∧
      ∀ d ∈ (D.lookup x).getD [], d ∈ ([] : List Int)) := by
    intro x
    have hmq : x ∈ queue0 ↔ inDeg0.lookup x = some 0 := by
      rw [hq0]
      constructor
      · intro hx
        obtain ⟨kv, hkv, hfst⟩ := List.mem_map.mp hx
        rw [List.mem_filter] at hkv
        have : kv = (x, 0) := by
          obtain ⟨k, v⟩ := kv
          simp only at hfst
          have hv : v = 0 := by simpa using hkv.2
          rw [hfst, hv]
        rw [this] at hkv
        exact mem_lookup_of_nodupkeys hdeg_nodup hkv.1
      · intro hx
        refine List.mem_map.mpr ⟨(x, 0), ?_, rfl⟩
        rw [List.mem_filter]
        exact ⟨lookup_mem hx, by simp⟩
    rw [hmq]
    constructor
    · intro hx
      rcases hDx : D.lookup x with _ | deps
      · exfalso
        have : x ∉ D.map Prod.fst := (lookup_none_iff D x).mp hDx
        have hxI : x ∈ inDeg0.map Prod.fst := (lookup_isSome_iff inDeg0 x).mp (by simp [hx])
        rw [hdeg_keys, hkeysI, ← hkeysD] at hxI
        exact this hxI
      · have := hcount0 x deps hDx
        rw [hx] at this
        have hlen : (deps.filter (fun d => !([] : List Int).contains d)).length = 0 := by
          have h0 : (0 : Int) = ((deps.filter (fun d => !([] : List Int).contains d)).length : Int) := by
            simpa using this
          omega
        have hdeps0 : deps = [] := by
          have : deps.filter (fun d => !([] : List Int).contains d) = deps := by
            rw [List.filter_eq_self]
            intro a _
            simp
          rw [this] at hlen
          exact List.length_eq_zero.mp hlen
        refine ⟨(lookup_isSome_iff D x).mp (by simp [hDx]), by simp, ?_⟩
        intro d hd
        simp only [hDx, Option.getD_some] at hd
        rw [hdeps0] at hd
        exact absurd hd (List.not_mem_nil d)
    · rintro ⟨hxK, -, hdeps⟩
      obtain ⟨deps, hDx⟩ := Option.isSome_iff_exists.mp ((lookup_isSome_iff D x).mpr hxK)
      have hdeps0 : deps = [] := by
        rw [List.eq_nil_iff_forall_not_mem]
        intro d hd
        have := hdeps d (by rw [hDx]; simpa using hd)
        simp at this
      have := hcount0 x deps hDx
      rw [hdeps0] at this
      simpa using this
  have hqnd0 : queue0.Nodup := by
    rw [hq0]
    have hsub : ((inDeg0.filter (fun kv => kv.2 = 0)).map Prod.fst).Sublist
        (inDeg0.map Prod.fst) := (List.filter_sublist inDeg0).map Prod.fst
    exact hsub.nodup hdeg_nodup
  have hbudget : (D.map Prod.fst).length ≤ cards.length + ([] : List Int).length := by
    rw [hkeysD]
    simpa using buildCardMap_keys_length cards
  have hres := kahnLoop_spec D hDnd hDdnd cards.length queue0 inDeg0 []
    hbudget (by simp) (by simp) (by simp) (by simp) hqnd0 hqchar0 hcount0
  obtain ⟨r1, r2, -, r4, r5, r6⟩ := hres
  rw [hout]
  refine ⟨r1, ?_, ?_, ?_, ?_⟩
  · intro x hx
    rw [← hkeysD]
    exact r2 x hx
  · intro i h d hd
    exact r4 i h d hd
  · intro i h
    constructor
    · rw [readyAt_mem]
      refine ⟨?_, ?_, ?_⟩
      · rw [← hkeysD]
        exact r2 _ (List.get_mem _ _ _)
      · intro hcon
        -- the element at position i cannot already occur among the first i
        obtain ⟨⟨j, hj⟩, hget⟩ := List.mem_iff_get.mp hcon
        have hjmin : j < min i (kahnLoop D cards.length queue0 inDeg0 []).length := by
          simpa [List.length_take] using hj
        have hjlen : j < i := lt_of_lt_of_le hjmin (min_le_left _ _)
        have hj2 : j < (kahnLoop D cards.length queue0 inDeg0 []).length :=
          lt_of_lt_of_le hjmin (min_le_right _ _)
        have hgetj : (kahnLoop D cards.length queue0 inDeg0 []).get ⟨j, hj2⟩
            = (kahnLoop D cards.length queue0 inDeg0 []).get ⟨i, h⟩ := by
          rw [← hget]
          simp only [List.get_eq_getElem, List.getElem_take]
        have heq := (List.Nodup.get_inj_iff r1).mp hgetj
        simp only [Fin.mk.injEq] at heq
        omega
      · intro d hd
        exact r4 i h d hd
    · intro y hy
      rw [readyAt_mem] at hy
      refine r5 i h y ⟨?_, hy.2.1, hy.2.2⟩
      rw [hkeysD]
      exact hy.1
  · intro x hx hdeps
    refine r6 x ?_ hdeps
    rw [hkeysD]
    exact hx

theorem subset_of_nodup_le_length {l1 l2 : List Int} (h1 : l1.Nodup)
    (hsub : ∀ x ∈ l1, x ∈ l2) (hlen : l2.length ≤ l1.length) :
    ∀ x ∈ l2, x ∈ l1 := by
  intro x hx
  have hsubfin : l1.toFinset ⊆ l2.toFinset := by
    intro a ha
    exact List.mem_toFinset.mpr (hsub a (List.mem_toFinset.mp ha))
  have hcards : l2.toFinset.card ≤ l1.toFinset.card := by
    calc l2.toFinset.card ≤ l2.length := List.toFinset_card_le _
      _ ≤ l1.length := hlen
      _ = l1.toFinset.card := (List.toFinset_card_of_nodup h1).symm
  have := Finset.eq_of_subset_of_card_le hsubfin hcards
  exact List.mem_toFinset.mp (this ▸ List.mem_toFinset.mpr hx)

theorem buildCardMap_eq_of_nodup (cards : List Card)
    (h : (cards.map (·.id)).Nodup) :
    buildCardMap cards = cards.map (fun c => (c.id, c)) := by
  have := foldl_pyInsert_nodup cards (fun c => c.id) (fun c => c) [] (by simpa using h)
    (by simp)
  simpa [buildCardMap] using this

theorem buildCardMap_lookup_of_nodup (cards : List Card)
    (h : (cards.map (·.id)).Nodup) (i : Int) (c : Card)
    (hl : (buildCardMap cards).lookup i = some c) : c.id = i ∧ c ∈ cards := by
  rw [buildCardMap_eq_of_nodup cards h] at hl
  have hmem := lookup_mem hl
  obtain ⟨c', hc', heq⟩ := List.mem_map.mp hmem
  have h1 : c'.id = i := congrArg Prod.fst heq
  have h2 : c' = c := congrArg Prod.snd heq
  exact ⟨h2 ▸ h1, h2 ▸ hc'⟩

theorem kahnCards_map_id (readDeps : Int → List Int) (cards : List Card)
    (h : (cards.map (·.id)).Nodup) :
    (kahnCards readDeps cards).map (·.id) = kahnIds readDeps cards := by
  obtain ⟨-, hsub, -, -, -⟩ := kahnIds_spec readDeps cards
  rw [kahnCards]
  generalize hl : kahnIds readDeps cards = l at hsub
  clear hl
  induction l with
  | nil => simp
  | cons x rest ih =>
    have hxK : x ∈ (buildCardMap cards).map Prod.fst := hsub x (by simp)
    obtain ⟨c, hc⟩ := Option.isSome_iff_exists.mp
      ((lookup_isSome_iff (buildCardMap cards) x).mpr hxK)
    obtain ⟨hcid, -⟩ := buildCardMap_lookup_of_nodup cards h x c hc
    simp only [List.filterMap_cons, hc, List.map_cons, hcid]
    rw [ih (by intro y hy; exact hsub y (by simp [hy]))]

theorem topological_sort_cards_eq (readDeps : Int → List Int) (cards : List Card)
    (h : (cards.map (·.id)).Nodup) :
    topological_sort_cards readDeps cards
      = kahnCards readDeps cards
        ++ cards.filter (fun c => !(kahnIds readDeps cards).contains c.id) := by
  obtain ⟨hnd, hsub, -, -, -⟩ := kahnIds_spec readDeps cards
  have hmapid := kahnCards_map_id readDeps cards h
  have hcmap := buildCardMap_eq_of_nodup cards h
  rw [topological_sort_cards]
  by_cases hlt : (kahnCards readDeps cards).length < cards.length
  · simp only [if_pos hlt, hmapid, hcmap]
    congr 1
    rw [List.filter_map]
    rw [List.map_map]
    have : ((fun kv : Int × Card => kv.2) ∘ fun c : Card => (c.id, c)) = id := by
      funext c
      rfl
    rw [this, List.map_id]
    apply List.filter_congr
    intro c _
    rfl
  · simp only [if_neg hlt]
    have hklen : (kahnCards readDeps cards).length = (kahnIds readDeps cards).length := by
      rw [← hmapid, List.length_map]
    have hlen2 : cards.length ≤ (kahnIds readDeps cards).length := by omega
    have hids_len : (cards.map (·.id)).length = cards.length := List.length_map _ _
    have hall : ∀ x ∈ cards.map (·.id), x ∈ kahnIds readDeps cards := by
      apply subset_of_nodup_le_length hnd
      · intro x hx
        have := hsub x hx
        exact (buildCardMap_keys_mem cards x).mp this
      · omega
    have hfilter : cards.filter (fun c => !(kahnIds readDeps cards).contains c.id) = [] := by
      rw [List.filter_eq_nil_iff]
      intro c hc
      have : c.id ∈ kahnIds readDeps cards := hall c.id (List.mem_map_of_mem _ hc)
      simp [this]
    rw [hfilter]
    simp

theorem indexOf_lt_of_mem_take {x : Int} :
    ∀ (l : List Int) (i : Nat), x ∈ l.take i → l.indexOf x < i := by
  intro l
  induction l with
  | nil => intro i hx; simp at hx
  | cons a tl ih =>
    intro i hx
    cases i with
    | zero => simp at hx
    | succ i =>
      by_cases hxa : x = a
      · subst hxa
        rw [List.indexOf_cons_self]
        omega
      · simp only [List.take_succ_cons, List.mem_cons] at hx
        rcases hx with h1 | h1
        · exact absurd h1 hxa
        · rw [List.indexOf_cons_ne tl (Ne.symm hxa)]
          have := ih i h1
          omega

theorem mem_take_of_indexOf_lt {x : Int} :
    ∀ (l : List Int) (i : Nat), x ∈ l → l.indexOf x < i → x ∈ l.take i := by
  intro l
  induction l with
  | nil => intro i hx; simp at hx
  | cons a tl ih =>
    intro i hx hidx
    by_cases hxa : x = a
    · subst hxa
      rw [List.indexOf_cons_self] at hidx
      cases i with
      | zero => omega
      | succ i => simp
    · rw [List.indexOf_cons_ne tl (Ne.symm hxa)] at hidx
      cases i with
      | zero => omega
      | succ i =>
        simp only [List.take_succ_cons, List.mem_cons]
        rcases List.mem_cons.mp hx with h1 | h1
        · exact absurd h1 hxa
        · exact Or.inr (ih i h1 (by omega))

/-- C4 counterexample.  The claim states that whenever `str(s)` is not a key
of `by_id` and `manifest.databases` maps `s` to a name that is a key of
`by_name`, `resolve_db_id` returns `by_name[name]`.  That fails when the
manifest name is the empty string: the code guards the name lookup with
Python truthiness (`if source_db_name and source_db_name in by_name`), so an
empty name is never tried against `by_name`.  With `manifest.databases =
\x7b5: ""\x7d` and `by_name = \x7b"": 7\x7d` the claim demands `some 7`, but
the code returns `none`. -/
theorem c4_resolve_db_id_counterexample :
    resolve_db_id ⟨⟨[], [("", 7)]⟩, [(5, "")], [], []⟩ 5 = none ∧
    (⟨⟨[], [("", 7)]⟩, [(5, "")], [], []⟩ : IDRemapperState).manifest_databases.lookup 5
      = some "" ∧
    (⟨⟨[], [("", 7)]⟩, [(5, "")], [], []⟩ : IDRemapperState).db_map.by_name.lookup ""
      = some 7 := by
  refine ⟨?_, by decide, by decide⟩
  decide

/-- C4 (amended).  Database resolution precedence of
`IDRemapper.resolve_db_id`: a `by_id` entry for `str(s)` always wins;
otherwise, when the manifest maps `s` to a non-empty name, the result is
exactly the `by_name` lookup of that name (so a `by_name` hit is returned
and a miss is unresolved); when the manifest has no entry for `s`, or maps
it to the empty string, the result is `none`. -/
theorem c4_resolve_db_id_precedence (st : IDRemapperState) (s : Int) :
    (∀ t, st.db_map.by_id.lookup (intToDec s) = some t →
      resolve_db_id st s = some t) ∧
    (st.db_map.by_id.lookup (intToDec s) = none →
      ∀ name, st.manifest_databases.lookup s = some name → name ≠ "" →
        resolve_db_id st s = st.db_map.by_name.lookup name) ∧
    (st.db_map.by_id.lookup (intToDec s) = none →
      ∀ name, st.manifest_databases.lookup s = some name → name = "" →
        resolve_db_id st s = none) ∧
    (st.db_map.by_id.lookup (intToDec s) = none →
      st.manifest_databases.lookup s = none →
      resolve_db_id st s = none) := by
  refine ⟨?_, ?_, ?_, ?_⟩
  · intro t h
    simp [resolve_db_id, h]
  · intro h name hm hne
    simp [resolve_db_id, h, hm, hne]
  · intro h name hm hne
    simp [resolve_db_id, h, hm, hne]
  · intro h hm
    simp [resolve_db_id, h, hm]

/-- C4 witness: the amended precedence theorem applied to concrete states.
With `by_id = \x7b"5": 7\x7d`, `manifest = \x7b5: "A"\x7d`,
`by_name = \x7b"A": 9\x7d` the `by_id` entry wins over the conflicting
`by_name` entry; with `by_id` empty the `by_name` entry is used. -/
theorem c4_resolve_db_id_precedence_witness :
    resolve_db_id ⟨⟨[("5", 7)], [("A", 9)]⟩, [(5, "A")], [], []⟩ 5 = some 7 ∧
    resolve_db_id ⟨⟨[], [("A", 9)]⟩, [(5, "A")], [], []⟩ 5 = some 9 := by
  constructor
  · exact (c4_resolve_db_id_precedence ⟨⟨[("5", 7)], [("A", 9)]⟩, [(5, "A")], [], []⟩ 5).1
      7 (by decide)
  · have h := (c4_resolve_db_id_precedence ⟨⟨[], [("A", 9)]⟩, [(5, "A")], [], []⟩ 5).2.1
      (by decide) "A" (by decide) (by decide)
    simpa using h

/-- C3: the code evaluated at the failing inputs.  The repository tests
(`src/tests/test_sql_card_references.py`,
`src/tests/test_native_query_remapping.py`) assert that a native-SQL card
reference embedded in the query text, and a `template-tags` entry of type
`card` with a `card-id` field, each contribute the referenced card id (50)
to the dependency set.  The shipped extraction functions inspect only
`query.source-table` and `query.joins`, so both payloads yield the empty
set. -/
theorem c3_extract_ignores_native_sql_references :
    extract_card_dependencies (.obj
      [("id", .int 100),
       ("dataset_query", .obj
         [("type", .str "native"),
          ("database", .int 1),
          ("native", .obj
            [("query",
              .str "SELECT * FROM \x7b\x7b#50-filtered-test-server-dataset\x7d\x7d")])])])
      = .ok [] ∧
    extract_card_dependencies (.obj
      [("dataset_query", .obj
        [("type", .str "native"),
         ("native", .obj
           [("query", .str "SELECT * FROM \x7b\x7b#50-my-model\x7d\x7d"),
            ("template-tags", .obj
              [("50-my-model", .obj
                [("type", .str "card"),
                 ("card-id", .int 50)])])])])])
      = .ok [] := by
  constructor <;> rfl

/-- C2 counterexample.  Take cards 4, 3, 1, 2 where 4 depends on 3, 3
depends on 1, and 1 and 2 form a cycle.  Neither card 4 nor card 3
participates in a dependency cycle (only 1 and 2 do), and 3 is an extracted
in-scope dependency of 4; yet the returned order is `[4, 3, 1, 2]`: the Kahn
phase emits nothing and the tail keeps the input order, so the dependency 3
is placed after 4, contradicting the claim. -/
theorem c2_topological_order_counterexample :
    (topological_sort_cards
      (fun i => if i = 4 then [3] else if i = 3 then [1] else
                if i = 1 then [2] else if i = 2 then [1] else [])
      [mkCard 4 "q", mkCard 3 "r", mkCard 1 "a", mkCard 2 "b"]).map (·.id)
      = [4, 3, 1, 2] ∧
    scopeDeps
      (fun i => if i = 4 then [3] else if i = 3 then [1] else
                if i = 1 then [2] else if i = 2 then [1] else [])
      [mkCard 4 "q", mkCard 3 "r", mkCard 1 "a", mkCard 2 "b"] 4 = [3] ∧
    participatesInCycle
      (fun i => if i = 4 then [3] else if i = 3 then [1] else
                if i = 1 then [2] else if i = 2 then [1] else []) 4 4 = false ∧
    participatesInCycle
      (fun i => if i = 4 then [3] else if i = 3 then [1] else
                if i = 1 then [2] else if i = 2 then [1] else []) 4 3 = false := by
  refine ⟨by decide, by decide, by decide, by decide⟩

/-- C5 counterexample.  Two cards forming a cycle, listed in descending id
order: the Kahn phase emits nothing, and the tail is appended in order of
first appearance in the input list (`card_map` key order), not in ascending
source-id order, so the result is `[2, 1]` where the claim demands
`[1, 2]`. -/
theorem c5_tail_order_counterexample :
    kahnIds (fun i => if i = 2 then [1] else if i = 1 then [2] else [])
      [mkCard 2 "B", mkCard 1 "A"] = [] ∧
    (topological_sort_cards (fun i => if i = 2 then [1] else if i = 1 then [2] else [])
      [mkCard 2 "B", mkCard 1 "A"]).map (·.id) = [2, 1] ∧
    [2, 1] ≠ [1, 2] := by
  refine ⟨by decide, by decide, by decide⟩

/-- C2 (amended).  In the list returned by
`CardImporter._topological_sort_cards`, every extracted in-scope dependency
`r` of a card `q` emitted during the Kahn phase appears strictly before `q`.
(The exception is narrower than the original claim: a card that
transitively depends on a cycle, without participating in one, also ends up
in the appended tail, where input order is kept.) -/
theorem c2_topological_order_amended (readDeps : Int → List Int)
    (cards : List Card) (h : (cards.map (·.id)).Nodup) :
    ∀ q ∈ kahnIds readDeps cards, ∀ r ∈ scopeDeps readDeps cards q,
      ((topological_sort_cards readDeps cards).map (·.id)).indexOf r
        < ((topological_sort_cards readDeps cards).map (·.id)).indexOf q := by
  obtain ⟨hnd, hsub, hord, hready, -⟩ := kahnIds_spec readDeps cards
  intro q hq r hr
  have houtmap : (topological_sort_cards readDeps cards).map (·.id)
      = kahnIds readDeps cards
        ++ (cards.filter (fun c => !(kahnIds readDeps cards).contains c.id)).map (·.id) := by
    rw [topological_sort_cards_eq readDeps cards h, List.map_append,
      kahnCards_map_id readDeps cards h]
  obtain ⟨⟨i, hi⟩, hget⟩ := List.mem_iff_get.mp hq
  have hrtake : r ∈ (kahnIds readDeps cards).take i := by
    apply hord i hi
    rw [hget]
    exact hr
  have hrmem : r ∈ kahnIds readDeps cards := List.take_subset i _ hrtake
  have hidxr : (kahnIds readDeps cards).indexOf r < i :=
    indexOf_lt_of_mem_take _ i hrtake
  have hqnotin : q ∉ (kahnIds readDeps cards).take i := by
    have := (hready i hi).1
    rw [readyAt_mem] at this
    rw [hget] at this
    exact this.2.1
  have hidxq : i ≤ (kahnIds readDeps cards).indexOf q := by
    by_contra hcon
    push_neg at hcon
    exact hqnotin (mem_take_of_indexOf_lt _ i hq hcon)
  rw [houtmap, List.indexOf_append_of_mem hrmem, List.indexOf_append_of_mem hq]
  omega

/-- C2 witness: cards 2 and 1 where 2 depends on 1; the Kahn phase emits
both, and the dependency 1 is placed before 2 in the returned order. -/
theorem c2_topological_order_amended_witness :
    (([mkCard 2 "B", mkCard 1 "A"].map (·.id)).Nodup) ∧
    (2 : Int) ∈ kahnIds (fun i => if i = 2 then [1] else []) [mkCard 2 "B", mkCard 1 "A"] ∧
    (1 : Int) ∈ scopeDeps (fun i => if i = 2 then [1] else []) [mkCard 2 "B", mkCard 1 "A"] 2 ∧
    ((topological_sort_cards (fun i => if i = 2 then [1] else [])
        [mkCard 2 "B", mkCard 1 "A"]).map (·.id)).indexOf 1
      < ((topological_sort_cards (fun i => if i = 2 then [1] else [])
        [mkCard 2 "B", mkCard 1 "A"]).map (·.id)).indexOf 2 := by
  refine ⟨by decide, by decide, by decide, ?_⟩
  exact c2_topological_order_amended (fun i => if i = 2 then [1] else [])
    [mkCard 2 "B", mkCard 1 "A"] (by decide) 2 (by decide) 1 (by decide)

/-- C5 (amended).  The Kahn phase of `_topological_sort_cards` is
deterministic with an ascending source-id tie-break: at every position the
emitted id is the minimum of the ready set.  Cards not emitted by the Kahn
phase (cycle members and cards depending on them) are appended after all
ordered cards — but in order of their first appearance in the input list
(`card_map` insertion order), not in ascending source-id order. -/
theorem c5_deterministic_order_amended (readDeps : Int → List Int)
    (cards : List Card) (h : (cards.map (·.id)).Nodup) :
    (∀ i (hi : i < (kahnIds readDeps cards).length),
      (kahnIds readDeps cards).get ⟨i, hi⟩
          ∈ readyAt readDeps cards ((kahnIds readDeps cards).take i) ∧
      ∀ y ∈ readyAt readDeps cards ((kahnIds readDeps cards).take i),
        (kahnIds readDeps cards).get ⟨i, hi⟩ ≤ y) ∧
    topological_sort_cards readDeps cards
      = kahnCards readDeps cards
        ++ cards.filter (fun c => !(kahnIds readDeps cards).contains c.id) :=
  ⟨(kahnIds_spec readDeps cards).2.2.2.1, topological_sort_cards_eq readDeps cards h⟩

/-- C5 witness: three independent cards listed as 9, 3, 7 are emitted in
ascending id order 3, 7, 9, and the tail decomposition holds. -/
theorem c5_deterministic_order_amended_witness :
    (([mkCard 9 "X", mkCard 3 "Y", mkCard 7 "Z"].map (·.id)).Nodup) ∧
    topological_sort_cards (fun _ => []) [mkCard 9 "X", mkCard 3 "Y", mkCard 7 "Z"]
      = kahnCards (fun _ => []) [mkCard 9 "X", mkCard 3 "Y", mkCard 7 "Z"]
        ++ [mkCard 9 "X", mkCard 3 "Y", mkCard 7 "Z"].filter
            (fun c => !(kahnIds (fun _ => []) [mkCard 9 "X", mkCard 3 "Y", mkCard 7 "Z"]).contains c.id) ∧
    (topological_sort_cards (fun _ => [])
      [mkCard 9 "X", mkCard 3 "Y", mkCard 7 "Z"]).map (·.id) = [3, 7, 9] := by
  refine ⟨by decide, ?_, by decide⟩
  exact (c5_deterministic_order_amended (fun _ => [])
    [mkCard 9 "X", mkCard 3 "Y", mkCard 7 "Z"] (by decide)).2

/-- C1 counterexample.  The rewriter is not idempotent: with
`by_id = \x7b"1": 100\x7d` and an empty manifest, the first run maps
database 1 to 100 and succeeds, but the second run must resolve the already
rewritten database id 100, which has no mapping, so `remap_card_query`
raises `ValueError` instead of returning the same `(payload, ok)` pair. -/
theorem c1_remap_not_idempotent_counterexample :
    remap_card_query ⟨⟨[("1", 100)], []⟩, [], [], []⟩ []
      (.obj [("database_id", .int 1), ("dataset_query", .obj [("database", .int 1)])])
      = .ok (.obj [("database_id", .int 100),
                   ("dataset_query", .obj [("database", .int 100)])], true) ∧
    remap_card_query ⟨⟨[("1", 100)], []⟩, [], [], []⟩ []
      (.obj [("database_id", .int 100), ("dataset_query", .obj [("database", .int 100)])])
      = .error .valueError := by
  exact ⟨rfl, rfl⟩

/-- C10.  Falsy database ids at the rewrite boundary of
`remap_card_query`: when `database_id` and `dataset_query.database` are both
missing, `None`, or `0`, no resolution happens and the copied payload is
returned with `False`; and when the map resolves the source id to target id
0, the code treats the database as unresolved (`if not target_db_id`) and
raises `ValueError` even though a mapping entry exists. -/
theorem c10_falsy_database_ids (st : IDRemapperState) (cm : List (Int × Int))
    (kvs : List (String × Json)) :
    ((dget kvs "database_id" = none ∨ dget kvs "database_id" = some .null ∨
      dget kvs "database_id" = some (.int 0)) →
     (dget kvs "dataset_query" = none →
       remap_card_query st cm (.obj kvs) = .ok (.obj kvs, false)) ∧
     (∀ q, dget kvs "dataset_query" = some (.obj q) →
       (dget q "database" = none ∨ dget q "database" = some .null ∨
        dget q "database" = some (.int 0)) →
       remap_card_query st cm (.obj kvs) = .ok (.obj kvs, false))) ∧
    (∀ n, dget kvs "database_id" = some (.int n) → n ≠ 0 →
      resolve_db_id st n = some 0 →
      remap_card_query st cm (.obj kvs) = .error .valueError) := by
  constructor
  · intro hdb
    constructor
    · intro hdq
      rcases hdb with h | h | h <;>
        simp [remap_card_query, h, hdq, Json.truthy]
    · intro q hdq hqdb
      rcases hdb with h | h | h <;> rcases hqdb with h2 | h2 | h2 <;>
        simp [remap_card_query, h, hdq, h2, Json.truthy]
  · intro n hdb hn hres
    simp [remap_card_query, hdb, Json.truthy, hn, resolve_db_id_any, hres]

/-- C10 witness: both branches at concrete inputs.  A payload whose
`database_id` is `0` and whose `dataset_query.database` is `None` is
returned unchanged with `False`; a payload whose database id 7 is mapped to
target id 0 by `by_id` raises `ValueError`. -/
theorem c10_falsy_database_ids_witness :
    remap_card_query ⟨⟨[("7", 0)], []⟩, [], [], []⟩ []
      (.obj [("database_id", .int 0), ("dataset_query", .obj [("database", .null)])])
      = .ok (.obj [("database_id", .int 0),
                   ("dataset_query", .obj [("database", .null)])], false) ∧
    remap_card_query ⟨⟨[("7", 0)], []⟩, [], [], []⟩ []
      (.obj [("database_id", .int 7)])
      = .error .valueError := by
  constructor
  · exact ((c10_falsy_database_ids ⟨⟨[("7", 0)], []⟩, [], [], []⟩ []
      [("database_id", .int 0), ("dataset_query", .obj [("database", .null)])]).1
      (Or.inr (Or.inr rfl))).2 [("database", .null)] rfl (Or.inr (Or.inl rfl))
  · exact (c10_falsy_database_ids ⟨⟨[("7", 0)], []⟩, [], [], []⟩ []
      [("database_id", .int 7)]).2 7 rfl (by decide) (by rfl)

/-- C8: the code evaluated at the failing input.  `CardExporter.export_card`
constructs every manifest card record with a `dataset` keyword (the is-model
flag), and `CardImporter.import_cards` reads `card.dataset`, but the `Card`
dataclass in `src/lib/models.py` declares no `dataset` field: the
constructor call raises `TypeError` and the attribute read raises
`AttributeError`. -/
theorem c8_card_dataset_field_missing :
    dataclassAcceptsKwargs cardFieldNames exportCardKwargNames = false ∧
    cardFieldNames.contains "dataset" = false ∧
    exportCardKwargNames.contains "dataset" = true := by
  refine ⟨by decide, by decide, by decide⟩

/-! Helper lemmas for the map-building event model. -/

theorem lookup_append_left {κ α : Type} [DecidableEq κ] {m1 : List (κ × α)}
    (m2 : List (κ × α)) {k : κ} {v : α} (h : m1.lookup k = some v) :
    (m1 ++ m2).lookup k = some v := by
  induction m1 with
  | nil => simp [List.lookup] at h
  | cons kv rest ih =>
    obtain ⟨k1, v1⟩ := kv
    rw [lookup_cons] at h
    rw [List.cons_append, lookup_cons]
    by_cases hk : k = k1
    · simpa [hk] using h
    · rw [if_neg hk] at h ⊢
      exact ih h

theorem foldPyMap_eq_of_nodup {κ : Type} [DecidableEq κ] (kvs : List (κ × Int))
    (hnd : (kvs.map Prod.fst).Nodup) : foldPyMap kvs = kvs := by
  have := foldl_pyInsert_nodup kvs Prod.fst Prod.snd [] (by simpa using hnd) (by simp)
  simpa [foldPyMap] using this

theorem foldPyMap_persist {κ : Type} [DecidableEq κ] (l1 l2 : List (κ × Int))
    (hnd : ((l1 ++ l2).map Prod.fst).Nodup) (k : κ) (v : Int)
    (h : (foldPyMap l1).lookup k = some v) :
    (foldPyMap (l1 ++ l2)).lookup k = some v := by
  have hnd1 : (l1.map Prod.fst).Nodup := by
    rw [List.map_append] at hnd
    exact hnd.of_append_left
  rw [foldPyMap_eq_of_nodup l1 hnd1] at h
  rw [foldPyMap_eq_of_nodup _ hnd]
  exact lookup_append_left l2 h

theorem beq_instances_eq {κ : Type} (b1 b2 : BEq κ) (h1 : @LawfulBEq κ b1)
    (h2 : @LawfulBEq κ b2) : b1 = b2 := by
  have hfun : @BEq.beq κ b1 = @BEq.beq κ b2 := by
    funext a b
    by_cases h : a = b
    · subst h
      rw [@LawfulBEq.rfl _ _ h1, @LawfulBEq.rfl _ _ h2]
    · have e1 : @BEq.beq _ b1 a b = false := by
        rw [← Bool.not_eq_true]
        exact fun hb => h (@eq_of_beq _ b1 h1 a b hb)
      have e2 : @BEq.beq _ b2 a b = false := by
        rw [← Bool.not_eq_true]
        exact fun hb => h (@eq_of_beq _ b2 h2 a b hb)
      rw [e1, e2]
  cases b1
  cases b2
  congr

theorem lawfulBEq_ofDecidableEq {κ : Type} [DecidableEq κ] :
    @LawfulBEq κ instBEqOfDecidableEq := by
  refine @LawfulBEq.mk κ instBEqOfDecidableEq ?_ ?_
  · intro a b h
    exact of_decide_eq_true h
  · intro a
    exact decide_eq_true rfl

theorem prodIntBEq_eq :
    (instBEqProd : BEq (Int × Int)) = instBEqOfDecidableEq :=
  beq_instances_eq _ _ (inferInstanceAs (@LawfulBEq (Int × Int) instBEqProd))
    lawfulBEq_ofDecidableEq

theorem applyTFEvents_aux (evs : List TFEvent) (m1 m2 : List ((Int × Int) × Int)) :
    evs.foldl
      (fun maps e =>
        match e with
        | .table k v => (pyInsert maps.1 k v, maps.2)
        | .mfield k v => (maps.1, pyInsert maps.2 k v))
      (m1, m2)
    = ((tfTableKVs evs).foldl (fun m kv => pyInsert m kv.1 kv.2) m1,
       (tfFieldKVs evs).foldl (fun m kv => pyInsert m kv.1 kv.2) m2) := by
  induction evs generalizing m1 m2 with
  | nil => simp [tfTableKVs, tfFieldKVs]
  | cons e rest ih =>
    cases e with
    | table k v =>
      simp only [List.foldl_cons, tfTableKVs, tfFieldKVs, List.filterMap_cons]
      exact ih (pyInsert m1 k v) m2
    | mfield k v =>
      simp only [List.foldl_cons, tfTableKVs, tfFieldKVs, List.filterMap_cons]
      exact ih m1 (pyInsert m2 k v)

theorem applyTFEvents_eq (evs : List TFEvent) :
    applyTFEvents evs = (foldPyMap (tfTableKVs evs), foldPyMap (tfFieldKVs evs)) :=
  applyTFEvents_aux evs [] []

theorem tfTableKVs_append (l1 l2 : List TFEvent) :
    tfTableKVs (l1 ++ l2) = tfTableKVs l1 ++ tfTableKVs l2 := by
  simp [tfTableKVs, List.filterMap_append]

theorem tfFieldKVs_append (l1 l2 : List TFEvent) :
    tfFieldKVs (l1 ++ l2) = tfFieldKVs l1 ++ tfFieldKVs l2 := by
  simp [tfFieldKVs, List.filterMap_append]

theorem tfTableKeys_append (l1 l2 : List TFEvent) :
    tfTableKeys (l1 ++ l2) = tfTableKeys l1 ++ tfTableKeys l2 := by
  simp [tfTableKeys, tfTableKVs_append]

theorem tfFieldKeys_append (l1 l2 : List TFEvent) :
    tfFieldKeys (l1 ++ l2) = tfFieldKeys l1 ++ tfFieldKeys l2 := by
  simp [tfFieldKeys, tfFieldKVs_append]

theorem tfTableKeys_cons_table (k : Int × Int) (t : Int) (l : List TFEvent) :
    tfTableKeys (.table k t :: l) = k :: tfTableKeys l := by
  simp [tfTableKeys, tfTableKVs]

theorem tfTableKeys_cons_mfield (k : Int × Int) (t : Int) (l : List TFEvent) :
    tfTableKeys (.mfield k t :: l) = tfTableKeys l := by
  simp [tfTableKeys, tfTableKVs]

theorem tfFieldKeys_cons_mfield (k : Int × Int) (t : Int) (l : List TFEvent) :
    tfFieldKeys (.mfield k t :: l) = k :: tfFieldKeys l := by
  simp [tfFieldKeys, tfFieldKVs]

theorem tfFieldKeys_cons_table (k : Int × Int) (t : Int) (l : List TFEvent) :
    tfFieldKeys (.table k t :: l) = tfFieldKeys l := by
  simp [tfFieldKeys, tfFieldKVs]

theorem cardMapEvents_keys_sublist (order : List Int) (outcome : Int → Option Int) :
    ((cardMapEvents order outcome).map Prod.fst).Sublist order := by
  induction order with
  | nil => simp [cardMapEvents]
  | cons i rest ih =>
    cases h : outcome i with
    | none =>
      have he : cardMapEvents (i :: rest) outcome = cardMapEvents rest outcome := by
        simp [cardMapEvents, h]
      rw [he]
      exact ih.cons i
    | some t =>
      have he : cardMapEvents (i :: rest) outcome
          = (i, t) :: cardMapEvents rest outcome := by
        simp [cardMapEvents, h]
      rw [he, List.map_cons]
      exact ih.cons₂ i

theorem objIntIds_cons_some (kvs : List (String × Json)) (rest : List Json)
    (idj : Json) (i : Int) (hid : dget kvs "id" = some idj)
    (hpi : pyInt idj = some i) :
    objIntIds (.obj kvs :: rest) = i :: objIntIds rest := by
  simp [objIntIds, List.filterMap_cons, hid, hpi]

theorem tfFieldEvents_tableKVs (db : Int) (tf : List (String × Json))
    (fs : List Json) :
    tfTableKVs (tfFieldEvents db tf fs).1 = [] := by
  induction fs with
  | nil => rfl
  | cons f rest ih =>
    cases f with
    | null => rfl
    | bool b => rfl
    | int n => rfl
    | str s => rfl
    | arr xs => rfl
    | obj kvs =>
      simp only [tfFieldEvents]
      cases hid : dget kvs "id" with
      | none => rfl
      | some idj =>
        dsimp only []
        cases hpi : pyInt idj with
        | none => rfl
        | some sfid =>
          dsimp only []
          cases hnm : dget kvs "name" with
          | none => rfl
          | some nj =>
            cases nj with
            | null => rfl
            | bool b => rfl
            | int n => rfl
            | arr xs => rfl
            | obj o => rfl
            | str n =>
              dsimp only []
              cases hlk : tf.lookup n with
              | none => exact ih
              | some tj =>
                cases tj with
                | null => rfl
                | bool b => rfl
                | int m => rfl
                | str s2 => rfl
                | arr ys => rfl
                | obj tkvs =>
                  dsimp only []
                  cases htid : dget tkvs "id" with
                  | none => rfl
                  | some tidj =>
                    dsimp only []
                    cases hpt : pyInt tidj with
                    | none => rfl
                    | some tfid => simpa [tfTableKVs] using ih

theorem tfFieldEvents_tableKeys (db : Int) (tf : List (String × Json))
    (fs : List Json) :
    tfTableKeys (tfFieldEvents db tf fs).1 = [] := by
  simp [tfTableKeys, tfFieldEvents_tableKVs]

theorem tfFieldEvents_fieldKeys_sublist (db : Int) (tf : List (String × Json))
    (fs : List Json) :
    (tfFieldKeys (tfFieldEvents db tf fs).1).Sublist
      ((objIntIds fs).map (fun i => (db, i))) := by
  induction fs with
  | nil => exact List.nil_sublist _
  | cons f rest ih =>
    cases f with
    | null => exact List.nil_sublist _
    | bool b => exact List.nil_sublist _
    | int n => exact List.nil_sublist _
    | str s => exact List.nil_sublist _
    | arr xs => exact List.nil_sublist _
    | obj kvs =>
      simp only [tfFieldEvents]
      cases hid : dget kvs "id" with
      | none => exact List.nil_sublist _
      | some idj =>
        dsimp only []
        cases hpi : pyInt idj with
        | none => exact List.nil_sublist _
        | some sfid =>
          dsimp only []
          rw [objIntIds_cons_some kvs rest idj sfid hid hpi, List.map_cons]
          cases hnm : dget kvs "name" with
          | none => exact List.nil_sublist _
          | some nj =>
            cases nj with
            | null => exact List.nil_sublist _
            | bool b => exact List.nil_sublist _
            | int n => exact List.nil_sublist _
            | arr xs => exact List.nil_sublist _
            | obj o => exact List.nil_sublist _
            | str n =>
              dsimp only []
              cases hlk : tf.lookup n with
              | none => exact ih.cons _
              | some tj =>
                cases tj with
                | null => exact List.nil_sublist _
                | bool b => exact List.nil_sublist _
                | int m => exact List.nil_sublist _
                | str s2 => exact List.nil_sublist _
                | arr ys => exact List.nil_sublist _
                | obj tkvs =>
                  dsimp only []
                  cases htid : dget tkvs "id" with
                  | none => exact List.nil_sublist _
                  | some tidj =>
                    dsimp only []
                    cases hpt : pyInt tidj with
                    | none => exact List.nil_sublist _
                    | some tfid =>
                      dsimp only []
                      rw [tfFieldKeys_cons_mfield]
                      exact ih.cons₂ (db, sfid)

theorem tfTableEvents_tableKeys_sublist (db : Int) (tbn : List (String × Json))
    (fbt : List (Int × List (String × Json))) (sts : List Json) :
    (tfTableKeys (tfTableEvents db tbn fbt sts).1).Sublist
      ((objIntIds sts).map (fun i => (db, i))) := by
  induction sts with
  | nil => exact List.nil_sublist _
  | cons t rest ih =>
    cases t with
    | null => exact List.nil_sublist _
    | bool b => exact List.nil_sublist _
    | int n => exact List.nil_sublist _
    | str s => exact List.nil_sublist _
    | arr xs => exact List.nil_sublist _
    | obj kvs =>
      simp only [tfTableEvents]
      cases hid : dget kvs "id" with
      | none => exact List.nil_sublist _
      | some idj =>
        dsimp only []
        cases hpi : pyInt idj with
        | none => exact List.nil_sublist _
        | some stid =>
          dsimp only []
          rw [objIntIds_cons_some kvs rest idj stid hid hpi, List.map_cons]
          cases hnm : dget kvs "name" with
          | none => exact List.nil_sublist _
          | some nj =>
            cases nj with
            | null => exact List.nil_sublist _
            | bool b => exact List.nil_sublist _
            | int n => exact List.nil_sublist _
            | arr xs => exact List.nil_sublist _
            | obj o => exact List.nil_sublist _
            | str n =>
              dsimp only []
              cases hlk : tbn.lookup n with
              | none => exact ih.cons _
              | some tj =>
                cases tj with
                | null => exact List.nil_sublist _
                | bool b => exact List.nil_sublist _
                | int m => exact List.nil_sublist _
                | str s2 => exact List.nil_sublist _
                | arr ys => exact List.nil_sublist _
                | obj tkvs =>
                  dsimp only []
                  cases htid : dget tkvs "id" with
                  | none => exact List.nil_sublist _
                  | some tidj =>
                    dsimp only []
                    cases hpt : pyInt tidj with
                    | none => exact List.nil_sublist _
                    | some ttid =>
                      dsimp only []
                      cases hfs : pyIterList (dgetD kvs "fields" (.arr [])) with
                      | none =>
                        dsimp only []
                        rw [tfTableKeys_cons_table]
                        exact (List.nil_sublist _).cons₂ (db, stid)
                      | some fs =>
                        dsimp only []
                        cases hfok :
                            (tfFieldEvents db ((fbt.lookup ttid).getD []) fs).2 with
                        | true =>
                          rw [if_pos rfl]
                          dsimp only []
                          rw [tfTableKeys_cons_table, tfTableKeys_append,
                            tfFieldEvents_tableKeys, List.nil_append]
                          exact ih.cons₂ (db, stid)
                        | false =>
                          rw [if_neg Bool.false_ne_true]
                          dsimp only []
                          rw [tfTableKeys_cons_table, tfFieldEvents_tableKeys]
                          exact (List.nil_sublist _).cons₂ (db, stid)

theorem tfTableEvents_fieldKeys_sublist (db : Int) (tbn : List (String × Json))
    (fbt : List (Int × List (String × Json))) (sts : List Json) :
    (tfFieldKeys (tfTableEvents db tbn fbt sts).1).Sublist
      ((sourceFieldIds sts).map (fun i => (db, i))) := by
  induction sts with
  | nil => exact List.nil_sublist _
  | cons t rest ih =>
    have hsf : sourceFieldIds (t :: rest) = tableFieldIds t ++ sourceFieldIds rest := by
      simp [sourceFieldIds]
    rw [hsf, List.map_append]
    cases t with
    | null => exact List.nil_sublist _
    | bool b => exact List.nil_sublist _
    | int n => exact List.nil_sublist _
    | str s => exact List.nil_sublist _
    | arr xs => exact List.nil_sublist _
    | obj kvs =>
      simp only [tfTableEvents]
      cases hid : dget kvs "id" with
      | none => exact List.nil_sublist _
      | some idj =>
        dsimp only []
        cases hpi : pyInt idj with
        | none => exact List.nil_sublist _
        | some stid =>
          dsimp only []
          cases hnm : dget kvs "name" with
          | none => exact List.nil_sublist _
          | some nj =>
            cases nj with
            | null => exact List.nil_sublist _
            | bool b => exact List.nil_sublist _
            | int n => exact List.nil_sublist _
            | arr xs => exact List.nil_sublist _
            | obj o => exact List.nil_sublist _
            | str n =>
              dsimp only []
              cases hlk : tbn.lookup n with
              | none => exact ih.trans (List.sublist_append_right _ _)
              | some tj =>
                cases tj with
                | null => exact List.nil_sublist _
                | bool b => exact List.nil_sublist _
                | int m => exact List.nil_sublist _
                | str s2 => exact List.nil_sublist _
                | arr ys => exact List.nil_sublist _
                | obj tkvs =>
                  dsimp only []
                  cases htid : dget tkvs "id" with
                  | none => exact List.nil_sublist _
                  | some tidj =>
                    dsimp only []
                    cases hpt : pyInt tidj with
                    | none => exact List.nil_sublist _
                    | some ttid =>
                      dsimp only []
                      cases hfs : pyIterList (dgetD kvs "fields" (.arr [])) with
                      | none => exact List.nil_sublist _
                      | some fs =>
                        dsimp only []
                        have htf : tableFieldIds (Json.obj kvs) = objIntIds fs := by
                          simp [tableFieldIds, hfs]
                        rw [htf]
                        cases hfok :
                            (tfFieldEvents db ((fbt.lookup ttid).getD []) fs).2 with
                        | true =>
                          rw [if_pos rfl]
                          dsimp only []
                          rw [tfFieldKeys_cons_table, tfFieldKeys_append]
                          exact List.Sublist.append
                            (tfFieldEvents_fieldKeys_sublist db _ fs) ih
                        | false =>
                          rw [if_neg Bool.false_ne_true]
                          dsimp only []
                          rw [tfFieldKeys_cons_table]
                          exact (tfFieldEvents_fieldKeys_sublist db _ fs).trans
                            (List.sublist_append_left _ _)

theorem tfDbEvents_tableKeys_sublist (st : IDRemapperState)
    (meta : List (Int × Json)) (fetch : Int → Option Json) (db : Int) :
    (tfTableKeys (tfDbEvents st meta fetch db).1).Sublist
      ((objIntIds (dbSourceTables meta db)).map (fun i => (db, i))) := by
  unfold tfDbEvents
  cases hres : IDRemapper.resolve_db_id st db with
  | none => exact List.nil_sublist _
  | some tdb =>
    dsimp only []
    by_cases h0 : tdb = 0
    · rw [if_pos h0]
      exact List.nil_sublist _
    · rw [if_neg h0]
      cases hmd : (meta.lookup db).getD (Json.obj []) with
      | null => exact List.nil_sublist _
      | bool b => exact List.nil_sublist _
      | int n => exact List.nil_sublist _
      | str s => exact List.nil_sublist _
      | arr xs => exact List.nil_sublist _
      | obj smeta =>
        dsimp only []
        cases htr : (dgetD smeta "tables" (Json.arr [])).truthy with
        | false =>
          rw [if_pos (show (!false) = true from rfl)]
          exact List.nil_sublist _
        | true =>
          rw [if_neg (show ¬((!true) = true) by simp)]
          cases hf : fetch tdb with
          | none => exact List.nil_sublist _
          | some tmeta =>
            cases tmeta with
            | null => exact List.nil_sublist _
            | bool b => exact List.nil_sublist _
            | int n => exact List.nil_sublist _
            | str s => exact List.nil_sublist _
            | arr xs => exact List.nil_sublist _
            | obj tkvs =>
              dsimp only []
              cases hts : pyIterList (dgetD tkvs "tables" (Json.arr [])) with
              | none => exact List.nil_sublist _
              | some tts =>
                dsimp only []
                cases htbn : targetTablesByName tts [] with
                | none => exact List.nil_sublist _
                | some tbn =>
                  cases hfbt : targetFieldsByTableId tts [] with
                  | none => exact List.nil_sublist _
                  | some fbt =>
                    dsimp only []
                    cases hsts : pyIterList (dgetD smeta "tables" (Json.arr [])) with
                    | none => exact List.nil_sublist _
                    | some sts =>
                      have hdbst : dbSourceTables meta db = sts := by
                        simp [dbSourceTables, hmd, hsts]
                      rw [hdbst]
                      exact tfTableEvents_tableKeys_sublist db tbn fbt sts

theorem tfDbEvents_fieldKeys_sublist (st : IDRemapperState)
    (meta : List (Int × Json)) (fetch : Int → Option Json) (db : Int) :
    (tfFieldKeys (tfDbEvents st meta fetch db).1).Sublist
      ((sourceFieldIds (dbSourceTables meta db)).map (fun i => (db, i))) := by
  unfold tfDbEvents
  cases hres : IDRemapper.resolve_db_id st db with
  | none => exact List.nil_sublist _
  | some tdb =>
    dsimp only []
    by_cases h0 : tdb = 0
    · rw [if_pos h0]
      exact List.nil_sublist _
    · rw [if_neg h0]
      cases hmd : (meta.lookup db).getD (Json.obj []) with
      | null => exact List.nil_sublist _
      | bool b => exact List.nil_sublist _
      | int n => exact List.nil_sublist _
      | str s => exact List.nil_sublist _
      | arr xs => exact List.nil_sublist _
      | obj smeta =>
        dsimp only []
        cases htr : (dgetD smeta "tables" (Json.arr [])).truthy with
        | false =>
          rw [if_pos (show (!false) = true from rfl)]
          exact List.nil_sublist _
        | true =>
          rw [if_neg (show ¬((!true) = true) by simp)]
          cases hf : fetch tdb with
          | none => exact List.nil_sublist _
          | some tmeta =>
            cases tmeta with
            | null => exact List.nil_sublist _
            | bool b => exact List.nil_sublist _
            | int n => exact List.nil_sublist _
            | str s => exact List.nil_sublist _
            | arr xs => exact List.nil_sublist _
            | obj tkvs =>
              dsimp only []
              cases hts : pyIterList (dgetD tkvs "tables" (Json.arr [])) with
              | none => exact List.nil_sublist _
              | some tts =>
                dsimp only []
                cases htbn : targetTablesByName tts [] with
                | none => exact List.nil_sublist _
                | some tbn =>
                  cases hfbt : targetFieldsByTableId tts [] with
                  | none => exact List.nil_sublist _
                  | some fbt =>
                    dsimp only []
                    cases hsts : pyIterList (dgetD smeta "tables" (Json.arr [])) with
                    | none => exact List.nil_sublist _
                    | some sts =>
                      have hdbst : dbSourceTables meta db = sts := by
                        simp [dbSourceTables, hmd, hsts]
                      rw [hdbst]
                      exact tfTableEvents_fieldKeys_sublist db tbn fbt sts

theorem tfAllEvents_spec (st : IDRemapperState) (meta : List (Int × Json))
    (fetch : Int → Option Json) (dbs : List (Int × String))
    (hdb : (dbs.map Prod.fst).Nodup)
    (htab : ∀ db ∈ dbs.map Prod.fst, (objIntIds (dbSourceTables meta db)).Nodup)
    (hfld : ∀ db ∈ dbs.map Prod.fst, (sourceFieldIds (dbSourceTables meta db)).Nodup) :
    (tfTableKeys (tfAllEvents st meta fetch dbs)).Nodup ∧
    (tfFieldKeys (tfAllEvents st meta fetch dbs)).Nodup ∧
    (∀ k ∈ tfTableKeys (tfAllEvents st meta fetch dbs), k.1 ∈ dbs.map Prod.fst) ∧
    (∀ k ∈ tfFieldKeys (tfAllEvents st meta fetch dbs), k.1 ∈ dbs.map Prod.fst) := by
  induction dbs with
  | nil =>
    refine ⟨List.nodup_nil, List.nodup_nil, ?_, ?_⟩ <;> intro k hk <;>
      simp [tfAllEvents, tfTableKeys, tfFieldKeys, tfTableKVs, tfFieldKVs] at hk
  | cons p rest ih =>
    obtain ⟨db, nm⟩ := p
    simp only [List.map_cons, List.nodup_cons] at hdb
    have hinj : Function.Injective (fun i : Int => (db, i)) := by
      intro a b h
      exact congrArg Prod.snd h
    have hTnd : (tfTableKeys (tfDbEvents st meta fetch db).1).Nodup :=
      (tfDbEvents_tableKeys_sublist st meta fetch db).nodup
        ((htab db (by simp)).map hinj)
    have hFnd : (tfFieldKeys (tfDbEvents st meta fetch db).1).Nodup :=
      (tfDbEvents_fieldKeys_sublist st meta fetch db).nodup
        ((hfld db (by simp)).map hinj)
    have hTfst : ∀ k ∈ tfTableKeys (tfDbEvents st meta fetch db).1, k.1 = db := by
      intro k hk
      obtain ⟨i, -, heq⟩ :=
        List.mem_map.mp ((tfDbEvents_tableKeys_sublist st meta fetch db).subset hk)
      exact (congrArg Prod.fst heq).symm
    have hFfst : ∀ k ∈ tfFieldKeys (tfDbEvents st meta fetch db).1, k.1 = db := by
      intro k hk
      obtain ⟨i, -, heq⟩ :=
        List.mem_map.mp ((tfDbEvents_fieldKeys_sublist st meta fetch db).subset hk)
      exact (congrArg Prod.fst heq).symm
    obtain ⟨ihT, ihF, ihTf, ihFf⟩ :=
      ih hdb.2 (fun d hd => htab d (by simp [hd])) (fun d hd => hfld d (by simp [hd]))
    simp only [tfAllEvents]
    cases hok : (tfDbEvents st meta fetch db).2 with
    | false =>
      rw [if_neg Bool.false_ne_true]
      refine ⟨hTnd, hFnd, ?_, ?_⟩
      · intro k hk
        simp [hTfst k hk]
      · intro k hk
        simp [hFfst k hk]
    | true =>
      rw [if_pos rfl]
      refine ⟨?_, ?_, ?_, ?_⟩
      · rw [tfTableKeys_append]
        refine List.Nodup.append hTnd ihT ?_
        intro k hk1 hk2
        exact hdb.1 (hTfst k hk1 ▸ ihTf k hk2)
      · rw [tfFieldKeys_append]
        refine List.Nodup.append hFnd ihF ?_
        intro k hk1 hk2
        exact hdb.1 (hFfst k hk1 ▸ ihFf k hk2)
      · intro k hk
        rw [tfTableKeys_append, List.mem_append] at hk
        rcases hk with hk | hk
        · simp [hTfst k hk]
        · simp [ihTf k hk]
      · intro k hk
        rw [tfFieldKeys_append, List.mem_append] at hk
        rcases hk with hk | hk
        · simp [hFfst k hk]
        · simp [ihFf k hk]

theorem topo_output_ids_nodup (readDeps : Int → List Int) (cards : List Card)
    (h : (cards.map (·.id)).Nodup) :
    ((topological_sort_cards readDeps cards).map (·.id)).Nodup := by
  rw [topological_sort_cards_eq readDeps cards h, List.map_append,
    kahnCards_map_id readDeps cards h]
  obtain ⟨hnd, -, -, -, -⟩ := kahnIds_spec readDeps cards
  refine List.Nodup.append hnd ?_ ?_
  · have hs : ((cards.filter
        (fun c => !(kahnIds readDeps cards).contains c.id)).map (·.id)).Sublist
        (cards.map (·.id)) := (List.filter_sublist _).map _
    exact hs.nodup h
  · intro x hx1 hx2
    obtain ⟨c, hc, rfl⟩ := List.mem_map.mp hx2
    have hnc : c.id ∉ kahnIds readDeps cards := by
      simpa using List.of_mem_filter hc
    exact hnc hx1

/-! Helper lemmas about Python dict assignment (`dset`), used for the
idempotence analysis of the rewriter. -/

theorem dget_dset_self (m : List (String × Json)) (k : String) (v : Json) :
    dget (dset m k v) k = some v := by
  induction m with
  | nil => simp [dset, dget, List.lookup]
  | cons kv rest ih =>
    obtain ⟨k1, v1⟩ := kv
    by_cases hk : k1 = k
    · subst hk
      simp [dset, dget, lookup_cons]
    · simp only [dset, if_neg hk]
      rw [dget, lookup_cons, if_neg (Ne.symm hk)]
      exact ih

theorem dget_dset_ne (m : List (String × Json)) (k k' : String) (v : Json)
    (h : k' ≠ k) : dget (dset m k v) k' = dget m k' := by
  induction m with
  | nil =>
    show dget [(k, v)] k' = dget [] k'
    rw [dget, lookup_cons, if_neg h]
    rfl
  | cons kv rest ih =>
    obtain ⟨k1, v1⟩ := kv
    by_cases hk : k1 = k
    · subst hk
      simp only [dset, if_pos rfl]
      simp [dget, lookup_cons, h]
    · simp only [dset, if_neg hk]
      simp only [dget, lookup_cons]
      by_cases h1 : k' = k1
      · simp [h1]
      · simp only [if_neg h1]
        exact ih

theorem dset_id (m : List (String × Json)) (k : String) (v : Json)
    (h : dget m k = some v) : dset m k v = m := by
  induction m with
  | nil => simp [dget, List.lookup] at h
  | cons kv rest ih =>
    obtain ⟨k1, v1⟩ := kv
    rw [dget, lookup_cons] at h
    by_cases hk : k = k1
    · subst hk
      rw [if_pos rfl] at h
      obtain rfl : v1 = v := by simpa using h
      simp [dset]
    · rw [if_neg hk] at h
      have hk1 : ¬ (k1 = k) := fun hc => hk hc.symm
      simp only [dset, if_neg hk1]
      rw [ih h]

theorem dset_ne_nil (m : List (String × Json)) (k : String) (v : Json) :
    dset m k v ≠ [] := by
  cases m with
  | nil => simp [dset]
  | cons kv rest =>
    obtain ⟨k1, v1⟩ := kv
    by_cases hk : k1 = k
    · simp [dset, hk]
    · simp [dset, hk]

/-! Decimal round-trip: `int(str(i)) == i` for the card-reference rewrite. -/

theorem char_digit_spec (m : Nat) (h : m < 10) :
    (Char.ofNat (48 + m)).toNat = 48 + m ∧ (Char.ofNat (48 + m)).isDigit = true := by
  interval_cases m <;> exact ⟨rfl, rfl⟩

theorem natToDecAux_spec : ∀ (fuel n : Nat), n < fuel →
    natToDecAux fuel n ≠ [] ∧ (∀ c ∈ natToDecAux fuel n, c.isDigit = true) ∧
    ∀ acc : Nat,
      (natToDecAux fuel n).foldl (fun a c => a * 10 + (c.toNat - 48)) acc
        = acc * 10 ^ (natToDecAux fuel n).length + n := by
  intro fuel
  induction fuel with
  | zero => intro n h; omega
  | succ fuel ih =>
    intro n h
    by_cases h10 : n < 10
    · simp only [natToDecAux, if_pos h10]
      refine ⟨by simp, ?_, ?_⟩
      · intro c hc
        simp only [List.mem_singleton] at hc
        subst hc
        exact (char_digit_spec n h10).2
      · intro acc
        simp only [List.foldl_cons, List.foldl_nil, (char_digit_spec n h10).1,
          List.length_singleton, pow_one]
        omega
    · simp only [natToDecAux, if_neg h10]
      have hdiv : n / 10 < fuel := by omega
      obtain ⟨hne, hdig, hfold⟩ := ih (n / 10) hdiv
      have hmod : n % 10 < 10 := Nat.mod_lt _ (by norm_num)
      refine ⟨by simp, ?_, ?_⟩
      · intro c hc
        rw [List.mem_append] at hc
        rcases hc with hc | hc
        · exact hdig c hc
        · simp only [List.mem_singleton] at hc
          subst hc
          exact (char_digit_spec (n % 10) hmod).2
      · intro acc
        rw [List.foldl_append, hfold acc]
        simp only [List.foldl_cons, List.foldl_nil,
          (char_digit_spec (n % 10) hmod).1, List.length_append,
          List.length_singleton]
        have hpow : 10 ^ ((natToDecAux fuel (n / 10)).length + 1)
            = 10 ^ (natToDecAux fuel (n / 10)).length * 10 := pow_succ 10 _
        rw [hpow]
        generalize (10 : Nat) ^ (natToDecAux fuel (n / 10)).length = P
        have h1 : acc * (P * 10) = acc * P * 10 := by ring
        rw [h1]
        generalize acc * P = Q
        omega

theorem natToDec_spec (n : Nat) :
    natToDec n ≠ [] ∧ (∀ c ∈ natToDec n, c.isDigit = true) ∧
    (natToDec n).foldl (fun a c => a * 10 + (c.toNat - 48)) 0 = n := by
  obtain ⟨h1, h2, h3⟩ := natToDecAux_spec (n + 1) n (by omega)
  exact ⟨h1, h2, by simpa using h3 0⟩

theorem isPySpace_of_digit (c : Char) (h : c.isDigit = true) :
    isPySpace c = false := by
  have h1 : c ≠ ' ' := by rintro rfl; exact absurd h (by decide)
  have h2 : c ≠ '\t' := by rintro rfl; exact absurd h (by decide)
  have h3 : c ≠ '\n' := by rintro rfl; exact absurd h (by decide)
  have h4 : c ≠ '\r' := by rintro rfl; exact absurd h (by decide)
  have h5 : c ≠ '\x0b' := by rintro rfl; exact absurd h (by decide)
  have h6 : c ≠ '\x0c' := by rintro rfl; exact absurd h (by decide)
  simp [isPySpace, h1, h2, h3, h4, h5, h6]

theorem dropWhile_eq_self_of {α : Type} (p : α → Bool) (l : List α)
    (h : ∀ c ∈ l, p c = false) : l.dropWhile p = l := by
  cases l with
  | nil => rfl
  | cons c cs => simp [List.dropWhile, h c (by simp)]

theorem strTrimChars_id (l : List Char) (h : ∀ c ∈ l, isPySpace c = false) :
    strTrimChars l = l := by
  rw [strTrimChars, dropWhile_eq_self_of _ _ h,
    dropWhile_eq_self_of _ _ (fun c hc => h c (List.mem_reverse.mp hc)),
    List.reverse_reverse]

theorem pyIntOfString_digits (l : List Char) (hne : l ≠ [])
    (hd : ∀ c ∈ l, c.isDigit = true) :
    pyIntOfString ⟨l⟩
      = some ((l.foldl (fun a c => a * 10 + (c.toNat - 48)) 0 : Nat) : Int) := by
  obtain ⟨c, cs, rfl⟩ := List.exists_cons_of_ne_nil hne
  have hc : c.isDigit = true := hd c (by simp)
  have hcm : c ≠ '-' := by rintro rfl; exact absurd hc (by decide)
  have hcp : c ≠ '+' := by rintro rfl; exact absurd hc (by decide)
  have ht : strTrimChars (c :: cs) = c :: cs :=
    strTrimChars_id _ (fun x hx => isPySpace_of_digit x (hd x hx))
  show pyIntOfString ⟨c :: cs⟩ = _
  unfold pyIntOfString
  dsimp only []
  rw [ht]
  rw [List.head?_cons]
  have hno : ¬(some c = some '-' ∨ some c = some '+') := by
    rintro (h | h) <;> simp at h <;> [exact hcm h; exact hcp h]
  rw [if_neg hno]
  have hcond : (c :: cs ≠ [] ∧ (c :: cs).all (·.isDigit)) := by
    refine ⟨by simp, ?_⟩
    rw [List.all_eq_true]
    exact hd
  rw [if_pos hcond]
  rw [show (decide (some c = some '-')) = false by simp [hcm]]
  simp

theorem pyIntOfString_neg_digits (l : List Char) (hne : l ≠ [])
    (hd : ∀ c ∈ l, c.isDigit = true) :
    pyIntOfString ⟨'-' :: l⟩
      = some (-((l.foldl (fun a c => a * 10 + (c.toNat - 48)) 0 : Nat) : Int)) := by
  have ht : strTrimChars ('-' :: l) = '-' :: l := by
    refine strTrimChars_id _ ?_
    intro x hx
    rcases List.mem_cons.mp hx with rfl | hx
    · decide
    · exact isPySpace_of_digit x (hd x hx)
  unfold pyIntOfString
  dsimp only []
  rw [ht]
  rw [List.head?_cons]
  rw [if_pos (Or.inl rfl)]
  have hcond : (('-' :: l).tail ≠ [] ∧ (('-' :: l).tail).all (·.isDigit)) := by
    refine ⟨by simpa using hne, ?_⟩
    simp only [List.tail_cons]
    rw [List.all_eq_true]
    exact hd
  rw [if_pos hcond]
  simp

theorem pyIntOfString_intToDec (i : Int) : pyIntOfString (intToDec i) = some i := by
  obtain ⟨hne, hdig, hfold⟩ := natToDec_spec i.natAbs
  rcases le_or_lt 0 i with hpos | hneg
  · rw [intToDec, if_neg (by omega)]
    rw [pyIntOfString_digits _ hne hdig, hfold]
    congr 1
    exact Int.natAbs_of_nonneg hpos
  · rw [intToDec, if_pos hneg]
    rw [pyIntOfString_neg_digits _ hne hdig, hfold]
    congr 1
    omega

theorem charsStartsWith_append (p rest : List Char) :
    charsStartsWith (p ++ rest) p = true := by
  induction p with
  | nil => cases rest <;> rfl
  | cons c cs ih =>
    show charsStartsWith (c :: (cs ++ rest)) (c :: cs) = true
    simp [charsStartsWith, ih]

theorem charsReplaceFuel_no_c (rep l : List Char)
    (h : ∀ ch ∈ l, ch ≠ 'c') :
    ∀ fuel, charsReplaceFuel "card__".data rep fuel l = l := by
  intro fuel
  induction fuel generalizing l with
  | zero => cases l <;> rfl
  | succ fuel ih =>
    cases l with
    | nil => rfl
    | cons ch cs =>
      have hch : ch ≠ 'c' := h ch (by simp)
      have hsw : charsStartsWith (ch :: cs) "card__".data = false := by
        show (ch == 'c' && charsStartsWith cs "ard__".data) = false
        simp [hch]
      simp only [charsReplaceFuel]
      rw [hsw, if_neg Bool.false_ne_true]
      exact congrArg (ch :: ·) (ih cs (fun x hx => h x (by simp [hx])))

theorem strReplace_card (d : List Char) (h : ∀ ch ∈ d, ch ≠ 'c') :
    strReplace ⟨"card__".data ++ d⟩ "card__" "" = ⟨d⟩ := by
  have hstep : strReplace ⟨"card__".data ++ d⟩ "card__" ""
      = ⟨charsReplaceFuel "card__".data [] (("card__".data ++ d).length)
          ("card__".data ++ d)⟩ := rfl
  rw [hstep]
  congr 1
  have hlen : ("card__".data ++ d).length = d.length + 5 + 1 := by
    rw [List.length_append, show ("card__".data.length) = 6 from rfl]
    omega
  rw [hlen]
  show charsReplaceFuel "card__".data [] (d.length + 5 + 1)
    ('c' :: ("ard__".data ++ d)) = d
  simp only [charsReplaceFuel]
  have hsw := charsStartsWith_append "card__".data d
  rw [show charsStartsWith ('c' :: ("ard__".data ++ d)) "card__".data = true
    from hsw]
  rw [if_pos rfl]
  rw [show ("card__".data.length - 1) = ("ard__".data).length from rfl,
    List.drop_left]
  rw [List.nil_append]
  exact charsReplaceFuel_no_c [] d h (d.length + 5)

theorem strStartsWith_card (s : String) :
    strStartsWith ("card__" ++ s) "card__" = true := by
  show charsStartsWith ("card__" ++ s).data "card__".data = true
  rw [show ("card__" ++ s).data = "card__".data ++ s.data from rfl]
  exact charsStartsWith_append _ _

theorem card_ref_roundtrip (tgt : Int) :
    strStartsWith ("card__" ++ intToDec tgt) "card__" = true ∧
    pyIntOfString (strReplace ("card__" ++ intToDec tgt) "card__" "") = some tgt := by
  refine ⟨strStartsWith_card _, ?_⟩
  have hd : ∀ ch ∈ (intToDec tgt).data, ch ≠ 'c' := by
    obtain ⟨-, hdig, -⟩ := natToDec_spec tgt.natAbs
    intro ch hch
    have hdata : (intToDec tgt).data
        = if tgt < 0 then '-' :: natToDec tgt.natAbs else natToDec tgt.natAbs := rfl
    rw [hdata] at hch
    by_cases hs : tgt < 0
    · rw [if_pos hs] at hch
      rcases List.mem_cons.mp hch with rfl | hch
      · decide
      · rintro rfl
        exact absurd (hdig _ hch) (by decide)
    · rw [if_neg hs] at hch
      rintro rfl
      exact absurd (hdig _ hch) (by decide)
  rw [show ("card__" ++ intToDec tgt) = ⟨"card__".data ++ (intToDec tgt).data⟩
    from rfl]
  rw [strReplace_card _ hd]
  show pyIntOfString (intToDec tgt) = some tgt
  exact pyIntOfString_intToDec tgt

theorem remapFields_noop_aux (fm : List ((Int × Int) × Int)) (dbv : Json)
    (hB : ∀ x : Int, lookupByDb fm dbv x = none) :
    ∀ n : Nat,
      (∀ j : Json, sizeOf j ≤ n → remap_field_ids_recursively fm dbv j = j) ∧
      (∀ l : List Json, sizeOf l ≤ n → remapFieldsList fm dbv l = l) ∧
      (∀ kvs : List (String × Json), sizeOf kvs ≤ n →
        remapFieldsObj fm dbv kvs = kvs) := by
  intro n
  induction n with
  | zero =>
    refine ⟨?_, ?_, ?_⟩ <;> intro x hx <;> exfalso <;> cases x <;> simp at hx
  | succ n ih =>
    obtain ⟨ihJ, ihL, ihO⟩ := ih
    refine ⟨?_, ?_, ?_⟩
    · intro j hle
      cases j with
      | null => rfl
      | bool b => rfl
      | int m => rfl
      | str s => rfl
      | obj kvs =>
        have hsz : sizeOf kvs ≤ n := by
          simp only [Json.obj.sizeOf_spec] at hle
          omega
        show Json.obj (remapFieldsObj fm dbv kvs) = Json.obj kvs
        rw [ihO kvs hsz]
      | arr xs =>
        cases xs with
        | nil => rfl
        | cons a tail =>
          cases tail with
          | nil =>
            have hsz : sizeOf [a] ≤ n := by
              simp only [Json.arr.sizeOf_spec] at hle
              omega
            show Json.arr (remapFieldsList fm dbv [a]) = Json.arr [a]
            rw [ihL [a] hsz]
          | cons b rest =>
            have hsz : sizeOf (a :: b :: rest) ≤ n := by
              simp only [Json.arr.sizeOf_spec] at hle
              omega
            simp only [remap_field_ids_recursively]
            by_cases hft : isFieldTag a = true
            · rw [if_pos hft]
              cases hb : pyInt b with
              | none => rfl
              | some fid =>
                dsimp only []
                rw [hB fid]
            · rw [if_neg hft]
              rw [ihL (a :: b :: rest) hsz]
    · intro l hle
      cases l with
      | nil => rfl
      | cons x xs =>
        have hx : sizeOf x ≤ n := by
          simp only [List.cons.sizeOf_spec] at hle
          omega
        have hxs : sizeOf xs ≤ n := by
          simp only [List.cons.sizeOf_spec] at hle
          omega
        show remap_field_ids_recursively fm dbv x :: remapFieldsList fm dbv xs
          = x :: xs
        rw [ihJ x hx, ihL xs hxs]
    · intro kvs hle
      cases kvs with
      | nil => rfl
      | cons kv rest =>
        obtain ⟨k, v⟩ := kv
        have hv : sizeOf v ≤ n := by
          simp only [List.cons.sizeOf_spec, Prod.mk.sizeOf_spec] at hle
          omega
        have hr : sizeOf rest ≤ n := by
          simp only [List.cons.sizeOf_spec] at hle
          omega
        show (k, remap_field_ids_recursively fm dbv v)
            :: remapFieldsObj fm dbv rest = (k, v) :: rest
        rw [ihJ v hv, ihO rest hr]

theorem remapFields_noop (fm : List ((Int × Int) × Int)) (dbv : Json)
    (hB : ∀ x : Int, lookupByDb fm dbv x = none) (j : Json) :
    remap_field_ids_recursively fm dbv j = j :=
  (remapFields_noop_aux fm dbv hB (sizeOf j)).1 j (le_refl _)

theorem rqc_foldl_noop (fm : List ((Int × Int) × Int)) (dbv : Json)
    (hB : ∀ x : Int, lookupByDb fm dbv x = none) :
    ∀ (ks : List String) (acc : List (String × Json)),
      ks.foldl (fun acc k =>
        match dget acc k with
        | some v => dset acc k (remap_field_ids_recursively fm dbv v)
        | none => acc) acc = acc := by
  intro ks
  induction ks with
  | nil => intro acc; rfl
  | cons k rest ih =>
    intro acc
    rw [List.foldl_cons]
    have hstep : (match dget acc k with
        | some v => dset acc k (remap_field_ids_recursively fm dbv v)
        | none => acc) = acc := by
      cases hv : dget acc k with
      | none => rfl
      | some v =>
        dsimp only []
        rw [remapFields_noop fm dbv hB v]
        exact dset_id acc k v hv
    rw [hstep]
    exact ih acc

theorem remap_query_clauses_noop (fm : List ((Int × Int) × Int)) (dbv : Json)
    (hB : ∀ x : Int, lookupByDb fm dbv x = none) (m : List (String × Json)) :
    remap_query_clauses fm dbv m = m :=
  rqc_foldl_noop fm dbv hB clauseKeys m

theorem rqc_dget_other (fm : List ((Int × Int) × Int)) (dbv : Json) :
    ∀ (ks : List String) (k : String), k ∉ ks → ∀ acc,
      dget (ks.foldl (fun acc k =>
        match dget acc k with
        | some v => dset acc k (remap_field_ids_recursively fm dbv v)
        | none => acc) acc) k = dget acc k := by
  intro ks
  induction ks with
  | nil => intro k hk acc; rfl
  | cons k1 rest ih =>
    intro k hk acc
    rw [List.foldl_cons]
    rw [ih k (fun hc => hk (List.mem_cons_of_mem _ hc))]
    have h1 : k ≠ k1 := fun hc => hk (hc ▸ List.mem_cons_self k1 rest)
    cases hv : dget acc k1 with
    | none => rfl
    | some v =>
      dsimp only []
      exact dget_dset_ne acc k1 k _ h1

theorem remap_query_clauses_dget_other (fm : List ((Int × Int) × Int))
    (dbv : Json) (k : String) (hk : k ∉ clauseKeys) (m : List (String × Json)) :
    dget (remap_query_clauses fm dbv m) k = dget m k :=
  rqc_dget_other fm dbv clauseKeys k hk m

theorem rqc_ne_nil (fm : List ((Int × Int) × Int)) (dbv : Json) :
    ∀ (ks : List String) (acc : List (String × Json)), acc ≠ [] →
      ks.foldl (fun acc k =>
        match dget acc k with
        | some v => dset acc k (remap_field_ids_recursively fm dbv v)
        | none => acc) acc ≠ [] := by
  intro ks
  induction ks with
  | nil => intro acc h; exact h
  | cons k rest ih =>
    intro acc h
    rw [List.foldl_cons]
    refine ih _ ?_
    cases hv : dget acc k with
    | none => exact h
    | some v =>
      dsimp only []
      exact dset_ne_nil acc k _

theorem remap_query_clauses_ne_nil (fm : List ((Int × Int) × Int)) (dbv : Json)
    (m : List (String × Json)) (h : m ≠ []) :
    remap_query_clauses fm dbv m ≠ [] :=
  rqc_ne_nil fm dbv clauseKeys m h

theorem remap_database_id_entry_dget (t : Int) (d : List (String × Json)) :
    dget (remap_database_id_entry t d) "database_id"
      = (dget d "database_id").map (fun _ => .int t) := by
  unfold remap_database_id_entry
  cases hv : dget d "database_id" with
  | none => simp [hv]
  | some v =>
    dsimp only []
    rw [dget_dset_self]
    simp

theorem remap_database_id_entry_dget_other (t : Int) (d : List (String × Json))
    (k : String) (hk : k ≠ "database_id") :
    dget (remap_database_id_entry t d) k = dget d k := by
  unfold remap_database_id_entry
  cases hv : dget d "database_id" with
  | none => rfl
  | some v =>
    dsimp only []
    exact dget_dset_ne d _ k _ hk

theorem remap_table_id_entry_noop (st : IDRemapperState) (t : Int)
    (hT : ∀ x : Int, st.table_map.lookup (t, x) = none)
    (d : List (String × Json)) :
    remap_table_id_entry st (.int t) d = d := by
  unfold remap_table_id_entry
  cases hv : dget d "table_id" with
  | none => rfl
  | some v =>
    dsimp only []
    cases hp : pyInt v with
    | none => rfl
    | some tbl =>
      dsimp only []
      rw [show lookupByDb st.table_map (.int t) tbl = none from hT tbl]

theorem remap_table_id_entry_dget_other (st : IDRemapperState) (dbv : Json)
    (d : List (String × Json)) (k : String) (hk : k ≠ "table_id") :
    dget (remap_table_id_entry st dbv d) k = dget d k := by
  unfold remap_table_id_entry
  cases hv : dget d "table_id" with
  | none => rfl
  | some v =>
    dsimp only []
    cases hp : pyInt v with
    | none => rfl
    | some tbl =>
      dsimp only []
      cases hl : lookupByDb st.table_map dbv tbl with
      | none => rfl
      | some tgt =>
        dsimp only []
        exact dget_dset_ne d _ k _ hk

theorem remap_viz_entry_noop (fm : List ((Int × Int) × Int)) (t : Int)
    (hB : ∀ x : Int, lookupByDb fm (.int t) x = none)
    (d : List (String × Json)) :
    remap_viz_entry fm (.int t) d = d := by
  unfold remap_viz_entry
  cases hv : dget d "visualization_settings" with
  | none => rfl
  | some v =>
    dsimp only []
    rw [remapFields_noop fm (.int t) hB v]
    exact dset_id d _ v hv

theorem remap_viz_entry_dget_other (fm : List ((Int × Int) × Int)) (dbv : Json)
    (d : List (String × Json)) (k : String)
    (hk : k ≠ "visualization_settings") :
    dget (remap_viz_entry fm dbv d) k = dget d k := by
  unfold remap_viz_entry
  cases hv : dget d "visualization_settings" with
  | none => rfl
  | some v =>
    dsimp only []
    exact dget_dset_ne d _ k _ hk

theorem remap_result_metadata_dget_other (st : IDRemapperState) (dbv : Json)
    (d : List (String × Json)) (k : String) (hk : k ≠ "result_metadata") :
    dget (remap_result_metadata st dbv d) k = dget d k := by
  unfold remap_result_metadata
  cases hv : dget d "result_metadata" with
  | none => rfl
  | some v =>
    cases v with
    | null => rfl
    | bool b => rfl
    | int n => rfl
    | str s => rfl
    | obj kvs => rfl
    | arr items =>
      dsimp only []
      exact dget_dset_ne d _ k _ hk

theorem set_dataset_query_dget_other (q1 : Option (List (String × Json)))
    (d : List (String × Json)) (k : String) (hk : k ≠ "dataset_query") :
    dget (set_dataset_query q1 d) k = dget d k := by
  unfold set_dataset_query
  cases q1 with
  | none => rfl
  | some q => exact dget_dset_ne d _ k _ hk

theorem remap_result_metadata_item_noop (st : IDRemapperState) (t : Int)
    (hT : ∀ x : Int, st.table_map.lookup (t, x) = none)
    (hF : ∀ x : Int, st.field_map.lookup (t, x) = none) (j : Json) :
    remap_result_metadata_item st (.int t) j = j := by
  cases j with
  | obj m =>
    unfold remap_result_metadata_item
    dsimp only []
    have hm1 : (match dget m "field_ref" with
        | some v =>
          dset m "field_ref" (remap_field_ids_recursively st.field_map (.int t) v)
        | none => m) = m := by
      cases hv : dget m "field_ref" with
      | none => rfl
      | some v =>
        dsimp only []
        rw [remapFields_noop st.field_map (.int t) (fun x => hF x) v]
        exact dset_id m _ v hv
    rw [hm1]
    have hm2 : (match dget m "id" with
        | some v =>
          (match pyInt v with
           | some fid =>
             (match lookupByDb st.field_map (.int t) fid with
              | some tgt => dset m "id" (.int tgt)
              | none => m)
           | none => m)
        | none => m) = m := by
      cases hv : dget m "id" with
      | none => rfl
      | some v =>
        dsimp only []
        cases hp : pyInt v with
        | none => rfl
        | some fid =>
          dsimp only []
          rw [show lookupByDb st.field_map (.int t) fid = none from hF fid]
    rw [hm2]
    have hm3 : (match dget m "table_id" with
        | some v =>
          (match pyInt v with
           | some tbl =>
             (match lookupByDb st.table_map (.int t) tbl with
              | some tgt => dset m "table_id" (.int tgt)
              | none => m)
           | none => m)
        | none => m) = m := by
      cases hv : dget m "table_id" with
      | none => rfl
      | some v =>
        dsimp only []
        cases hp : pyInt v with
        | none => rfl
        | some tbl =>
          dsimp only []
          rw [show lookupByDb st.table_map (.int t) tbl = none from hT tbl]
    rw [hm3]
  | null => rfl
  | bool b => rfl
  | int n => rfl
  | str s => rfl
  | arr xs => rfl

theorem remap_result_metadata_noop (st : IDRemapperState) (t : Int)
    (hT : ∀ x : Int, st.table_map.lookup (t, x) = none)
    (hF : ∀ x : Int, st.field_map.lookup (t, x) = none)
    (d : List (String × Json)) :
    remap_result_metadata st (.int t) d = d := by
  unfold remap_result_metadata
  cases hv : dget d "result_metadata" with
  | none => rfl
  | some v =>
    cases v with
    | null => rfl
    | bool b => rfl
    | int n => rfl
    | str s => rfl
    | obj kvs => rfl
    | arr items =>
      dsimp only []
      have hmap : items.map (remap_result_metadata_item st (.int t)) = items := by
        have h1 : items.map (remap_result_metadata_item st (.int t))
            = items.map id :=
          List.map_congr_left
            (fun a _ => remap_result_metadata_item_noop st t hT hF a)
        rw [h1, List.map_id]
      rw [hmap]
      exact dset_id d _ _ hv

theorem remap_source_table_noop (st : IDRemapperState) (cm : List (Int × Int))
    (t : Int) (hT : ∀ x : Int, st.table_map.lookup (t, x) = none)
    (m : List (String × Json))
    (hw : ∀ s cid, dget m "source-table" = some (.str s) →
      strStartsWith s "card__" = true →
      pyIntOfString (strReplace s "card__" "") = some cid →
      cm.lookup cid = none) :
    remap_source_table st cm (.int t) m = m := by
  unfold remap_source_table
  cases hv : dget m "source-table" with
  | none => rfl
  | some w =>
    cases w with
    | str s =>
      dsimp only []
      cases hsw : strStartsWith s "card__" with
      | false => rw [if_neg Bool.false_ne_true]
      | true =>
        rw [if_pos rfl]
        cases hp : pyIntOfString (strReplace s "card__" "") with
        | none => rfl
        | some cid =>
          dsimp only []
          rw [hw s cid hv hsw hp]
    | int x =>
      dsimp only []
      rw [show pyInt (Json.int x) = some x from rfl]
      dsimp only []
      rw [show lookupByDb st.table_map (.int t) x = none from hT x]
    | bool b =>
      dsimp only []
      rw [show pyInt (Json.bool b) = some (if b then 1 else 0) from rfl]
      dsimp only []
      rw [show lookupByDb st.table_map (.int t) (if b then 1 else 0) = none
        from hT _]
    | null => rfl
    | arr xs => rfl
    | obj kvs => rfl

theorem remap_source_table_out (st : IDRemapperState) (cm : List (Int × Int))
    (dbv : Json) (m : List (String × Json))
    (hC : ∀ kv ∈ cm, cm.lookup kv.2 = none) :
    ∀ s cid,
      dget (remap_source_table st cm dbv m) "source-table" = some (.str s) →
      strStartsWith s "card__" = true →
      pyIntOfString (strReplace s "card__" "") = some cid →
      cm.lookup cid = none := by
  intro s cid hgs hsw hp
  unfold remap_source_table at hgs
  cases hv : dget m "source-table" with
  | none =>
    rw [hv] at hgs
    dsimp only [] at hgs
    rw [hv] at hgs
    exact absurd hgs (by simp)
  | some w =>
    rw [hv] at hgs
    cases w with
    | str s0 =>
      dsimp only [] at hgs
      cases hsw0 : strStartsWith s0 "card__" with
      | false =>
        rw [hsw0, if_neg Bool.false_ne_true] at hgs
        rw [hv] at hgs
        obtain rfl : s0 = s := by simpa using hgs
        rw [hsw0] at hsw
        exact absurd hsw (by simp)
      | true =>
        rw [hsw0, if_pos rfl] at hgs
        cases hp0 : pyIntOfString (strReplace s0 "card__" "") with
        | none =>
          rw [hp0] at hgs
          dsimp only [] at hgs
          rw [hv] at hgs
          obtain rfl : s0 = s := by simpa using hgs
          rw [hp0] at hp
          exact absurd hp (by simp)
        | some cid0 =>
          rw [hp0] at hgs
          dsimp only [] at hgs
          cases hl : cm.lookup cid0 with
          | none =>
            rw [hl] at hgs
            dsimp only [] at hgs
            rw [hv] at hgs
            obtain rfl : s0 = s := by simpa using hgs
            rw [hp0] at hp
            obtain rfl : cid0 = cid := by simpa using hp
            exact hl
          | some tgt =>
            rw [hl] at hgs
            dsimp only [] at hgs
            rw [dget_dset_self] at hgs
            obtain rfl : s = "card__" ++ intToDec tgt := by
              have := hgs.symm
              simpa using this
            obtain ⟨-, hrt⟩ := card_ref_roundtrip tgt
            rw [hrt] at hp
            obtain rfl : tgt = cid := by simpa using hp
            exact hC (cid0, tgt) (lookup_mem hl)
    | int x =>
      dsimp only [] at hgs
      rw [show pyInt (Json.int x) = some x from rfl] at hgs
      dsimp only [] at hgs
      cases hl : lookupByDb st.table_map dbv x with
      | none =>
        rw [hl] at hgs
        dsimp only [] at hgs
        rw [hv] at hgs
        exact absurd hgs (by simp)
      | some tgt =>
        rw [hl] at hgs
        dsimp only [] at hgs
        rw [dget_dset_self] at hgs
        exact absurd hgs (by simp)
    | bool b =>
      dsimp only [] at hgs
      rw [show pyInt (Json.bool b) = some (if b then 1 else 0) from rfl] at hgs
      dsimp only [] at hgs
      cases hl : lookupByDb st.table_map dbv (if b then 1 else 0) with
      | none =>
        rw [hl] at hgs
        dsimp only [] at hgs
        rw [hv] at hgs
        exact absurd hgs (by simp)
      | some tgt =>
        rw [hl] at hgs
        dsimp only [] at hgs
        rw [dget_dset_self] at hgs
        exact absurd hgs (by simp)
    | null =>
      dsimp only [] at hgs
      rw [show pyInt Json.null = none from rfl] at hgs
      dsimp only [] at hgs
      rw [hv] at hgs
      exact absurd hgs (by simp)
    | arr xs =>
      dsimp only [] at hgs
      rw [show pyInt (Json.arr xs) = none from rfl] at hgs
      dsimp only [] at hgs
      rw [hv] at hgs
      exact absurd hgs (by simp)
    | obj kvs =>
      dsimp only [] at hgs
      rw [show pyInt (Json.obj kvs) = none from rfl] at hgs
      dsimp only [] at hgs
      rw [hv] at hgs
      exact absurd hgs (by simp)

theorem remap_source_table_second (st : IDRemapperState) (cm : List (Int × Int))
    (dbv : Json) (t : Int)
    (hT : ∀ x : Int, st.table_map.lookup (t, x) = none)
    (hC : ∀ kv ∈ cm, cm.lookup kv.2 = none) (m : List (String × Json)) :
    remap_source_table st cm (.int t) (remap_source_table st cm dbv m)
      = remap_source_table st cm dbv m :=
  remap_source_table_noop st cm t hT _ (remap_source_table_out st cm dbv m hC)

theorem remap_join_item_obj (st : IDRemapperState) (cm : List (Int × Int))
    (dbv : Json) (j : List (String × Json)) :
    remap_join_item st cm dbv (.obj j)
      = .ok (.obj (remap_source_table st cm dbv j)) := rfl

theorem mapM_ok_of_forall {ε α : Type} (l : List α) (f : α → Except ε α)
    (h : ∀ x ∈ l, f x = .ok x) : l.mapM f = .ok l := by
  induction l with
  | nil => rfl
  | cons x xs ih =>
    rw [List.mapM_cons, h x (by simp), ih (fun y hy => h y (by simp [hy]))]
    rfl

theorem mapM_ok_mem {ε α : Type} (l : List α) (f : α → Except ε α)
    (l2 : List α) (h : l.mapM f = .ok l2) :
    ∀ y ∈ l2, ∃ x ∈ l, f x = .ok y := by
  induction l generalizing l2 with
  | nil =>
    obtain rfl : l2 = [] := by
      have : (Except.ok [] : Except ε (List α)) = .ok l2 := h
      simpa using this.symm
    intro y hy
    simp at hy
  | cons x xs ih =>
    rw [List.mapM_cons] at h
    cases hfx : f x with
    | error e =>
      rw [hfx] at h
      exact absurd h (by simp [Bind.bind, Except.bind])
    | ok b =>
      rw [hfx] at h
      cases hxs : xs.mapM f with
      | error e =>
        rw [hxs] at h
        exact absurd h (by simp [Bind.bind, Except.bind])
      | ok bs =>
        rw [hxs] at h
        obtain rfl : l2 = b :: bs := by
          have : (Except.ok (b :: bs) : Except ε (List α)) = .ok l2 := h
          simpa using this.symm
        intro y hy
        rcases List.mem_cons.mp hy with rfl | hy
        · exact ⟨x, by simp, hfx⟩
        · obtain ⟨x2, hx2, hfx2⟩ := ih bs hxs y hy
          exact ⟨x2, by simp [hx2], hfx2⟩

theorem remap_joins_dget_other (st : IDRemapperState) (cm : List (Int × Int))
    (dbv : Json) (m m2 : List (String × Json))
    (hrun : remap_joins st cm dbv m = .ok m2) (k : String)
    (hk : k ≠ "joins") : dget m2 k = dget m k := by
  unfold remap_joins at hrun
  cases hv : dget m "joins" with
  | none =>
    rw [hv] at hrun
    obtain rfl : m2 = m := by simpa using hrun.symm
    rfl
  | some w =>
    rw [hv] at hrun
    cases w with
    | arr xs =>
      dsimp only [] at hrun
      cases hm : xs.mapM (remap_join_item st cm dbv) with
      | error e =>
        rw [hm] at hrun
        exact absurd hrun (by simp)
      | ok xs2 =>
        rw [hm] at hrun
        obtain rfl : m2 = dset m "joins" (.arr xs2) := by simpa using hrun.symm
        exact dget_dset_ne m _ k _ hk
    | str s =>
      dsimp only [] at hrun
      by_cases hs : s = ""
      · rw [if_pos hs] at hrun
        obtain rfl : m2 = m := by simpa using hrun.symm
        rfl
      · rw [if_neg hs] at hrun
        exact absurd hrun (by simp)
    | obj kvs =>
      dsimp only [] at hrun
      cases hke : kvs.isEmpty with
      | true =>
        rw [hke, if_pos rfl] at hrun
        obtain rfl : m2 = m := by simpa using hrun.symm
        rfl
      | false =>
        rw [hke, if_neg Bool.false_ne_true] at hrun
        exact absurd hrun (by simp)
    | null => exact absurd hrun (by simp)
    | bool b => exact absurd hrun (by simp)
    | int n => exact absurd hrun (by simp)

theorem remap_joins_noop (st : IDRemapperState) (cm : List (Int × Int))
    (t : Int) (hT : ∀ x : Int, st.table_map.lookup (t, x) = none)
    (hC : ∀ kv ∈ cm, cm.lookup kv.2 = none) (dbv : Json)
    (m m2 m3 : List (String × Json))
    (hrun : remap_joins st cm dbv m = .ok m2)
    (hsame : dget m3 "joins" = dget m2 "joins") :
    remap_joins st cm (.int t) m3 = .ok m3 := by
  unfold remap_joins at hrun ⊢
  cases hv : dget m "joins" with
  | none =>
    rw [hv] at hrun
    obtain rfl : m2 = m := by simpa using hrun.symm
    rw [hsame, hv]
  | some w =>
    rw [hv] at hrun
    cases w with
    | arr xs =>
      dsimp only [] at hrun
      cases hm : xs.mapM (remap_join_item st cm dbv) with
      | error e =>
        rw [hm] at hrun
        exact absurd hrun (by simp)
      | ok xs2 =>
        rw [hm] at hrun
        obtain rfl : m2 = dset m "joins" (.arr xs2) := by simpa using hrun.symm
        have hj3 : dget m3 "joins" = some (.arr xs2) := by
          rw [hsame, dget_dset_self]
        rw [hj3]
        dsimp only []
        have hall : ∀ y ∈ xs2, remap_join_item st cm (.int t) y = .ok y := by
          intro y hy
          obtain ⟨x, hx, hxy⟩ := mapM_ok_mem xs _ xs2 hm y hy
          cases x with
          | obj jj =>
            rw [remap_join_item_obj] at hxy
            obtain rfl : y = .obj (remap_source_table st cm dbv jj) := by
              simpa using hxy.symm
            rw [remap_join_item_obj,
              remap_source_table_second st cm dbv t hT hC jj]
          | null => exact absurd hxy (by simp [remap_join_item])
          | bool b => exact absurd hxy (by simp [remap_join_item])
          | int n => exact absurd hxy (by simp [remap_join_item])
          | str s => exact absurd hxy (by simp [remap_join_item])
          | arr ys => exact absurd hxy (by simp [remap_join_item])
        rw [mapM_ok_of_forall xs2 _ hall]
        dsimp only []
        rw [dset_id m3 "joins" (.arr xs2) hj3]
    | str s =>
      dsimp only [] at hrun
      by_cases hs : s = ""
      · subst hs
        rw [if_pos rfl] at hrun
        obtain rfl : m2 = m := by simpa using hrun.symm
        rw [hsame, hv]
        dsimp only []
        rw [if_pos rfl]
      · rw [if_neg hs] at hrun
        exact absurd hrun (by simp)
    | obj kvs =>
      dsimp only [] at hrun
      cases hke : kvs.isEmpty with
      | true =>
        rw [hke, if_pos rfl] at hrun
        obtain rfl : m2 = m := by simpa using hrun.symm
        rw [hsame, hv]
        dsimp only []
        rw [hke, if_pos rfl]
      | false =>
        rw [hke, if_neg Bool.false_ne_true] at hrun
        exact absurd hrun (by simp)
    | null => exact absurd hrun (by simp)
    | bool b => exact absurd hrun (by simp)
    | int n => exact absurd hrun (by simp)

theorem remap_source_table_ne_nil (st : IDRemapperState) (cm : List (Int × Int))
    (dbv : Json) (m : List (String × Json)) (h : m ≠ []) :
    remap_source_table st cm dbv m ≠ [] := by
  unfold remap_source_table
  cases hv : dget m "source-table" with
  | none => exact h
  | some w =>
    cases w with
    | str s =>
      dsimp only []
      cases hsw : strStartsWith s "card__" with
      | false =>
        rw [if_neg Bool.false_ne_true]
        exact h
      | true =>
        rw [if_pos rfl]
        cases hp : pyIntOfString (strReplace s "card__" "") with
        | none => exact h
        | some cid =>
          dsimp only []
          cases hl : cm.lookup cid with
          | none => exact h
          | some tgt => exact dset_ne_nil m _ _
    | int x =>
      dsimp only []
      rw [show pyInt (Json.int x) = some x from rfl]
      dsimp only []
      cases hl : lookupByDb st.table_map dbv x with
      | none => exact h
      | some tgt => exact dset_ne_nil m _ _
    | bool b =>
      dsimp only []
      rw [show pyInt (Json.bool b) = some (if b then 1 else 0) from rfl]
      dsimp only []
      cases hl : lookupByDb st.table_map dbv (if b then 1 else 0) with
      | none => exact h
      | some tgt => exact dset_ne_nil m _ _
    | null => exact h
    | arr xs => exact h
    | obj kvs => exact h

theorem remap_joins_ne_nil (st : IDRemapperState) (cm : List (Int × Int))
    (dbv : Json) (m m2 : List (String × Json))
    (hrun : remap_joins st cm dbv m = .ok m2) (h : m ≠ []) : m2 ≠ [] := by
  unfold remap_joins at hrun
  cases hv : dget m "joins" with
  | none =>
    rw [hv] at hrun
    obtain rfl : m2 = m := by simpa using hrun.symm
    exact h
  | some w =>
    rw [hv] at hrun
    cases w with
    | arr xs =>
      dsimp only [] at hrun
      cases hm : xs.mapM (remap_join_item st cm dbv) with
      | error e =>
        rw [hm] at hrun
        exact absurd hrun (by simp)
      | ok xs2 =>
        rw [hm] at hrun
        obtain rfl : m2 = dset m "joins" (.arr xs2) := by simpa using hrun.symm
        exact dset_ne_nil m _ _
    | str s =>
      dsimp only [] at hrun
      by_cases hs : s = ""
      · rw [if_pos hs] at hrun
        obtain rfl : m2 = m := by simpa using hrun.symm
        exact h
      · rw [if_neg hs] at hrun
        exact absurd hrun (by simp)
    | obj kvs =>
      dsimp only [] at hrun
      cases hke : kvs.isEmpty with
      | true =>
        rw [hke, if_pos rfl] at hrun
        obtain rfl : m2 = m := by simpa using hrun.symm
        exact h
      | false =>
        rw [hke, if_neg Bool.false_ne_true] at hrun
        exact absurd hrun (by simp)
    | null => exact absurd hrun (by simp)
    | bool b => exact absurd hrun (by simp)
    | int n => exact absurd hrun (by simp)

theorem remapQueryStage_second (st : IDRemapperState) (cm : List (Int × Int))
    (dbv : Json) (t : Int)
    (hT : ∀ x : Int, st.table_map.lookup (t, x) = none)
    (hF : ∀ x : Int, lookupByDb st.field_map (.int t) x = none)
    (hC : ∀ kv ∈ cm, cm.lookup kv.2 = none)
    (dq : Option Json) (q1 : Option (List (String × Json)))
    (hrun : remapQueryStage st cm dbv t dq = .ok q1) :
    remapQueryStage st cm (.int t) t (q1.map Json.obj) = .ok q1 := by
  cases dq with
  | none =>
    obtain rfl : q1 = none := by simpa [remapQueryStage] using hrun.symm
    rfl
  | some w =>
    cases w with
    | null => exact absurd hrun (by simp [remapQueryStage])
    | bool b => exact absurd hrun (by simp [remapQueryStage])
    | int n => exact absurd hrun (by simp [remapQueryStage])
    | str s => exact absurd hrun (by simp [remapQueryStage])
    | arr xs => exact absurd hrun (by simp [remapQueryStage])
    | obj q =>
      unfold remapQueryStage at hrun
      dsimp only [] at hrun
      cases hq : dget (dset q "database" (.int t)) "query" with
      | none =>
        rw [hq] at hrun
        obtain rfl : q1 = some (dset q "database" (.int t)) := by
          simpa using hrun.symm
        show remapQueryStage st cm (.int t) t
          (some (.obj (dset q "database" (.int t))))
          = .ok (some (dset q "database" (.int t)))
        unfold remapQueryStage
        dsimp only []
        rw [dset_id _ _ _ (dget_dset_self q "database" (.int t)), hq]
      | some v =>
        rw [hq] at hrun
        dsimp only [] at hrun
        cases htr : v.truthy with
        | false =>
          rw [htr, if_pos rfl] at hrun
          obtain rfl : q1 = some (dset q "database" (.int t)) := by
            simpa using hrun.symm
          show remapQueryStage st cm (.int t) t
            (some (.obj (dset q "database" (.int t))))
            = .ok (some (dset q "database" (.int t)))
          unfold remapQueryStage
          dsimp only []
          rw [dset_id _ _ _ (dget_dset_self q "database" (.int t)), hq]
          dsimp only []
          rw [htr, if_pos rfl]
        | true =>
          rw [htr, if_neg (by simp)] at hrun
          cases v with
          | null => exact absurd hrun (by simp)
          | bool b => exact absurd hrun (by simp)
          | int n => exact absurd hrun (by simp)
          | str s => exact absurd hrun (by simp)
          | arr ys => exact absurd hrun (by simp)
          | obj iq0 =>
            dsimp only [] at hrun
            cases hjoins :
                remap_joins st cm dbv (remap_source_table st cm dbv iq0) with
            | error e =>
              rw [hjoins] at hrun
              exact absurd hrun (by simp)
            | ok iq2 =>
              rw [hjoins] at hrun
              dsimp only [] at hrun
              obtain rfl : q1 = some (dset (dset q "database" (.int t)) "query"
                  (.obj (remap_query_clauses st.field_map dbv iq2))) := by
                simpa using hrun.symm
              show remapQueryStage st cm (.int t) t (some (.obj _)) = _
              unfold remapQueryStage
              dsimp only []
              have hdb2 : dget (dset (dset q "database" (.int t)) "query"
                  (.obj (remap_query_clauses st.field_map dbv iq2))) "database"
                  = some (.int t) := by
                rw [dget_dset_ne _ _ _ _ (by decide), dget_dset_self]
              rw [dset_id _ _ _ hdb2]
              have hq2 : dget (dset (dset q "database" (.int t)) "query"
                  (.obj (remap_query_clauses st.field_map dbv iq2))) "query"
                  = some (.obj (remap_query_clauses st.field_map dbv iq2)) :=
                dget_dset_self _ _ _
              rw [hq2]
              dsimp only []
              have hiq0ne : iq0 ≠ [] := by
                intro hcon
                rw [hcon] at htr
                simp [Json.truthy] at htr
              have hiq3ne : remap_query_clauses st.field_map dbv iq2 ≠ [] :=
                remap_query_clauses_ne_nil _ _ _
                  (remap_joins_ne_nil st cm dbv _ iq2 hjoins
                    (remap_source_table_ne_nil st cm dbv iq0 hiq0ne))
              have htr3 : (Json.obj
                  (remap_query_clauses st.field_map dbv iq2)).truthy = true := by
                simp [Json.truthy, hiq3ne]
              rw [htr3, if_neg (by simp)]
              have hst1 : dget (remap_query_clauses st.field_map dbv iq2)
                  "source-table"
                  = dget (remap_source_table st cm dbv iq0) "source-table" := by
                rw [remap_query_clauses_dget_other _ _ _ (by decide)]
                exact remap_joins_dget_other st cm dbv _ iq2 hjoins _ (by decide)
              have hst2 : remap_source_table st cm (.int t)
                  (remap_query_clauses st.field_map dbv iq2)
                  = remap_query_clauses st.field_map dbv iq2 := by
                refine remap_source_table_noop st cm t hT _ ?_
                intro s cid hgs hsw hp
                exact remap_source_table_out st cm dbv iq0 hC s cid
                  (by rw [← hst1]; exact hgs) hsw hp
              rw [hst2]
              have hj2 : remap_joins st cm (.int t)
                  (remap_query_clauses st.field_map dbv iq2)
                  = .ok (remap_query_clauses st.field_map dbv iq2) := by
                refine remap_joins_noop st cm t hT hC dbv _ iq2 _ hjoins ?_
                exact remap_query_clauses_dget_other _ _ _ (by decide) iq2
              rw [hj2]
              dsimp only []
              rw [remap_query_clauses_noop st.field_map (.int t) hF]
              rw [dset_id _ _ _ hq2]

theorem resolve_db_id_out_mem (st : IDRemapperState) (s t : Int)
    (h : IDRemapper.resolve_db_id st s = some t) :
    t ∈ st.db_map.by_id.map Prod.snd ∨ t ∈ st.db_map.by_name.map Prod.snd := by
  unfold IDRemapper.resolve_db_id at h
  cases h1 : st.db_map.by_id.lookup (intToDec s) with
  | some v =>
    rw [h1] at h
    have hv : v = t := by simpa using h
    exact Or.inl (List.mem_map.mpr ⟨(intToDec s, v), lookup_mem h1, hv⟩)
  | none =>
    rw [h1] at h
    dsimp only [] at h
    cases h2 : st.manifest_databases.lookup s with
    | none =>
      rw [h2] at h
      exact absurd h (by simp)
    | some name =>
      rw [h2] at h
      dsimp only [] at h
      by_cases hn : name ≠ ""
      · rw [if_pos hn] at h
        exact Or.inr (List.mem_map.mpr ⟨(name, t), lookup_mem h, rfl⟩)
      · rw [if_neg hn] at h
        exact absurd h (by simp)

theorem resolve_db_id_any_out_mem (st : IDRemapperState) (v : Json) (t : Int)
    (h : IDRemapper.resolve_db_id_any st v = .ok (some t)) :
    t ∈ st.db_map.by_id.map Prod.snd ∨ t ∈ st.db_map.by_name.map Prod.snd := by
  cases v with
  | int n =>
    refine resolve_db_id_out_mem st n t ?_
    simpa [IDRemapper.resolve_db_id_any] using h
  | bool b =>
    unfold IDRemapper.resolve_db_id_any at h
    dsimp only [] at h
    cases h1 : st.db_map.by_id.lookup (if b then "True" else "False") with
    | some w =>
      rw [h1] at h
      have hw : w = t := by simpa using h
      exact Or.inl (List.mem_map.mpr ⟨(_, w), lookup_mem h1, hw⟩)
    | none =>
      rw [h1] at h
      dsimp only [] at h
      cases h2 : st.manifest_databases.lookup (if b then 1 else 0) with
      | none =>
        rw [h2] at h
        exact absurd h (by simp)
      | some name =>
        rw [h2] at h
        dsimp only [] at h
        by_cases hn : name ≠ ""
        · rw [if_pos hn] at h
          have h3 : st.db_map.by_name.lookup name = some t := by simpa using h
          exact Or.inr (List.mem_map.mpr ⟨(name, t), lookup_mem h3, rfl⟩)
        · rw [if_neg hn] at h
          exact absurd h (by simp)
  | str s =>
    have h3 : st.db_map.by_id.lookup s = some t := by
      simpa [IDRemapper.resolve_db_id_any] using h
    exact Or.inl (List.mem_map.mpr ⟨(s, t), lookup_mem h3, rfl⟩)
  | null =>
    have h3 : st.db_map.by_id.lookup "None" = some t := by
      simpa [IDRemapper.resolve_db_id_any] using h
    exact Or.inl (List.mem_map.mpr ⟨("None", t), lookup_mem h3, rfl⟩)
  | arr xs => exact absurd h (by simp [IDRemapper.resolve_db_id_any])
  | obj kvs => exact absurd h (by simp [IDRemapper.resolve_db_id_any])

theorem resolve_target_fix (st : IDRemapperState)
    (hA1 : ∀ kv ∈ st.db_map.by_id, IDRemapper.resolve_db_id st kv.2 = some kv.2)
    (hA2 : ∀ kv ∈ st.db_map.by_name, IDRemapper.resolve_db_id st kv.2 = some kv.2)
    (t : Int)
    (hmem : t ∈ st.db_map.by_id.map Prod.snd ∨
      t ∈ st.db_map.by_name.map Prod.snd) :
    IDRemapper.resolve_db_id st t = some t := by
  rcases hmem with hm | hm
  · obtain ⟨kv, hkv, hsnd⟩ := List.mem_map.mp hm
    exact hsnd ▸ hA1 kv hkv
  · obtain ⟨kv, hkv, hsnd⟩ := List.mem_map.mp hm
    exact hsnd ▸ hA2 kv hkv

theorem target_map_lookup_none (mp : List ((Int × Int) × Int))
    (vals1 vals2 : List Int)
    (hdisj : ∀ kv ∈ mp, kv.1.1 ∉ vals1 ∧ kv.1.1 ∉ vals2)
    (t : Int) (hmem : t ∈ vals1 ∨ t ∈ vals2) :
    ∀ x : Int, mp.lookup (t, x) = none := by
  intro x
  cases hl : mp.lookup (t, x) with
  | none => rfl
  | some y =>
    exfalso
    rw [prodIntBEq_eq] at hl
    have hmm := lookup_mem hl
    have := hdisj ((t, x), y) hmm
    rcases hmem with hm | hm
    · exact this.1 hm
    · exact this.2 hm

theorem remapQueryStage_none (st : IDRemapperState) (cm : List (Int × Int))
    (dbv : Json) (t : Int) (dq : Option Json)
    (h : remapQueryStage st cm dbv t dq = .ok none) : dq = none := by
  cases dq with
  | none => rfl
  | some w =>
    exfalso
    cases w with
    | null => exact absurd h (by simp [remapQueryStage])
    | bool b => exact absurd h (by simp [remapQueryStage])
    | int n => exact absurd h (by simp [remapQueryStage])
    | str s => exact absurd h (by simp [remapQueryStage])
    | arr xs => exact absurd h (by simp [remapQueryStage])
    | obj q =>
      unfold remapQueryStage at h
      dsimp only [] at h
      cases hq : dget (dset q "database" (.int t)) "query" with
      | none =>
        rw [hq] at h
        exact absurd h (by simp)
      | some v =>
        rw [hq] at h
        dsimp only [] at h
        cases htr : v.truthy with
        | false =>
          rw [htr, if_pos rfl] at h
          exact absurd h (by simp)
        | true =>
          rw [htr, if_neg (by simp)] at h
          cases v with
          | null => exact absurd h (by simp)
          | bool b => exact absurd h (by simp)
          | int n => exact absurd h (by simp)
          | str s => exact absurd h (by simp)
          | arr ys => exact absurd h (by simp)
          | obj iq0 =>
            dsimp only [] at h
            cases hjoins :
                remap_joins st cm dbv (remap_source_table st cm dbv iq0) with
            | error e =>
              rw [hjoins] at h
              exact absurd h (by simp)
            | ok iq2 =>
              rw [hjoins] at h
              exact absurd h (by simp)

theorem remapQueryStage_database (st : IDRemapperState) (cm : List (Int × Int))
    (dbv : Json) (t : Int) (dq : Option Json) (q : List (String × Json))
    (h : remapQueryStage st cm dbv t dq = .ok (some q)) :
    dget q "database" = some (.int t) := by
  cases dq with
  | none => exact absurd h (by simp [remapQueryStage])
  | some w =>
    cases w with
    | null => exact absurd h (by simp [remapQueryStage])
    | bool b => exact absurd h (by simp [remapQueryStage])
    | int n => exact absurd h (by simp [remapQueryStage])
    | str s => exact absurd h (by simp [remapQueryStage])
    | arr xs => exact absurd h (by simp [remapQueryStage])
    | obj q0 =>
      unfold remapQueryStage at h
      dsimp only [] at h
      cases hq : dget (dset q0 "database" (.int t)) "query" with
      | none =>
        rw [hq] at h
        obtain rfl : q = dset q0 "database" (.int t) := by simpa using h.symm
        exact dget_dset_self _ _ _
      | some v =>
        rw [hq] at h
        dsimp only [] at h
        cases htr : v.truthy with
        | false =>
          rw [htr, if_pos rfl] at h
          obtain rfl : q = dset q0 "database" (.int t) := by simpa using h.symm
          exact dget_dset_self _ _ _
        | true =>
          rw [htr, if_neg (by simp)] at h
          cases v with
          | null => exact absurd h (by simp)
          | bool b => exact absurd h (by simp)
          | int n => exact absurd h (by simp)
          | str s => exact absurd h (by simp)
          | arr ys => exact absurd h (by simp)
          | obj iq0 =>
            dsimp only [] at h
            cases hjoins :
                remap_joins st cm dbv (remap_source_table st cm dbv iq0) with
            | error e =>
              rw [hjoins] at h
              exact absurd h (by simp)
            | ok iq2 =>
              rw [hjoins] at h
              dsimp only [] at h
              obtain rfl : q = dset (dset q0 "database" (.int t)) "query"
                  (.obj (remap_query_clauses st.field_map dbv iq2)) := by
                simpa using h.symm
              rw [dget_dset_ne _ _ _ _ (by decide)]
              exact dget_dset_self _ _ _

theorem remap_core_second (st : IDRemapperState) (cm : List (Int × Int))
    (hA1 : ∀ kv ∈ st.db_map.by_id, IDRemapper.resolve_db_id st kv.2 = some kv.2)
    (hA2 : ∀ kv ∈ st.db_map.by_name,
      IDRemapper.resolve_db_id st kv.2 = some kv.2)
    (hTm : ∀ kv ∈ st.table_map, kv.1.1 ∉ st.db_map.by_id.map Prod.snd ∧
      kv.1.1 ∉ st.db_map.by_name.map Prod.snd)
    (hFm : ∀ kv ∈ st.field_map, kv.1.1 ∉ st.db_map.by_id.map Prod.snd ∧
      kv.1.1 ∉ st.db_map.by_name.map Prod.snd)
    (hC : ∀ kv ∈ cm, cm.lookup kv.2 = none)
    (data0 : List (String × Json)) (sourceVal : Json) (t : Int)
    (q1 : Option (List (String × Json)))
    (hres : IDRemapper.resolve_db_id_any st sourceVal = .ok (some t))
    (ht0 : ¬ t = 0)
    (hqs : remapQueryStage st cm sourceVal t (dget data0 "dataset_query")
      = .ok q1)
    (hsrc : (∃ v0, dget data0 "database_id" = some v0) ∨
      dget data0 "dataset_query" ≠ none) :
    remap_card_query st cm
      (.obj (set_dataset_query q1 (remap_viz_entry st.field_map sourceVal
        (remap_result_metadata st sourceVal (remap_table_id_entry st sourceVal
          (remap_database_id_entry t data0))))))
      = .ok (.obj (set_dataset_query q1 (remap_viz_entry st.field_map sourceVal
        (remap_result_metadata st sourceVal (remap_table_id_entry st sourceVal
          (remap_database_id_entry t data0))))), true) := by
  set d1 := remap_database_id_entry t data0 with hd1
  set d2 := remap_table_id_entry st sourceVal d1 with hd2
  set d3 := remap_result_metadata st sourceVal d2 with hd3
  set d4 := remap_viz_entry st.field_map sourceVal d3 with hd4
  set d5 := set_dataset_query q1 d4 with hd5
  have hmem := resolve_db_id_any_out_mem st sourceVal t hres
  have hTt : ∀ x : Int, st.table_map.lookup (t, x) = none :=
    target_map_lookup_none st.table_map _ _ hTm t hmem
  have hFt : ∀ x : Int, st.field_map.lookup (t, x) = none :=
    target_map_lookup_none st.field_map _ _ hFm t hmem
  have hFt2 : ∀ x : Int, lookupByDb st.field_map (.int t) x = none :=
    fun x => hFt x
  have hfix : IDRemapper.resolve_db_id st t = some t :=
    resolve_target_fix st hA1 hA2 t hmem
  have htt : (Json.int t).truthy = true := by simp [Json.truthy, ht0]
  have hdb5 : dget d5 "database_id"
      = (dget data0 "database_id").map (fun _ => Json.int t) := by
    rw [hd5, set_dataset_query_dget_other _ _ _ (by decide),
      hd4, remap_viz_entry_dget_other _ _ _ _ (by decide),
      hd3, remap_result_metadata_dget_other _ _ _ _ (by decide),
      hd2, remap_table_id_entry_dget_other _ _ _ _ (by decide),
      hd1, remap_database_id_entry_dget]
  have hdq5 : dget d5 "dataset_query" = q1.map Json.obj := by
    rw [hd5]
    cases q1 with
    | some Q =>
      unfold set_dataset_query
      rw [dget_dset_self]
      rfl
    | none =>
      have hdq0 : dget data0 "dataset_query" = none :=
        remapQueryStage_none st cm sourceVal t _ hqs
      unfold set_dataset_query
      rw [hd4, remap_viz_entry_dget_other _ _ _ _ (by decide),
        hd3, remap_result_metadata_dget_other _ _ _ _ (by decide),
        hd2, remap_table_id_entry_dget_other _ _ _ _ (by decide),
        hd1, remap_database_id_entry_dget_other _ _ _ (by decide), hdq0]
      rfl
  have hd1p : remap_database_id_entry t d5 = d5 := by
    unfold remap_database_id_entry
    rw [hdb5]
    cases hdb0 : dget data0 "database_id" with
    | none => rfl
    | some v0 =>
      simp only [Option.map_some']
      exact dset_id d5 _ _ (by rw [hdb5, hdb0]; rfl)
  have hd2p : remap_table_id_entry st (.int t) d5 = d5 :=
    remap_table_id_entry_noop st t hTt d5
  have hd3p : remap_result_metadata st (.int t) d5 = d5 :=
    remap_result_metadata_noop st t hTt hFt d5
  have hd4p : remap_viz_entry st.field_map (.int t) d5 = d5 :=
    remap_viz_entry_noop st.field_map t hFt2 d5
  have hd5p : set_dataset_query q1 d5 = d5 := by
    unfold set_dataset_query
    cases hq1 : q1 with
    | none => rfl
    | some Q =>
      dsimp only []
      refine dset_id d5 _ _ ?_
      rw [hdq5, hq1]
      rfl
  show remap_card_query st cm (.obj d5) = .ok (.obj d5, true)
  unfold remap_card_query
  dsimp only []
  rw [hdq5, hdb5]
  cases hdb0 : dget data0 "database_id" with
  | some v0 =>
    simp only [Option.map_some']
    rw [htt, if_pos rfl]
    dsimp only []
    rw [htt, if_neg (show ¬(true = false) by simp)]
    rw [show IDRemapper.resolve_db_id_any st (Json.int t)
      = .ok (IDRemapper.resolve_db_id st t) from rfl, hfix]
    dsimp only []
    rw [if_neg ht0]
    rw [remapQueryStage_second st cm sourceVal t hTt hFt2 hC _ q1 hqs]
    dsimp only []
    rw [hd1p, hd2p, hd3p, hd4p, hd5p]
  | none =>
    simp only [Option.map_none']
    cases hq1 : q1 with
    | none =>
      exfalso
      rw [hq1] at hqs
      have hdq0 : dget data0 "dataset_query" = none :=
        remapQueryStage_none st cm sourceVal t _ hqs
      rcases hsrc with ⟨v0, hv0⟩ | hne
      · rw [hdb0] at hv0
        exact absurd hv0 (by simp)
      · exact hne hdq0
    | some Q =>
      simp only [Option.map_some']
      have hQdb : dget Q "database" = some (.int t) := by
        refine remapQueryStage_database st cm sourceVal t
          (dget data0 "dataset_query") Q ?_
        rw [← hq1]
        exact hqs
      rw [hQdb]
      simp only [Option.getD_some]
      rw [htt, if_neg (show ¬(true = false) by simp)]
      rw [show IDRemapper.resolve_db_id_any st (Json.int t)
        = .ok (IDRemapper.resolve_db_id st t) from rfl, hfix]
      dsimp only []
      rw [if_neg ht0]
      rw [show remapQueryStage st cm (.int t) t (some (.obj Q)) = .ok q1 from
        hq1 ▸ remapQueryStage_second st cm sourceVal t hTt hFt2 hC _ q1 hqs]
      dsimp only []
      rw [hd1p, hd2p, hd3p, hd4p]
      rw [show set_dataset_query q1 d5 = d5 from hd5p]

/-- C7 counterexample: a run that aborts on a validator error (unmapped
databases) exits with code 1 and writes no report file, contradicting "the
final report file is always written, even on abort" — the report is only
written at the end of `_perform_import` (`src/import_metabase.py`, lines
228-233), and `report_unmapped_databases` calls `sys.exit(1)` before that
point (`src/lib/validation.py`, line 142). -/
theorem c7_report_counterexample :
    run_import ⟨.ok, false, true, .ok, none, false⟩ = (1, false) := by
  rfl

/-- C7 amended: the report file is written exactly when the run loads the
package, is not a dry run, passes both validation steps, and no exception
escapes an import phase; such a completed run exits 4 when some item failed
and 0 otherwise; exit code 0 otherwise occurs only for a clean dry run; and
every run that writes no report exits with code 0, 1, 2 or 3 (validator
errors and load errors abort the run, as do API errors and unexpected
exceptions, all without a report). -/
theorem c7_report_amended (w : ImportRunWorld) :
    ((run_import w).2 = true ↔
      (w.loadResult = .ok ∧ w.dryRun = false ∧ w.unmappedDbs = false ∧
        w.targetCheck = .ok ∧ w.phaseExc = none)) ∧
    ((run_import w).2 = true →
      (run_import w).1 = (if w.anyItemFailed then 4 else 0)) ∧
    ((run_import w).1 = 0 →
      (w.dryRun = true ∧ w.unmappedDbs = false) ∨
        ((run_import w).2 = true ∧ w.anyItemFailed = false)) ∧
    ((run_import w).2 = false →
      (run_import w).1 = 0 ∨ (run_import w).1 = 1 ∨
        (run_import w).1 = 2 ∨ (run_import w).1 = 3) := by
  rcases w with ⟨lr, dr, ud, tc, pe, af⟩
  cases lr <;> cases dr <;> cases ud <;> cases tc <;>
    rcases pe with _ | p <;> (try cases p) <;> cases af <;> decide

/-- C6 counterexample: `build_table_and_field_mappings` can replace an
existing field-map binding with a different value.  Source database 1 lists
two tables that both carry a field with source id 9 ("a".f and "b".g); both
tables match by name in the target, so the builder first records
`_field_map[(1, 9)] = 90` and later overwrites it with
`_field_map[(1, 9)] = 91`. -/
theorem c6_resolver_monotonicity_counterexample :
    (applyTFEvents ((build_table_and_field_mappings
      ⟨⟨[("1", 5)], []⟩, [(1, "db")], [], []⟩
      [(1, .obj [("tables", .arr
        [.obj [("id", .int 1), ("name", .str "a"),
               ("fields", .arr [.obj [("id", .int 9), ("name", .str "f")]])],
         .obj [("id", .int 2), ("name", .str "b"),
               ("fields", .arr [.obj [("id", .int 9), ("name", .str "g")]])]])])]
      (fun t => if t = 5 then
        some (.obj [("tables", .arr
          [.obj [("id", .int 10), ("name", .str "a"),
                 ("fields", .arr [.obj [("id", .int 90), ("name", .str "f")]])],
           .obj [("id", .int 20), ("name", .str "b"),
                 ("fields", .arr [.obj [("id", .int 91), ("name", .str "g")]])]])])
        else none)).take 2)).2.lookup (1, 9) = some 90 ∧
    (applyTFEvents (build_table_and_field_mappings
      ⟨⟨[("1", 5)], []⟩, [(1, "db")], [], []⟩
      [(1, .obj [("tables", .arr
        [.obj [("id", .int 1), ("name", .str "a"),
               ("fields", .arr [.obj [("id", .int 9), ("name", .str "f")]])],
         .obj [("id", .int 2), ("name", .str "b"),
               ("fields", .arr [.obj [("id", .int 9), ("name", .str "g")]])]])])]
      (fun t => if t = 5 then
        some (.obj [("tables", .arr
          [.obj [("id", .int 10), ("name", .str "a"),
                 ("fields", .arr [.obj [("id", .int 90), ("name", .str "f")]])],
           .obj [("id", .int 20), ("name", .str "b"),
                 ("fields", .arr [.obj [("id", .int 91), ("name", .str "g")]])]])])
        else none))).2.lookup (1, 9) = some 91 := by
  exact ⟨rfl, rfl⟩

/-- C6 amended: the identifier maps never lose entries, and they never
replace an entry provided no key is assigned twice.  Concretely: (1) whenever
each database's source metadata lists pairwise-distinct table ids and
pairwise-distinct field ids (and the manifest lists each database once),
every `_table_map` / `_field_map` binding present after a prefix of the
assignments made by `build_table_and_field_mappings` is still present, with
the same value, in the final maps; (2) the card map (and likewise the
collection map), built by at most one keyed assignment per processed item,
retains every binding of every prefix whenever the processed source ids are
pairwise distinct; and (3) the card importer does process pairwise-distinct
ids: `_topological_sort_cards` preserves distinctness of card ids.  Without
the distinctness provisos the maps can rebind a key to a new value (see the
counterexample), so the original claim is amended rather than confirmed. -/
theorem c6_resolver_monotonicity_amended
    (st : IDRemapperState) (meta : List (Int × Json)) (fetch : Int → Option Json)
    (order : List Int) (outcome : Int → Option Int)
    (hdb : (st.manifest_databases.map Prod.fst).Nodup)
    (htab : ∀ db ∈ st.manifest_databases.map Prod.fst,
      (objIntIds (dbSourceTables meta db)).Nodup)
    (hfld : ∀ db ∈ st.manifest_databases.map Prod.fst,
      (sourceFieldIds (dbSourceTables meta db)).Nodup)
    (hord : order.Nodup) :
    (∀ n k v,
      ((applyTFEvents ((build_table_and_field_mappings st meta fetch).take n)).1.lookup k
          = some v →
        (applyTFEvents (build_table_and_field_mappings st meta fetch)).1.lookup k
          = some v) ∧
      ((applyTFEvents ((build_table_and_field_mappings st meta fetch).take n)).2.lookup k
          = some v →
        (applyTFEvents (build_table_and_field_mappings st meta fetch)).2.lookup k
          = some v)) ∧
    (∀ n i t,
      (foldPyMap (cardMapEvents (order.take n) outcome)).lookup i = some t →
        (foldPyMap (cardMapEvents order outcome)).lookup i = some t) ∧
    (∀ (readDeps : Int → List Int) (cards : List Card),
      (cards.map (·.id)).Nodup →
      ((topological_sort_cards readDeps cards).map (·.id)).Nodup) := by
  obtain ⟨hTn, hFn, -, -⟩ :=
    tfAllEvents_spec st meta fetch st.manifest_databases hdb htab hfld
  refine ⟨?_, ?_, fun readDeps cards h => topo_output_ids_nodup readDeps cards h⟩
  · intro n k v
    have hsplit : build_table_and_field_mappings st meta fetch
        = (build_table_and_field_mappings st meta fetch).take n
          ++ (build_table_and_field_mappings st meta fetch).drop n :=
      (List.take_append_drop n _).symm
    constructor
    · intro h
      rw [applyTFEvents_eq] at h ⊢
      dsimp only [] at h ⊢
      rw [prodIntBEq_eq] at h ⊢
      have hTsplit : tfTableKVs (build_table_and_field_mappings st meta fetch)
          = tfTableKVs ((build_table_and_field_mappings st meta fetch).take n)
            ++ tfTableKVs ((build_table_and_field_mappings st meta fetch).drop n) := by
        conv_lhs => rw [hsplit]
        rw [tfTableKVs_append]
      rw [hTsplit]
      refine foldPyMap_persist _ _ ?_ k v h
      rw [← hTsplit]
      exact hTn
    · intro h
      rw [applyTFEvents_eq] at h ⊢
      dsimp only [] at h ⊢
      rw [prodIntBEq_eq] at h ⊢
      have hFsplit : tfFieldKVs (build_table_and_field_mappings st meta fetch)
          = tfFieldKVs ((build_table_and_field_mappings st meta fetch).take n)
            ++ tfFieldKVs ((build_table_and_field_mappings st meta fetch).drop n) := by
        conv_lhs => rw [hsplit]
        rw [tfFieldKVs_append]
      rw [hFsplit]
      refine foldPyMap_persist _ _ ?_ k v h
      rw [← hFsplit]
      exact hFn
  · intro n i t h
    have hsplit : order = order.take n ++ order.drop n :=
      (List.take_append_drop n _).symm
    have hev : cardMapEvents order outcome
        = cardMapEvents (order.take n) outcome
          ++ cardMapEvents (order.drop n) outcome := by
      conv_lhs => rw [hsplit]
      simp only [cardMapEvents, List.filterMap_append]
    rw [hev]
    refine foldPyMap_persist _ _ ?_ i t h
    rw [← hev]
    exact (cardMapEvents_keys_sublist order outcome).nodup hord

/-- C6 amended, witness: with well-formed metadata (distinct table ids 1, 2
and distinct field ids 9, 8 in source database 1) the binding
`_field_map[(1, 9)] = 90` recorded while processing the first table persists
in the final field map. -/
theorem c6_resolver_monotonicity_amended_witness :
    (applyTFEvents ((build_table_and_field_mappings
      ⟨⟨[("1", 5)], []⟩, [(1, "db")], [], []⟩
      [(1, .obj [("tables", .arr
        [.obj [("id", .int 1), ("name", .str "a"),
               ("fields", .arr [.obj [("id", .int 9), ("name", .str "f")]])],
         .obj [("id", .int 2), ("name", .str "b"),
               ("fields", .arr [.obj [("id", .int 8), ("name", .str "g")]])]])])]
      (fun t => if t = 5 then
        some (.obj [("tables", .arr
          [.obj [("id", .int 10), ("name", .str "a"),
                 ("fields", .arr [.obj [("id", .int 90), ("name", .str "f")]])],
           .obj [("id", .int 20), ("name", .str "b"),
                 ("fields", .arr [.obj [("id", .int 91), ("name", .str "g")]])]])])
        else none)).take 2)).2.lookup (1, 9) = some 90 ∧
    (applyTFEvents (build_table_and_field_mappings
      ⟨⟨[("1", 5)], []⟩, [(1, "db")], [], []⟩
      [(1, .obj [("tables", .arr
        [.obj [("id", .int 1), ("name", .str "a"),
               ("fields", .arr [.obj [("id", .int 9), ("name", .str "f")]])],
         .obj [("id", .int 2), ("name", .str "b"),
               ("fields", .arr [.obj [("id", .int 8), ("name", .str "g")]])]])])]
      (fun t => if t = 5 then
        some (.obj [("tables", .arr
          [.obj [("id", .int 10), ("name", .str "a"),
                 ("fields", .arr [.obj [("id", .int 90), ("name", .str "f")]])],
           .obj [("id", .int 20), ("name", .str "b"),
                 ("fields", .arr [.obj [("id", .int 91), ("name", .str "g")]])]])])
        else none))).2.lookup (1, 9) = some 90 := by
  refine ⟨rfl, ?_⟩
  exact ((c6_resolver_monotonicity_amended
      ⟨⟨[("1", 5)], []⟩, [(1, "db")], [], []⟩
      [(1, .obj [("tables", .arr
        [.obj [("id", .int 1), ("name", .str "a"),
               ("fields", .arr [.obj [("id", .int 9), ("name", .str "f")]])],
         .obj [("id", .int 2), ("name", .str "b"),
               ("fields", .arr [.obj [("id", .int 8), ("name", .str "g")]])]])])]
      (fun t => if t = 5 then
        some (.obj [("tables", .arr
          [.obj [("id", .int 10), ("name", .str "a"),
                 ("fields", .arr [.obj [("id", .int 90), ("name", .str "f")]])],
           .obj [("id", .int 20), ("name", .str "b"),
                 ("fields", .arr [.obj [("id", .int 91), ("name", .str "g")]])]])])
        else none)
      [] (fun _ => none)
      (by decide) (by decide) (by decide) (by decide)).1 2 (1, 9) 90).2 rfl

/-- C1 amended: the rewriter is idempotent for resolver states whose maps do
not chain.  If (a) every target database id in `db_map` resolves to itself,
(b) no table-map or field-map key lives under a target database id, and
(c) no card-map value is again a card-map key, then a successful first
rewrite is a fixed point: running `remap_card_query` again on its output,
with the same resolver state and card map, returns exactly the same output.
Without these provisos a second run can raise `ValueError` (see the
counterexample, where the target database id 100 is itself unmapped). -/
theorem c1_remap_idempotent_amended (st : IDRemapperState)
    (cm : List (Int × Int)) (p p' : Json) (res : Bool)
    (hA1 : ∀ kv ∈ st.db_map.by_id, IDRemapper.resolve_db_id st kv.2 = some kv.2)
    (hA2 : ∀ kv ∈ st.db_map.by_name,
      IDRemapper.resolve_db_id st kv.2 = some kv.2)
    (hTm : ∀ kv ∈ st.table_map, kv.1.1 ∉ st.db_map.by_id.map Prod.snd ∧
      kv.1.1 ∉ st.db_map.by_name.map Prod.snd)
    (hFm : ∀ kv ∈ st.field_map, kv.1.1 ∉ st.db_map.by_id.map Prod.snd ∧
      kv.1.1 ∉ st.db_map.by_name.map Prod.snd)
    (hC : ∀ kv ∈ cm, cm.lookup kv.2 = none)
    (hrun : remap_card_query st cm p = .ok (p', res)) :
    remap_card_query st cm p' = .ok (p', res) := by
  cases p with
  | null => exact absurd hrun (by simp [remap_card_query])
  | bool b => exact absurd hrun (by simp [remap_card_query])
  | int n => exact absurd hrun (by simp [remap_card_query])
  | str s => exact absurd hrun (by simp [remap_card_query])
  | arr xs => exact absurd hrun (by simp [remap_card_query])
  | obj data0 =>
    have horig := hrun
    unfold remap_card_query at hrun
    dsimp only [] at hrun
    cases hdb0 : dget data0 "database_id" with
    | some v0 =>
      rw [hdb0] at hrun
      dsimp only [] at hrun
      cases htr0 : v0.truthy with
      | true =>
        rw [htr0, if_pos rfl] at hrun
        dsimp only [] at hrun
        rw [htr0, if_neg (show ¬(true = false) by simp)] at hrun
        cases hres : IDRemapper.resolve_db_id_any st v0 with
        | error e =>
          rw [hres] at hrun
          exact absurd hrun (by simp)
        | ok o =>
          cases o with
          | none =>
            rw [hres] at hrun
            exact absurd hrun (by simp)
          | some t =>
            rw [hres] at hrun
            dsimp only [] at hrun
            by_cases ht0 : t = 0
            · rw [if_pos ht0] at hrun
              exact absurd hrun (by simp)
            · rw [if_neg ht0] at hrun
              cases hqs : remapQueryStage st cm v0 t
                  (dget data0 "dataset_query") with
              | error e =>
                rw [hqs] at hrun
                exact absurd hrun (by simp)
              | ok q1 =>
                rw [hqs] at hrun
                dsimp only [] at hrun
                have h2 : (Json.obj (set_dataset_query q1
                    (remap_viz_entry st.field_map v0
                      (remap_result_metadata st v0
                        (remap_table_id_entry st v0
                          (remap_database_id_entry t data0))))), true)
                    = (p', res) := by simpa using hrun
                obtain ⟨h3, h4⟩ := Prod.mk.injEq _ _ _ _ |>.mp h2
                subst h3
                subst h4
                exact remap_core_second st cm hA1 hA2 hTm hFm hC data0 v0 t q1
                  hres ht0 hqs (Or.inl ⟨v0, hdb0⟩)
      | false =>
        rw [htr0, if_neg (show ¬(false = true) by simp)] at hrun
        cases hdq0 : dget data0 "dataset_query" with
        | none =>
          rw [hdq0] at hrun
          dsimp only [] at hrun
          rw [if_pos (show Json.null.truthy = false from rfl)] at hrun
          have h2 : (Json.obj data0, false) = (p', res) := by simpa using hrun
          obtain ⟨h3, h4⟩ := Prod.mk.injEq _ _ _ _ |>.mp h2
          subst h3
          subst h4
          exact horig
        | some w =>
          cases w with
          | null =>
            rw [hdq0] at hrun
            exact absurd hrun (by simp)
          | bool b =>
            rw [hdq0] at hrun
            exact absurd hrun (by simp)
          | int n =>
            rw [hdq0] at hrun
            exact absurd hrun (by simp)
          | str s =>
            rw [hdq0] at hrun
            exact absurd hrun (by simp)
          | arr ys =>
            rw [hdq0] at hrun
            exact absurd hrun (by simp)
          | obj q =>
            rw [hdq0] at hrun
            dsimp only [] at hrun
            cases htrv : ((dget q "database").getD Json.null).truthy with
            | false =>
              rw [htrv, if_pos rfl] at hrun
              have h2 : (Json.obj data0, false) = (p', res) := by
                simpa using hrun
              obtain ⟨h3, h4⟩ := Prod.mk.injEq _ _ _ _ |>.mp h2
              subst h3
              subst h4
              exact horig
            | true =>
              rw [htrv, if_neg (show ¬(true = false) by simp)] at hrun
              cases hres : IDRemapper.resolve_db_id_any st
                  ((dget q "database").getD Json.null) with
              | error e =>
                rw [hres] at hrun
                exact absurd hrun (by simp)
              | ok o =>
                cases o with
                | none =>
                  rw [hres] at hrun
                  exact absurd hrun (by simp)
                | some t =>
                  rw [hres] at hrun
                  dsimp only [] at hrun
                  by_cases ht0 : t = 0
                  · rw [if_pos ht0] at hrun
                    exact absurd hrun (by simp)
                  · rw [if_neg ht0] at hrun
                    cases hqs : remapQueryStage st cm
                        ((dget q "database").getD Json.null) t
                        (some (Json.obj q)) with
                    | error e =>
                      rw [hqs] at hrun
                      exact absurd hrun (by simp)
                    | ok q1 =>
                      rw [hqs] at hrun
                      dsimp only [] at hrun
                      have h2 : (Json.obj (set_dataset_query q1
                          (remap_viz_entry st.field_map
                            ((dget q "database").getD Json.null)
                            (remap_result_metadata st
                              ((dget q "database").getD Json.null)
                              (remap_table_id_entry st
                                ((dget q "database").getD Json.null)
                                (remap_database_id_entry t data0))))), true)
                          = (p', res) := by simpa using hrun
                      obtain ⟨h3, h4⟩ := Prod.mk.injEq _ _ _ _ |>.mp h2
                      subst h3
                      subst h4
                      exact remap_core_second st cm hA1 hA2 hTm hFm hC data0
                        ((dget q "database").getD Json.null) t q1 hres ht0
                        (by rw [hdq0]; exact hqs)
                        (Or.inr (by rw [hdq0]; simp))
    | none =>
      rw [hdb0] at hrun
      dsimp only [] at hrun
      cases hdq0 : dget data0 "dataset_query" with
      | none =>
        rw [hdq0] at hrun
        dsimp only [] at hrun
        rw [if_pos (show Json.null.truthy = false from rfl)] at hrun
        have h2 : (Json.obj data0, false) = (p', res) := by simpa using hrun
        obtain ⟨h3, h4⟩ := Prod.mk.injEq _ _ _ _ |>.mp h2
        subst h3
        subst h4
        exact horig
      | some w =>
        cases w with
        | null =>
          rw [hdq0] at hrun
          exact absurd hrun (by simp)
        | bool b =>
          rw [hdq0] at hrun
          exact absurd hrun (by simp)
        | int n =>
          rw [hdq0] at hrun
          exact absurd hrun (by simp)
        | str s =>
          rw [hdq0] at hrun
          exact absurd hrun (by simp)
        | arr ys =>
          rw [hdq0] at hrun
          exact absurd hrun (by simp)
        | obj q =>
          rw [hdq0] at hrun
          dsimp only [] at hrun
          cases htrv : ((dget q "database").getD Json.null).truthy with
          | false =>
            rw [htrv, if_pos rfl] at hrun
            have h2 : (Json.obj data0, false) = (p', res) := by simpa using hrun
            obtain ⟨h3, h4⟩ := Prod.mk.injEq _ _ _ _ |>.mp h2
            subst h3
            subst h4
            exact horig
          | true =>
            rw [htrv, if_neg (show ¬(true = false) by simp)] at hrun
            cases hres : IDRemapper.resolve_db_id_any st
                ((dget q "database").getD Json.null) with
            | error e =>
              rw [hres] at hrun
              exact absurd hrun (by simp)
            | ok o =>
              cases o with
              | none =>
                rw [hres] at hrun
                exact absurd hrun (by simp)
              | some t =>
                rw [hres] at hrun
                dsimp only [] at hrun
                by_cases ht0 : t = 0
                · rw [if_pos ht0] at hrun
                  exact absurd hrun (by simp)
                · rw [if_neg ht0] at hrun
                  cases hqs : remapQueryStage st cm
                      ((dget q "database").getD Json.null) t
                      (some (Json.obj q)) with
                  | error e =>
                    rw [hqs] at hrun
                    exact absurd hrun (by simp)
                  | ok q1 =>
                    rw [hqs] at hrun
                    dsimp only [] at hrun
                    have h2 : (Json.obj (set_dataset_query q1
                        (remap_viz_entry st.field_map
                          ((dget q "database").getD Json.null)
                          (remap_result_metadata st
                            ((dget q "database").getD Json.null)
                            (remap_table_id_entry st
                              ((dget q "database").getD Json.null)
                              (remap_database_id_entry t data0))))), true)
                        = (p', res) := by simpa using hrun
                    obtain ⟨h3, h4⟩ := Prod.mk.injEq _ _ _ _ |>.mp h2
                    subst h3
                    subst h4
                    exact remap_core_second st cm hA1 hA2 hTm hFm hC data0
                      ((dget q "database").getD Json.null) t q1 hres ht0
                      (by rw [hdq0]; exact hqs)
                      (Or.inr (by rw [hdq0]; simp))

/-- C1 amended, witness: a state satisfying the provisos (`1 -> 100` with
`100 -> 100`, table map `(1, 7) -> 70`, field map `(1, 9) -> 90`, card map
`50 -> 500`) rewrites a card payload once, and the second run reproduces the
rewritten payload exactly. -/
theorem c1_remap_idempotent_amended_witness :
    remap_card_query
      ⟨⟨[("1", 100), ("100", 100)], []⟩, [], [((1, 7), 70)], [((1, 9), 90)]⟩
      [(50, 500)]
      (.obj [("database_id", .int 1), ("table_id", .int 7),
        ("dataset_query", .obj [("database", .int 1),
          ("query", .obj [("source-table", .str "card__50")])])])
      = .ok (.obj [("database_id", .int 100), ("table_id", .int 70),
        ("dataset_query", .obj [("database", .int 100),
          ("query", .obj [("source-table", .str "card__500")])])], true) ∧
    remap_card_query
      ⟨⟨[("1", 100), ("100", 100)], []⟩, [], [((1, 7), 70)], [((1, 9), 90)]⟩
      [(50, 500)]
      (.obj [("database_id", .int 100), ("table_id", .int 70),
        ("dataset_query", .obj [("database", .int 100),
          ("query", .obj [("source-table", .str "card__500")])])])
      = .ok (.obj [("database_id", .int 100), ("table_id", .int 70),
        ("dataset_query", .obj [("database", .int 100),
          ("query", .obj [("source-table", .str "card__500")])])], true) := by
  constructor
  · rfl
  · exact c1_remap_idempotent_amended
      ⟨⟨[("1", 100), ("100", 100)], []⟩, [], [((1, 7), 70)], [((1, 9), 90)]⟩
      [(50, 500)]
      (.obj [("database_id", .int 1), ("table_id", .int 7),
        ("dataset_query", .obj [("database", .int 1),
          ("query", .obj [("source-table", .str "card__50")])])])
      (.obj [("database_id", .int 100), ("table_id", .int 70),
        ("dataset_query", .obj [("database", .int 100),
          ("query", .obj [("source-table", .str "card__500")])])])
      true
      (by decide) (by decide) (by decide) (by decide) (by decide) (by rfl)

/-! Frame lemmas for the mutable-heap model (claim C9). -/

theorem alookup_mem {a : Nat} {l : List (Nat × PObj)} {o : PObj}
    (h : alookup a l = some o) : (a, o) ∈ l := by
  induction l with
  | nil => simp [alookup] at h
  | cons x rest ih =>
    obtain ⟨a1, o1⟩ := x
    by_cases he : a1 = a
    · subst he
      simp [alookup] at h
      subst h
      exact List.mem_cons_self _ _
    · rw [show alookup a ((a1, o1) :: rest) = alookup a rest by
        simp [alookup, he]] at h
      exact List.mem_cons_of_mem _ (ih h)

theorem lookupCell_writeCell (s : Store) (a : Nat) (o : PObj) (b : Nat) :
    lookupCell (writeCell s a o) b = if a = b then some o else lookupCell s b := by
  simp [lookupCell, writeCell, alookup]

theorem writeCell_next (s : Store) (a : Nat) (o : PObj) :
    (writeCell s a o).next = s.next := rfl

theorem dictSetCell_next (s : Store) (a : Nat) (k : String) (v : PVal) :
    (dictSetCell s a k v).next = s.next := by
  unfold dictSetCell
  cases h : lookupCell s a with
  | none => rfl
  | some o => cases o <;> rfl

theorem agreeBelow_refl (n : Nat) (s : Store) : agreeBelow n s s :=
  fun _ _ => rfl

theorem agreeBelow_trans {n : Nat} {s1 s2 s3 : Store}
    (h1 : agreeBelow n s1 s2) (h2 : agreeBelow n s2 s3) : agreeBelow n s1 s3 :=
  fun a ha => (h2 a ha).trans (h1 a ha)

theorem stepOK_refl {n : Nat} {s : Store} (hi : regionInv n s) : stepOK n s s :=
  ⟨agreeBelow_refl n s, hi⟩

theorem stepOK_trans {n : Nat} {s1 s2 s3 : Store}
    (h1 : stepOK n s1 s2) (h2 : stepOK n s2 s3) : stepOK n s1 s3 :=
  ⟨agreeBelow_trans h1.1 h2.1, h2.2⟩

theorem valsRefs_of_mem {v : PVal} {xs : List PVal} {r : Nat}
    (hv : v ∈ xs) (hr : r ∈ valRefs v) : r ∈ valsRefs xs := by
  induction xs with
  | nil => cases hv
  | cons x rest ih =>
    rcases List.mem_cons.mp hv with h | h
    · subst h
      exact List.mem_append_left _ hr
    · exact List.mem_append_right _ (ih h)

theorem kvalsRefs_of_mem {kv : String × PVal} {kvs : List (String × PVal)}
    {r : Nat} (hv : kv ∈ kvs) (hr : r ∈ valRefs kv.2) : r ∈ kvalsRefs kvs := by
  induction kvs with
  | nil => cases hv
  | cons x rest ih =>
    rcases List.mem_cons.mp hv with h | h
    · subst h
      exact List.mem_append_left _ hr
    · exact List.mem_append_right _ (ih h)

theorem valsRefs_forall {n : Nat} {xs : List PVal}
    (h : ∀ v ∈ xs, ∀ r ∈ valRefs v, n ≤ r) :
    ∀ r ∈ valsRefs xs, n ≤ r := by
  induction xs with
  | nil => intro r hr; cases hr
  | cons x rest ih =>
    intro r hr
    rcases List.mem_append.mp hr with h1 | h1
    · exact h x (List.mem_cons_self _ _) r h1
    · exact ih (fun v hv => h v (List.mem_cons_of_mem _ hv)) r h1

theorem kvalsRefs_forall {n : Nat} {kvs : List (String × PVal)}
    (h : ∀ kv ∈ kvs, ∀ r ∈ valRefs kv.2, n ≤ r) :
    ∀ r ∈ kvalsRefs kvs, n ≤ r := by
  induction kvs with
  | nil => intro r hr; cases hr
  | cons x rest ih =>
    intro r hr
    rcases List.mem_append.mp hr with h1 | h1
    · exact h x (List.mem_cons_self _ _) r h1
    · exact ih (fun kv hv => h kv (List.mem_cons_of_mem _ hv)) r h1

theorem dlookupV_refs {k : String} {kvs : List (String × PVal)} {v : PVal}
    (h : dlookupV k kvs = some v) : ∀ r ∈ valRefs v, r ∈ kvalsRefs kvs := by
  induction kvs with
  | nil => simp [dlookupV] at h
  | cons x rest ih =>
    obtain ⟨k1, v1⟩ := x
    by_cases he : k1 = k
    · subst he
      simp [dlookupV] at h
      subst h
      intro r hr
      exact List.mem_append_left _ hr
    · rw [show dlookupV k ((k1, v1) :: rest) = dlookupV k rest by
        simp [dlookupV, he]] at h
      intro r hr
      exact List.mem_append_right _ (ih h r hr)

theorem pyInsert_kvalsRefs {kvs : List (String × PVal)} {k : String} {v : PVal}
    {r : Nat} (h : r ∈ kvalsRefs (pyInsert kvs k v)) :
    r ∈ kvalsRefs kvs ∨ r ∈ valRefs v := by
  induction kvs with
  | nil =>
    simp only [pyInsert, kvalsRefs] at h
    rcases List.mem_append.mp h with h1 | h1
    · exact Or.inr h1
    · cases h1
  | cons x rest ih =>
    obtain ⟨k1, v1⟩ := x
    by_cases he : k1 = k
    · subst he
      simp only [pyInsert, if_pos rfl, kvalsRefs] at h
      rcases List.mem_append.mp h with h1 | h1
      · exact Or.inr h1
      · exact Or.inl (List.mem_append_right _ h1)
    · rw [show pyInsert ((k1, v1) :: rest) k v
          = (k1, v1) :: pyInsert rest k v by simp [pyInsert, he]] at h
      rcases List.mem_append.mp h with h1 | h1
      · exact Or.inl (List.mem_append_left _ h1)
      · rcases ih h1 with h2 | h2
        · exact Or.inl (List.mem_append_right _ h2)
        · exact Or.inr h2

theorem dictSetCell_agreeBelow {n : Nat} (s : Store) (a : Nat) (k : String)
    (v : PVal) (ha : n ≤ a) : agreeBelow n s (dictSetCell s a k v) := by
  unfold dictSetCell
  cases h : lookupCell s a with
  | none => exact agreeBelow_refl n s
  | some o =>
    cases o with
    | plist xs => exact agreeBelow_refl n s
    | pdict kvs =>
      intro b hb
      rw [lookupCell_writeCell]
      rw [if_neg (by omega)]

theorem dictSetCell_regionClosed {n : Nat} {s : Store} (a : Nat) (k : String)
    (v : PVal) (hc : regionClosed n s) (ha : n ≤ a)
    (hv : ∀ r ∈ valRefs v, n ≤ r) : regionClosed n (dictSetCell s a k v) := by
  unfold dictSetCell
  cases h : lookupCell s a with
  | none => exact hc
  | some o =>
    cases o with
    | plist xs => exact hc
    | pdict kvs =>
      intro b o1 hb hnb r hr
      rw [lookupCell_writeCell] at hb
      by_cases he : a = b
      · rw [if_pos he] at hb
        cases hb
        rcases pyInsert_kvalsRefs hr with h1 | h1
        · exact hc a _ h ha r h1
        · exact hv r h1
      · rw [if_neg he] at hb
        exact hc b o1 hb hnb r hr

theorem dictSetCell_stepOK {n : Nat} {s : Store} (a : Nat) (k : String)
    (v : PVal) (hi : regionInv n s) (ha : n ≤ a)
    (hv : ∀ r ∈ valRefs v, n ≤ r) : stepOK n s (dictSetCell s a k v) := by
  refine ⟨dictSetCell_agreeBelow s a k v ha, ?_, ?_⟩
  · rw [dictSetCell_next]; exact hi.1
  · exact dictSetCell_regionClosed a k v hi.2 ha hv

theorem alloc_fst (s : Store) (o : PObj) : (alloc s o).1 = s.next := rfl

theorem alloc_next (s : Store) (o : PObj) : (alloc s o).2.next = s.next + 1 := rfl

theorem lookupCell_alloc (s : Store) (o : PObj) (b : Nat) :
    lookupCell (alloc s o).2 b = if s.next = b then some o else lookupCell s b := by
  simp [lookupCell, alloc, alookup]

theorem alloc_stepOK {n : Nat} {s : Store} (o : PObj) (hi : regionInv n s)
    (ho : ∀ r ∈ objRefs o, n ≤ r) : stepOK n s (alloc s o).2 := by
  have hn : n ≤ s.next := hi.1
  refine ⟨?_, ?_, ?_⟩
  · intro b hb
    rw [lookupCell_alloc]
    rw [if_neg (by omega)]
  · rw [alloc_next]; omega
  · intro b o1 hb hnb r hr
    rw [lookupCell_alloc] at hb
    by_cases he : s.next = b
    · rw [if_pos he] at hb
      cases hb
      exact ho r hr
    · rw [if_neg he] at hb
      exact hi.2 b o1 hb hnb r hr

theorem dictGetCell_region_val {n : Nat} {s : Store} {a : Nat} {k : String}
    {v : PVal} (hc : regionClosed n s) (ha : n ≤ a)
    (h : dictGetCell s a k = some v) : ∀ r ∈ valRefs v, n ≤ r := by
  unfold dictGetCell at h
  cases hl : lookupCell s a with
  | none => rw [hl] at h; cases h
  | some o =>
    cases o with
    | plist xs => rw [hl] at h; cases h
    | pdict kvs =>
      rw [hl] at h
      intro r hr
      exact hc a _ hl ha r (dlookupV_refs h r hr)

theorem lookupCell_plist_region {n : Nat} {s : Store} {a : Nat} {xs : List PVal}
    (hc : regionClosed n s) (ha : n ≤ a)
    (h : lookupCell s a = some (.plist xs)) :
    ∀ v ∈ xs, ∀ r ∈ valRefs v, n ≤ r := by
  intro v hv r hr
  exact hc a _ h ha r (valsRefs_of_mem hv hr)

theorem lookupCell_pdict_region {n : Nat} {s : Store} {a : Nat}
    {kvs : List (String × PVal)} (hc : regionClosed n s) (ha : n ≤ a)
    (h : lookupCell s a = some (.pdict kvs)) :
    ∀ kv ∈ kvs, ∀ r ∈ valRefs kv.2, n ≤ r := by
  intro kv hv r hr
  exact hc a _ h ha r (kvalsRefs_of_mem hv hr)

theorem storeWF_regionClosed {s : Store} (h : storeWF s) :
    regionClosed s.next s := by
  intro a o hl ha r _
  exact absurd (h.1 (a, o) (alookup_mem hl)) (by omega)

theorem storeWF_regionInv {s : Store} (h : storeWF s) : regionInv s.next s :=
  ⟨le_refl _, storeWF_regionClosed h⟩

theorem storeWF_cell_refs {s : Store} (h : storeWF s) {a : Nat} {o : PObj}
    (hl : lookupCell s a = some o) : ∀ r ∈ objRefs o, r < s.next :=
  h.2 (a, o) (alookup_mem hl)

theorem mapM_option_congr {α β : Type} (f g : α → Option β) :
    ∀ l : List α, (∀ x ∈ l, f x = g x) → l.mapM f = l.mapM g := by
  intro l
  induction l with
  | nil => intro _; rfl
  | cons x xs ih =>
    intro h
    rw [List.mapM_cons, List.mapM_cons, h x (List.mem_cons_self _ _),
      ih (fun y hy => h y (List.mem_cons_of_mem _ hy))]

theorem decodeVal_agree {n : Nat} {s s1 : Store} (hag : agreeBelow n s s1)
    (hcells : ∀ a o, lookupCell s a = some o → ∀ r ∈ objRefs o, r < n) :
    ∀ fuel v, (∀ r ∈ valRefs v, r < n) →
      decodeVal s1 fuel v = decodeVal s fuel v := by
  intro fuel
  induction fuel with
  | zero =>
    intro v _
    cases v <;> rfl
  | succ fuel ih =>
    intro v hv
    cases v with
    | pnull => rfl
    | pbool b => rfl
    | pint m => rfl
    | pstr t => rfl
    | pref a =>
      have ha : a < n := hv a (by simp [valRefs])
      simp only [decodeVal]
      rw [hag a ha]
      cases hl : lookupCell s a with
      | none => rfl
      | some o =>
        cases o with
        | plist xs =>
          dsimp only []
          rw [mapM_option_congr _ _ xs (fun x hx => ih x
            (fun r hr => hcells a _ hl r (valsRefs_of_mem hx hr)))]
        | pdict kvs =>
          dsimp only []
          rw [mapM_option_congr _ _ kvs (fun kv hkv => by
            rw [ih kv.2 (fun r hr => hcells a _ hl r (kvalsRefs_of_mem hkv hr))])]

theorem encode_spec (n : Nat) :
    ∀ N : Nat,
      (∀ j : Json, sizeOf j ≤ N → ∀ s : Store, regionInv n s →
        stepOK n s (encodeVal j s).2 ∧ s.next ≤ (encodeVal j s).2.next ∧
        ∀ r ∈ valRefs (encodeVal j s).1, n ≤ r) ∧
      (∀ l : List Json, sizeOf l ≤ N → ∀ s : Store, regionInv n s →
        stepOK n s (encodeList l s).2 ∧ s.next ≤ (encodeList l s).2.next ∧
        ∀ v ∈ (encodeList l s).1, ∀ r ∈ valRefs v, n ≤ r) ∧
      (∀ kvs : List (String × Json), sizeOf kvs ≤ N → ∀ s : Store,
        regionInv n s →
        stepOK n s (encodeObj kvs s).2 ∧ s.next ≤ (encodeObj kvs s).2.next ∧
        ∀ kv ∈ (encodeObj kvs s).1, ∀ r ∈ valRefs kv.2, n ≤ r) := by
  intro N
  induction N with
  | zero =>
    refine ⟨?_, ?_, ?_⟩ <;> intro x hx <;> exfalso <;> cases x <;> simp at hx
  | succ N ih =>
    obtain ⟨ihJ, ihL, ihO⟩ := ih
    refine ⟨?_, ?_, ?_⟩
    · intro j hle s hi
      cases j with
      | null => exact ⟨stepOK_refl hi, le_refl _, by simp [encodeVal, valRefs]⟩
      | bool b => exact ⟨stepOK_refl hi, le_refl _, by simp [encodeVal, valRefs]⟩
      | int m => exact ⟨stepOK_refl hi, le_refl _, by simp [encodeVal, valRefs]⟩
      | str t => exact ⟨stepOK_refl hi, le_refl _, by simp [encodeVal, valRefs]⟩
      | arr xs =>
        have hsz : sizeOf xs ≤ N := by
          simp only [Json.arr.sizeOf_spec] at hle
          omega
        obtain ⟨hstep, hnext, hrefs⟩ := ihL xs hsz s hi
        have ho : ∀ r ∈ objRefs (.plist (encodeList xs s).1), n ≤ r := by
          simpa [objRefs] using valsRefs_forall hrefs
        have halloc := alloc_stepOK (s := (encodeList xs s).2)
          (.plist (encodeList xs s).1) hstep.2 ho
        simp only [encodeVal]
        refine ⟨stepOK_trans hstep halloc, ?_, ?_⟩
        · rw [alloc_next]
          omega
        · intro r hr
          simp only [alloc_fst, valRefs, List.mem_singleton] at hr
          subst hr
          exact hstep.2.1
      | obj kvs =>
        have hsz : sizeOf kvs ≤ N := by
          simp only [Json.obj.sizeOf_spec] at hle
          omega
        obtain ⟨hstep, hnext, hrefs⟩ := ihO kvs hsz s hi
        have ho : ∀ r ∈ objRefs (.pdict (encodeObj kvs s).1), n ≤ r := by
          simpa [objRefs] using kvalsRefs_forall hrefs
        have halloc := alloc_stepOK (s := (encodeObj kvs s).2)
          (.pdict (encodeObj kvs s).1) hstep.2 ho
        simp only [encodeVal]
        refine ⟨stepOK_trans hstep halloc, ?_, ?_⟩
        · rw [alloc_next]
          omega
        · intro r hr
          simp only [alloc_fst, valRefs, List.mem_singleton] at hr
          subst hr
          exact hstep.2.1
    · intro l hle s hi
      cases l with
      | nil =>
        exact ⟨stepOK_refl hi, le_refl _, by simp [encodeList]⟩
      | cons x xs =>
        have hx : sizeOf x ≤ N := by
          simp only [List.cons.sizeOf_spec] at hle
          omega
        have hxs : sizeOf xs ≤ N := by
          simp only [List.cons.sizeOf_spec] at hle
          omega
        obtain ⟨hstep1, hnext1, hrefs1⟩ := ihJ x hx s hi
        obtain ⟨hstep2, hnext2, hrefs2⟩ := ihL xs hxs (encodeVal x s).2 hstep1.2
        simp only [encodeList]
        refine ⟨stepOK_trans hstep1 hstep2, by omega, ?_⟩
        intro v hv r hr
        rcases List.mem_cons.mp hv with h1 | h1
        · subst h1
          exact hrefs1 r hr
        · exact hrefs2 v h1 r hr
    · intro kvs hle s hi
      cases kvs with
      | nil =>
        exact ⟨stepOK_refl hi, le_refl _, by simp [encodeObj]⟩
      | cons kv rest =>
        obtain ⟨k, x⟩ := kv
        have hx : sizeOf x ≤ N := by
          simp only [List.cons.sizeOf_spec, Prod.mk.sizeOf_spec] at hle
          omega
        have hrest : sizeOf rest ≤ N := by
          simp only [List.cons.sizeOf_spec] at hle
          omega
        obtain ⟨hstep1, hnext1, hrefs1⟩ := ihJ x hx s hi
        obtain ⟨hstep2, hnext2, hrefs2⟩ := ihO rest hrest (encodeVal x s).2 hstep1.2
        simp only [encodeObj]
        refine ⟨stepOK_trans hstep1 hstep2, by omega, ?_⟩
        intro kv1 hkv r hr
        rcases List.mem_cons.mp hkv with h1 | h1
        · subst h1
          exact hrefs1 r hr
        · exact hrefs2 kv1 h1 r hr

theorem encodeVal_stepOK {n : Nat} (j : Json) (s : Store) (hi : regionInv n s) :
    stepOK n s (encodeVal j s).2 ∧ s.next ≤ (encodeVal j s).2.next ∧
      ∀ r ∈ valRefs (encodeVal j s).1, n ≤ r :=
  (encode_spec n (sizeOf j)).1 j (le_refl _) s hi

theorem remapFieldsHeap_stepOK {n : Nat} {fm : List ((Int × Int) × Int)}
    {dbv : PVal} {fuel : Nat} {s : Store} {v : PVal} {p : PVal × Store}
    (hi : regionInv n s) (h : remapFieldsHeap fm dbv fuel s v = some p) :
    stepOK n s p.2 ∧ ∀ r ∈ valRefs p.1, n ≤ r := by
  unfold remapFieldsHeap at h
  cases hd : decodeVal s fuel v with
  | none => rw [hd] at h; cases h
  | some j =>
    rw [hd] at h
    dsimp only [] at h
    have h1 := Option.some.inj h
    subst h1
    obtain ⟨hs, _, hr⟩ := encodeVal_stepOK
      (remap_field_ids_recursively fm (pvalScalarJson dbv) j) s hi
    exact ⟨hs, hr⟩

theorem remap_source_table_heap_stepOK {n : Nat} (st : IDRemapperState)
    (card_map : List (Int × Int)) (dbv : PVal) (s : Store) (aIq : Nat)
    (hi : regionInv n s) (ha : n ≤ aIq) :
    stepOK n s (remap_source_table_heap st card_map dbv s aIq) := by
  unfold remap_source_table_heap
  repeat' split
  all_goals first
    | exact stepOK_refl hi
    | exact dictSetCell_stepOK _ _ _ hi ha (by simp [valRefs])

theorem remap_table_id_heap_stepOK {n : Nat} (st : IDRemapperState)
    (dbv : PVal) (s : Store) (aData : Nat) (hi : regionInv n s)
    (ha : n ≤ aData) : stepOK n s (remap_table_id_heap st dbv s aData) := by
  unfold remap_table_id_heap
  repeat' split
  all_goals first
    | exact stepOK_refl hi
    | exact dictSetCell_stepOK _ _ _ hi ha (by simp [valRefs])

theorem remap_meta_id_heap_stepOK {n : Nat} (st : IDRemapperState)
    (dbv : PVal) (s : Store) (aC : Nat) (hi : regionInv n s) (ha : n ≤ aC) :
    stepOK n s (remap_meta_id_heap st dbv s aC) := by
  unfold remap_meta_id_heap
  repeat' split
  all_goals first
    | exact stepOK_refl hi
    | exact dictSetCell_stepOK _ _ _ hi ha (by simp [valRefs])

theorem remap_join_item_heap_stepOK {n : Nat} {st : IDRemapperState}
    {card_map : List (Int × Int)} {dbv : PVal} {s : Store} {j : PVal}
    {s1 : Store} (hi : regionInv n s) (hj : ∀ r ∈ valRefs j, n ≤ r)
    (h : remap_join_item_heap st card_map dbv s j = .ok s1) :
    stepOK n s s1 := by
  cases j with
  | pref aJ =>
    have ha : n ≤ aJ := hj aJ (by simp [valRefs])
    unfold remap_join_item_heap at h
    dsimp only [] at h
    cases h0 : lookupCell s aJ with
    | none => rw [h0] at h; simp at h
    | some o =>
      cases o with
      | plist xs => rw [h0] at h; simp at h
      | pdict kvs =>
        rw [h0] at h
        dsimp only [] at h
        have h1 := Except.ok.inj h
        subst h1
        repeat' split
        all_goals first
          | exact stepOK_refl hi
          | exact dictSetCell_stepOK _ _ _ hi ha (by simp [valRefs])
  | pnull => simp [remap_join_item_heap] at h
  | pbool b => simp [remap_join_item_heap] at h
  | pint m => simp [remap_join_item_heap] at h
  | pstr t => simp [remap_join_item_heap] at h

theorem remap_joins_list_heap_stepOK {n : Nat} {st : IDRemapperState}
    {card_map : List (Int × Int)} {dbv : PVal} :
    ∀ (js : List PVal) (s s1 : Store), regionInv n s →
      (∀ v ∈ js, ∀ r ∈ valRefs v, n ≤ r) →
      remap_joins_list_heap st card_map dbv s js = .ok s1 → stepOK n s s1 := by
  intro js
  induction js with
  | nil =>
    intro s s1 hi _ h
    simp only [remap_joins_list_heap] at h
    have h1 := Except.ok.inj h
    subst h1
    exact stepOK_refl hi
  | cons j rest ih =>
    intro s s1 hi hrefs h
    simp only [remap_joins_list_heap] at h
    cases hitem : remap_join_item_heap st card_map dbv s j with
    | error e => rw [hitem] at h; simp at h
    | ok s2 =>
      rw [hitem] at h
      have hstep1 := remap_join_item_heap_stepOK hi
        (hrefs j (List.mem_cons_self _ _)) hitem
      exact stepOK_trans hstep1
        (ih s2 s1 hstep1.2 (fun v hv => hrefs v (List.mem_cons_of_mem _ hv)) h)

theorem remap_joins_heap_stepOK {n : Nat} {st : IDRemapperState}
    {card_map : List (Int × Int)} {dbv : PVal} {s : Store} {aIq : Nat}
    {s1 : Store} (hi : regionInv n s) (ha : n ≤ aIq)
    (h : remap_joins_heap st card_map dbv s aIq = .ok s1) : stepOK n s s1 := by
  unfold remap_joins_heap at h
  cases h0 : dictGetCell s aIq "joins" with
  | none =>
    rw [h0] at h
    have h1 := Except.ok.inj h
    subst h1
    exact stepOK_refl hi
  | some v =>
    rw [h0] at h
    cases v with
    | pref aJs =>
      dsimp only [] at h
      have haJs : n ≤ aJs :=
        dictGetCell_region_val hi.2 ha h0 aJs (by simp [valRefs])
      cases h1 : lookupCell s aJs with
      | none =>
        rw [h1] at h
        dsimp only [] at h
        have h2 := Except.ok.inj h
        subst h2
        exact stepOK_refl hi
      | some o =>
        cases o with
        | plist js =>
          rw [h1] at h
          dsimp only [] at h
          exact remap_joins_list_heap_stepOK js s s1 hi
            (lookupCell_plist_region hi.2 haJs h1) h
        | pdict kvs =>
          rw [h1] at h
          dsimp only [] at h
          split at h
          · have h2 := Except.ok.inj h
            subst h2
            exact stepOK_refl hi
          · simp at h
    | pnull => simp at h
    | pbool b => simp at h
    | pint m => simp at h
    | pstr t =>
      dsimp only [] at h
      split at h
      · have h2 := Except.ok.inj h
        subst h2
        exact stepOK_refl hi
      · simp at h

theorem remap_clause_key_heap_stepOK {n : Nat} {fm : List ((Int × Int) × Int)}
    {dbv : PVal} {fuel : Nat} {s : Store} {aIq : Nat} {k : String} {s1 : Store}
    (hi : regionInv n s) (ha : n ≤ aIq)
    (h : remap_clause_key_heap fm dbv fuel s aIq k = some s1) :
    stepOK n s s1 := by
  unfold remap_clause_key_heap at h
  cases h0 : dictGetCell s aIq k with
  | none =>
    rw [h0] at h
    have h1 := Option.some.inj h
    subst h1
    exact stepOK_refl hi
  | some v =>
    rw [h0] at h
    dsimp only [] at h
    cases h1 : remapFieldsHeap fm dbv fuel s v with
    | none => rw [h1] at h; cases h
    | some p =>
      rw [h1] at h
      dsimp only [] at h
      have h2 := Option.some.inj h
      subst h2
      obtain ⟨hs, hr⟩ := remapFieldsHeap_stepOK hi h1
      exact stepOK_trans hs (dictSetCell_stepOK _ _ _ hs.2 ha hr)

theorem remap_query_clauses_heap_stepOK {n : Nat} {fm : List ((Int × Int) × Int)}
    {dbv : PVal} {fuel : Nat} :
    ∀ (ks : List String) (s : Store) (aIq : Nat) (s1 : Store), regionInv n s →
      n ≤ aIq → remap_query_clauses_heap fm dbv fuel s aIq ks = some s1 →
      stepOK n s s1 := by
  intro ks
  induction ks with
  | nil =>
    intro s aIq s1 hi _ h
    simp only [remap_query_clauses_heap] at h
    have h1 := Option.some.inj h
    subst h1
    exact stepOK_refl hi
  | cons k rest ih =>
    intro s aIq s1 hi ha h
    simp only [remap_query_clauses_heap] at h
    cases h0 : remap_clause_key_heap fm dbv fuel s aIq k with
    | none => rw [h0] at h; cases h
    | some s2 =>
      rw [h0] at h
      have hstep1 := remap_clause_key_heap_stepOK hi ha h0
      exact stepOK_trans hstep1 (ih s2 aIq s1 hstep1.2 ha h)

theorem remap_metadata_item_heap_stepOK {n : Nat} {st : IDRemapperState}
    {dbv : PVal} {fuel : Nat} {s : Store} {item : PVal} {p : PVal × Store}
    (hi : regionInv n s) (hitem : ∀ r ∈ valRefs item, n ≤ r)
    (h : remap_metadata_item_heap st dbv fuel s item = some p) :
    stepOK n s p.2 ∧ ∀ r ∈ valRefs p.1, n ≤ r := by
  cases item with
  | pref aI =>
    have ha : n ≤ aI := hitem aI (by simp [valRefs])
    unfold remap_metadata_item_heap at h
    dsimp only [] at h
    cases h0 : lookupCell s aI with
    | none =>
      rw [h0] at h
      dsimp only [] at h
      have h1 := Option.some.inj h
      rw [show p = (PVal.pref aI, s) from h1.symm]
      exact ⟨stepOK_refl hi, hitem⟩
    | some o =>
      cases o with
      | plist xs =>
        rw [h0] at h
        dsimp only [] at h
        have h1 := Option.some.inj h
        rw [show p = (PVal.pref aI, s) from h1.symm]
        exact ⟨stepOK_refl hi, hitem⟩
      | pdict kvs =>
        rw [h0] at h
        dsimp only [] at h
        have hobj : ∀ r ∈ objRefs (.pdict kvs), n ≤ r := hi.2 aI _ h0 ha
        have halloc := alloc_stepOK (s := s) (.pdict kvs) hi hobj
        have haC : n ≤ (alloc s (.pdict kvs)).1 := by
          rw [alloc_fst]
          exact hi.1
        cases h1 : remap_clause_key_heap st.field_map dbv fuel
            (alloc s (.pdict kvs)).2 (alloc s (.pdict kvs)).1 "field_ref" with
        | none => rw [h1] at h; cases h
        | some s2 =>
          rw [h1] at h
          dsimp only [] at h
          have hstep2 := remap_clause_key_heap_stepOK halloc.2 haC h1
          have hstep3 := remap_meta_id_heap_stepOK st dbv s2
            (alloc s (.pdict kvs)).1 hstep2.2 haC
          have hstep4 := remap_table_id_heap_stepOK st dbv
            (remap_meta_id_heap st dbv s2 (alloc s (.pdict kvs)).1)
            (alloc s (.pdict kvs)).1 hstep3.2 haC
          have h2 := Option.some.inj h
          rw [show p = (PVal.pref (alloc s (.pdict kvs)).1,
            remap_table_id_heap st dbv
              (remap_meta_id_heap st dbv s2 (alloc s (.pdict kvs)).1)
              (alloc s (.pdict kvs)).1) from h2.symm]
          refine ⟨stepOK_trans halloc
            (stepOK_trans hstep2 (stepOK_trans hstep3 hstep4)), ?_⟩
          intro r hr
          simp only [valRefs, List.mem_singleton] at hr
          subst hr
          exact haC
  | pnull =>
    simp only [remap_metadata_item_heap] at h
    have h1 := Option.some.inj h
    rw [show p = (PVal.pnull, s) from h1.symm]
    exact ⟨stepOK_refl hi, hitem⟩
  | pbool b =>
    simp only [remap_metadata_item_heap] at h
    have h1 := Option.some.inj h
    rw [show p = (PVal.pbool b, s) from h1.symm]
    exact ⟨stepOK_refl hi, hitem⟩
  | pint m =>
    simp only [remap_metadata_item_heap] at h
    have h1 := Option.some.inj h
    rw [show p = (PVal.pint m, s) from h1.symm]
    exact ⟨stepOK_refl hi, hitem⟩
  | pstr t =>
    simp only [remap_metadata_item_heap] at h
    have h1 := Option.some.inj h
    rw [show p = (PVal.pstr t, s) from h1.symm]
    exact ⟨stepOK_refl hi, hitem⟩

theorem remap_metadata_list_heap_stepOK {n : Nat} {st : IDRemapperState}
    {dbv : PVal} {fuel : Nat} :
    ∀ (items : List PVal) (s : Store) (q : List PVal × Store),
      regionInv n s → (∀ v ∈ items, ∀ r ∈ valRefs v, n ≤ r) →
      remap_metadata_list_heap st dbv fuel s items = some q →
      stepOK n s q.2 ∧ ∀ v ∈ q.1, ∀ r ∈ valRefs v, n ≤ r := by
  intro items
  induction items with
  | nil =>
    intro s q hi _ h
    simp only [remap_metadata_list_heap] at h
    have h1 := Option.some.inj h
    rw [show q = ([], s) from h1.symm]
    exact ⟨stepOK_refl hi, by simp⟩
  | cons x rest ih =>
    intro s q hi hrefs h
    simp only [remap_metadata_list_heap] at h
    cases h0 : remap_metadata_item_heap st dbv fuel s x with
    | none => rw [h0] at h; cases h
    | some p =>
      rw [h0] at h
      dsimp only [] at h
      obtain ⟨hstep1, href1⟩ := remap_metadata_item_heap_stepOK hi
        (hrefs x (List.mem_cons_self _ _)) h0
      cases h1 : remap_metadata_list_heap st dbv fuel p.2 rest with
      | none => rw [h1] at h; cases h
      | some q1 =>
        rw [h1] at h
        dsimp only [] at h
        obtain ⟨hstep2, href2⟩ := ih p.2 q1 hstep1.2
          (fun v hv => hrefs v (List.mem_cons_of_mem _ hv)) h1
        have h2 := Option.some.inj h
        rw [show q = (p.1 :: q1.1, q1.2) from h2.symm]
        refine ⟨stepOK_trans hstep1 hstep2, ?_⟩
        intro v hv r hr
        rcases List.mem_cons.mp hv with h3 | h3
        · subst h3
          exact href1 r hr
        · exact href2 v h3 r hr

theorem remap_result_metadata_heap_stepOK {n : Nat} {st : IDRemapperState}
    {dbv : PVal} {fuel : Nat} {s : Store} {aData : Nat} {s1 : Store}
    (hi : regionInv n s) (ha : n ≤ aData)
    (h : remap_result_metadata_heap st dbv fuel s aData = some s1) :
    stepOK n s s1 := by
  unfold remap_result_metadata_heap at h
  cases h0 : dictGetCell s aData "result_metadata" with
  | none =>
    rw [h0] at h
    have h1 := Option.some.inj h
    subst h1
    exact stepOK_refl hi
  | some v =>
    rw [h0] at h
    cases v with
    | pref aM =>
      dsimp only [] at h
      have haM : n ≤ aM :=
        dictGetCell_region_val hi.2 ha h0 aM (by simp [valRefs])
      cases h1 : lookupCell s aM with
      | none =>
        rw [h1] at h
        dsimp only [] at h
        have h2 := Option.some.inj h
        subst h2
        exact stepOK_refl hi
      | some o =>
        cases o with
        | pdict kvs =>
          rw [h1] at h
          dsimp only [] at h
          have h2 := Option.some.inj h
          subst h2
          exact stepOK_refl hi
        | plist items =>
          rw [h1] at h
          dsimp only [] at h
          cases h2 : remap_metadata_list_heap st dbv fuel s items with
          | none => rw [h2] at h; cases h
          | some q =>
            rw [h2] at h
            dsimp only [] at h
            obtain ⟨hstep1, hrefs1⟩ := remap_metadata_list_heap_stepOK items s q
              hi (lookupCell_plist_region hi.2 haM h1) h2
            have halloc := alloc_stepOK (s := q.2) (.plist q.1) hstep1.2
              (by simpa [objRefs] using valsRefs_forall hrefs1)
            have h3 := Option.some.inj h
            subst h3
            refine stepOK_trans hstep1 (stepOK_trans halloc
              (dictSetCell_stepOK _ _ _ halloc.2 ha ?_))
            intro r hr
            simp only [alloc_fst, valRefs, List.mem_singleton] at hr
            subst hr
            exact hstep1.2.1
    | pnull =>
      dsimp only [] at h
      have h1 := Option.some.inj h
      subst h1
      exact stepOK_refl hi
    | pbool b =>
      dsimp only [] at h
      have h1 := Option.some.inj h
      subst h1
      exact stepOK_refl hi
    | pint m =>
      dsimp only [] at h
      have h1 := Option.some.inj h
      subst h1
      exact stepOK_refl hi
    | pstr t =>
      dsimp only [] at h
      have h1 := Option.some.inj h
      subst h1
      exact stepOK_refl hi

theorem remap_viz_heap_stepOK {n : Nat} {fm : List ((Int × Int) × Int)}
    {dbv : PVal} {fuel : Nat} {s : Store} {aData : Nat} {s1 : Store}
    (hi : regionInv n s) (ha : n ≤ aData)
    (h : remap_viz_heap fm dbv fuel s aData = some s1) : stepOK n s s1 := by
  unfold remap_viz_heap at h
  cases h0 : dictGetCell s aData "visualization_settings" with
  | none =>
    rw [h0] at h
    have h1 := Option.some.inj h
    subst h1
    exact stepOK_refl hi
  | some v =>
    rw [h0] at h
    dsimp only [] at h
    cases h1 : remapFieldsHeap fm dbv fuel s v with
    | none => rw [h1] at h; cases h
    | some p =>
      rw [h1] at h
      dsimp only [] at h
      have h2 := Option.some.inj h
      subst h2
      obtain ⟨hs, hr⟩ := remapFieldsHeap_stepOK hi h1
      exact stepOK_trans hs (dictSetCell_stepOK _ _ _ hs.2 ha hr)

theorem remap_inner_query_heap_stepOK {n : Nat} {st : IDRemapperState}
    {card_map : List (Int × Int)} {dbv : PVal} {fuel : Nat} {s : Store}
    {aQ : Nat} {rp : Option PyErr × Store} (hi : regionInv n s) (ha : n ≤ aQ)
    (h : remap_inner_query_heap st card_map dbv fuel s aQ = some rp) :
    stepOK n s rp.2 := by
  unfold remap_inner_query_heap at h
  cases h0 : dictGetCell s aQ "query" with
  | none =>
    rw [h0] at h
    have h1 := Option.some.inj h
    subst h1
    exact stepOK_refl hi
  | some v =>
    rw [h0] at h
    dsimp only [] at h
    split at h
    · have h1 := Option.some.inj h
      subst h1
      exact stepOK_refl hi
    · cases v with
      | pref aIq =>
        dsimp only [] at h
        have haIq : n ≤ aIq :=
          dictGetCell_region_val hi.2 ha h0 aIq (by simp [valRefs])
        cases h1 : lookupCell s aIq with
        | none =>
          rw [h1] at h
          dsimp only [] at h
          have h2 := Option.some.inj h
          subst h2
          exact stepOK_refl hi
        | some o =>
          cases o with
          | plist xs =>
            rw [h1] at h
            dsimp only [] at h
            have h2 := Option.some.inj h
            subst h2
            exact stepOK_refl hi
          | pdict kvs =>
            rw [h1] at h
            dsimp only [] at h
            have hstep1 := remap_source_table_heap_stepOK st card_map dbv s
              aIq hi haIq
            cases h2 : remap_joins_heap st card_map dbv
                (remap_source_table_heap st card_map dbv s aIq) aIq with
            | error e =>
              rw [h2] at h
              dsimp only [] at h
              have h3 := Option.some.inj h
              subst h3
              exact hstep1
            | ok s2 =>
              rw [h2] at h
              dsimp only [] at h
              have hstep2 := remap_joins_heap_stepOK hstep1.2 haIq h2
              cases h3 : remap_query_clauses_heap st.field_map dbv fuel s2
                  aIq clauseKeys with
              | none => rw [h3] at h; cases h
              | some s3 =>
                rw [h3] at h
                dsimp only [] at h
                have hstep3 := remap_query_clauses_heap_stepOK clauseKeys s2
                  aIq s3 hstep2.2 haIq h3
                have h4 := Option.some.inj h
                subst h4
                exact stepOK_trans hstep1 (stepOK_trans hstep2 hstep3)
      | pnull =>
        dsimp only [] at h
        have h1 := Option.some.inj h
        subst h1
        exact stepOK_refl hi
      | pbool b =>
        dsimp only [] at h
        have h1 := Option.some.inj h
        subst h1
        exact stepOK_refl hi
      | pint m =>
        dsimp only [] at h
        have h1 := Option.some.inj h
        subst h1
        exact stepOK_refl hi
      | pstr t =>
        dsimp only [] at h
        have h1 := Option.some.inj h
        subst h1
        exact stepOK_refl hi

theorem rcqGetQuery_spec {n : Nat} {s : Store} {aData : Nat}
    (hi : regionInv n s) (ha : n ≤ aData) :
    stepOK n s (rcqGetQuery s aData).2 ∧
      ∀ r ∈ valRefs (rcqGetQuery s aData).1, n ≤ r := by
  unfold rcqGetQuery
  cases h0 : dictGetCell s aData "dataset_query" with
  | some v =>
    exact ⟨stepOK_refl hi, dictGetCell_region_val hi.2 ha h0⟩
  | none =>
    dsimp only []
    refine ⟨alloc_stepOK _ hi (by simp [objRefs, kvalsRefs]), ?_⟩
    intro r hr
    simp only [alloc_fst, valRefs, List.mem_singleton] at hr
    subst hr
    exact hi.1

theorem rcqWrites_stepOK {n : Nat} {st : IDRemapperState}
    {card_map : List (Int × Int)} {fuel : Nat} {s : Store} {aData aQ : Nat}
    {srcV : PVal} {t : Int} {rp : Option PyErr × Store}
    (hi : regionInv n s) (hd : n ≤ aData) (hq : n ≤ aQ)
    (h : rcqWrites st card_map fuel s aData aQ srcV t = some rp) :
    stepOK n s rp.2 := by
  unfold rcqWrites at h
  dsimp only [] at h
  have hstep3 : stepOK n s (dictSetCell s aQ "database" (.pint t)) :=
    dictSetCell_stepOK _ _ _ hi hq (by simp [valRefs])
  have hstep4 : stepOK n s
      (if (dictGetCell (dictSetCell s aQ "database" (.pint t)) aData
            "database_id").isSome = true
       then dictSetCell (dictSetCell s aQ "database" (.pint t)) aData
            "database_id" (.pint t)
       else dictSetCell s aQ "database" (.pint t)) := by
    split
    · exact stepOK_trans hstep3
        (dictSetCell_stepOK _ _ _ hstep3.2 hd (by simp [valRefs]))
    · exact hstep3
  have hstep5 := stepOK_trans hstep4
    (remap_table_id_heap_stepOK st srcV _ aData hstep4.2 hd)
  cases h5 : remap_inner_query_heap st card_map srcV fuel
      (remap_table_id_heap st srcV
        (if (dictGetCell (dictSetCell s aQ "database" (.pint t)) aData
              "database_id").isSome = true
         then dictSetCell (dictSetCell s aQ "database" (.pint t)) aData
              "database_id" (.pint t)
         else dictSetCell s aQ "database" (.pint t)) aData) aQ with
  | none => rw [h5] at h; cases h
  | some rp1 =>
    rw [h5] at h
    obtain ⟨oe, s6⟩ := rp1
    have hstep6 := stepOK_trans hstep5
      (remap_inner_query_heap_stepOK hstep5.2 hq h5)
    cases oe with
    | some e =>
      dsimp only [] at h
      have h6 := Option.some.inj h
      subst h6
      exact hstep6
    | none =>
      dsimp only [] at h
      cases h7 : remap_result_metadata_heap st srcV fuel s6 aData with
      | none => rw [h7] at h; cases h
      | some s7 =>
        rw [h7] at h
        dsimp only [] at h
        have hstep7 := stepOK_trans hstep6
          (remap_result_metadata_heap_stepOK hstep6.2 hd h7)
        cases h8 : remap_viz_heap st.field_map srcV fuel s7 aData with
        | none => rw [h8] at h; cases h
        | some s8 =>
          rw [h8] at h
          dsimp only [] at h
          have h9 := Option.some.inj h
          subst h9
          exact stepOK_trans hstep7 (remap_viz_heap_stepOK hstep7.2 hd h8)

theorem rcqAfterCopy_stepOK {n : Nat} {st : IDRemapperState}
    {card_map : List (Int × Int)} {fuel : Nat} {s : Store} {dataV : PVal}
    {rp : Except PyErr (PVal × Bool) × Store} (hi : regionInv n s)
    (hdv : ∀ r ∈ valRefs dataV, n ≤ r)
    (h : rcqAfterCopy st card_map fuel s dataV = some rp) :
    stepOK n s rp.2 := by
  cases dataV with
  | pref aData =>
    have ha : n ≤ aData := hdv aData (by simp [valRefs])
    unfold rcqAfterCopy at h
    dsimp only [] at h
    cases h0 : lookupCell s aData with
    | none =>
      rw [h0] at h
      dsimp only [] at h
      have h1 := Option.some.inj h
      subst h1
      exact stepOK_refl hi
    | some o =>
      cases o with
      | plist xs =>
        rw [h0] at h
        dsimp only [] at h
        have h1 := Option.some.inj h
        subst h1
        exact stepOK_refl hi
      | pdict kvs0 =>
        rw [h0] at h
        dsimp only [] at h
        obtain ⟨hqstep, hqrefs⟩ := rcqGetQuery_spec hi ha
        cases h1 : rcqSource (rcqGetQuery s aData).2 aData
            (rcqGetQuery s aData).1 with
        | error e =>
          rw [h1] at h
          dsimp only [] at h
          have h2 := Option.some.inj h
          subst h2
          exact hqstep
        | ok srcV =>
          rw [h1] at h
          dsimp only [] at h
          split at h
          · have h2 := Option.some.inj h
            subst h2
            exact hqstep
          · cases h2 : resolveDbAnyV st srcV with
            | error e =>
              rw [h2] at h
              dsimp only [] at h
              have h3 := Option.some.inj h
              subst h3
              exact hqstep
            | ok topt =>
              rw [h2] at h
              cases topt with
              | none =>
                dsimp only [] at h
                have h3 := Option.some.inj h
                subst h3
                exact hqstep
              | some t =>
                dsimp only [] at h
                split at h
                · have h3 := Option.some.inj h
                  subst h3
                  exact hqstep
                · cases hq1 : (rcqGetQuery s aData).1 with
                  | pref aQ =>
                    rw [hq1] at h
                    dsimp only [] at h
                    have haQ : n ≤ aQ := by
                      rw [hq1] at hqrefs
                      exact hqrefs aQ (by simp [valRefs])
                    cases h3 : lookupCell (rcqGetQuery s aData).2 aQ with
                    | none =>
                      rw [h3] at h
                      dsimp only [] at h
                      have h4 := Option.some.inj h
                      subst h4
                      exact hqstep
                    | some o2 =>
                      cases o2 with
                      | plist xs2 =>
                        rw [h3] at h
                        dsimp only [] at h
                        have h4 := Option.some.inj h
                        subst h4
                        exact hqstep
                      | pdict kvs2 =>
                        rw [h3] at h
                        dsimp only [] at h
                        cases h4 : rcqWrites st card_map fuel
                            (rcqGetQuery s aData).2 aData aQ srcV t with
                        | none => rw [h4] at h; cases h
                        | some rp2 =>
                          rw [h4] at h
                          obtain ⟨oe, sF⟩ := rp2
                          have hw := rcqWrites_stepOK hqstep.2 ha haQ h4
                          cases oe with
                          | some e =>
                            dsimp only [] at h
                            have h5 := Option.some.inj h
                            subst h5
                            exact stepOK_trans hqstep hw
                          | none =>
                            dsimp only [] at h
                            have h5 := Option.some.inj h
                            subst h5
                            exact stepOK_trans hqstep hw
                  | pnull =>
                    rw [hq1] at h
                    dsimp only [] at h
                    have h3 := Option.some.inj h
                    subst h3
                    exact hqstep
                  | pbool b =>
                    rw [hq1] at h
                    dsimp only [] at h
                    have h3 := Option.some.inj h
                    subst h3
                    exact hqstep
                  | pint m =>
                    rw [hq1] at h
                    dsimp only [] at h
                    have h3 := Option.some.inj h
                    subst h3
                    exact hqstep
                  | pstr t1 =>
                    rw [hq1] at h
                    dsimp only [] at h
                    have h3 := Option.some.inj h
                    subst h3
                    exact hqstep
  | pnull =>
    simp only [rcqAfterCopy] at h
    have h1 := Option.some.inj h
    subst h1
    exact stepOK_refl hi
  | pbool b =>
    simp only [rcqAfterCopy] at h
    have h1 := Option.some.inj h
    subst h1
    exact stepOK_refl hi
  | pint m =>
    simp only [rcqAfterCopy] at h
    have h1 := Option.some.inj h
    subst h1
    exact stepOK_refl hi
  | pstr t =>
    simp only [rcqAfterCopy] at h
    have h1 := Option.some.inj h
    subst h1
    exact stepOK_refl hi

/-- C9: `remap_card_query` never mutates its input: every rewrite is
performed on the `copy.deepcopy` of the payload taken first
(`src/lib/id_remapping.py`, line 240), and `remap_field_ids_recursively`
returns freshly built containers.  In the heap model: starting from a
well-formed heap and an input value rooted below the fresh-address
watermark, every outcome of `remap_card_query_heap` — the `(data, False)`
early return, the `(data, True)` success, or a raised exception, paired with
the heap at that moment — leaves every pre-existing cell unchanged, and the
tree decoded from the input root is unchanged at every dereference depth. -/
theorem c9_remap_no_input_mutation (st : IDRemapperState)
    (card_map : List (Int × Int)) (fuel : Nat) (s0 : Store) (card : PVal)
    (hwf : storeWF s0) (hcard : ∀ r ∈ valRefs card, r < s0.next) :
    ∀ rs ∈ remap_card_query_heap st card_map fuel s0 card,
      (∀ a, a < s0.next → lookupCell rs.2 a = lookupCell s0 a) ∧
      ∀ f, decodeVal rs.2 f card = decodeVal s0 f card := by
  intro rs hrs
  rw [Option.mem_def] at hrs
  unfold remap_card_query_heap at hrs
  cases hd : decodeVal s0 fuel card with
  | none => rw [hd] at hrs; cases hrs
  | some pj =>
    rw [hd] at hrs
    dsimp only [] at hrs
    obtain ⟨hestep, henext, herefs⟩ :=
      encodeVal_stepOK pj s0 (storeWF_regionInv hwf)
    have hstep := rcqAfterCopy_stepOK hestep.2 herefs hrs
    have hag : agreeBelow s0.next s0 rs.2 := (stepOK_trans hestep hstep).1
    refine ⟨hag, ?_⟩
    intro f
    exact decodeVal_agree hag (fun a o hl => storeWF_cell_refs hwf hl) f card
      hcard

/-- Witness for C9: a one-cell heap holding the payload
`\x7b"database_id": 1\x7d`, a database map sending `"1"` to `5`, and fuel 4;
the run succeeds and the theorem's hypotheses hold by evaluation. -/
theorem c9_remap_no_input_mutation_witness :
    storeWF ⟨[(0, PObj.pdict [("database_id", PVal.pint 1)])], 1⟩ ∧
    (∀ r ∈ valRefs (PVal.pref 0), r < (1 : Nat)) ∧
    ∀ rs ∈ remap_card_query_heap ⟨⟨[("1", 5)], []⟩, [], [], []⟩ [] 4
        ⟨[(0, PObj.pdict [("database_id", PVal.pint 1)])], 1⟩ (PVal.pref 0),
      (∀ a, a < (1 : Nat) →
        lookupCell rs.2 a =
          lookupCell ⟨[(0, PObj.pdict [("database_id", PVal.pint 1)])], 1⟩ a) ∧
      ∀ f, decodeVal rs.2 f (PVal.pref 0) =
        decodeVal ⟨[(0, PObj.pdict [("database_id", PVal.pint 1)])], 1⟩ f
          (PVal.pref 0) :=
  ⟨by decide, by decide,
    c9_remap_no_input_mutation ⟨⟨[("1", 5)], []⟩, [], [], []⟩ [] 4
      ⟨[(0, PObj.pdict [("database_id", PVal.pint 1)])], 1⟩ (PVal.pref 0)
      (by decide) (by decide)⟩

end MetabaseMigration
